import Mathlib

/-!
# token-2022-refill-bot: swap execution pipeline and retry wrapper

A shallow embedding of `internal/utils/retry.go`, `internal/bot/trader.go`,
`internal/jupiter/client.go` and the parts of `pkg/token2022` and
`internal/config` they use.

Conventions of the embedding

* Go `error` values are terms of `Err`; `fmt.Errorf("...: %w", err)` is a
  constructor that carries its cause.
* A Go call either returns a value, returns an error, or panics: `Result`.
* Effects are explicit: every call to a collaborator appends an `Event` to a
  log, and the collaborator's answer is a function of the log so far, so a
  collaborator may answer differently on every call.
* `float64` and `big.Float` values are exact rationals (or an infinity, or
  NaN) and every arithmetic operation rounds to nearest-even at its
  precision, as IEEE-754 binary64 and `math/big` do.  Signed zeros are not
  distinguished: no operation used here depends on the sign of a zero.
* Logging calls are omitted, except where evaluating their arguments can
  panic (string slicing).
-/

namespace Refill

/-! ## Outcomes and errors -/

/-- Go `error` values produced by the modelled code. -/
inductive Err where
  /-- an error of a collaborator outside the repository (HTTP transport, RPC, context) -/
  | external (msg : String)
  /-- `fmt.Errorf("rate limit error: %w", err)` -/
  | rateLimit (cause : Err)
  /-- `fmt.Errorf("failed to get quote: %w", err)`, in `Client.GetQuote` and in `Trader.ExecuteSwap` -/
  | getQuote (cause : Err)
  /-- `fmt.Errorf("API error: %s", body)` -/
  | apiError (body : String)
  /-- `fmt.Errorf("failed to decode quote response: %w", err)` -/
  | decodeQuoteResponse (cause : Err)
  /-- `fmt.Errorf("failed to get output token info: %w", err)` -/
  | outputTokenInfo (cause : Err)
  /-- `fmt.Errorf("failed to get input token info: %w", err)` -/
  | inputTokenInfo (cause : Err)
  /-- `fmt.Errorf("failed to marshal swap request: %w", err)` -/
  | marshalSwapRequest (cause : Err)
  /-- `fmt.Errorf("failed to submit swap request: %w", err)` -/
  | submitSwapRequest (cause : Err)
  /-- `fmt.Errorf("failed to decode swap response: %w", err)` -/
  | decodeSwapResponse (cause : Err)
  /-- `fmt.Errorf("failed to decode swap transaction: %w", err)` -/
  | decodeSwapTransaction (cause : Err)
  /-- `fmt.Errorf("failed to deserialize transaction: %w", err)` -/
  | deserializeTransaction (cause : Err)
  /-- the error of `tx.Sign` when the key getter returns nil for a required signer -/
  | signerKeyNotFound (key : String)
  /-- `fmt.Errorf("failed to sign transaction: %w", err)` -/
  | signTransaction (cause : Err)
  /-- `fmt.Errorf("failed to send transaction: %w", err)` -/
  | sendTransaction (cause : Err)
  /-- `fmt.Errorf("operation failed after %d retries: %w", maxRetries, lastErr)` -/
  | retriesExhausted (maxRetries : Int) (lastErr : Err)
  /-- the same with `lastErr == nil`, when the loop body never ran -/
  | retriesExhaustedNil (maxRetries : Int)
  /-- `fmt.Errorf("insufficient balance for swap: ...")` -/
  | insufficientBalance
  /-- `fmt.Errorf("failed to parse price impact: %w", err)` -/
  | parsePriceImpact (cause : Err)
  /-- `fmt.Errorf("failed to calculate price impact: %w", err)` -/
  | calculatePriceImpact (cause : Err)
  /-- `fmt.Errorf("price impact too high: ...")` -/
  | priceImpactTooHigh
  /-- `fmt.Errorf("failed to execute swap: %w", err)` -/
  | executeSwap (cause : Err)
  /-- `fmt.Errorf("data too short for transfer fee")` -/
  | tooShortTransferFee
  /-- `fmt.Errorf("not a transfer fee extension")` -/
  | notTransferFee
  /-- `fmt.Errorf("data too short for interest rate")` -/
  | tooShortInterestRate
  /-- `fmt.Errorf("not an interest bearing extension")` -/
  | notInterestBearing
  /-- `fmt.Errorf("data too short for permanent delegate")` -/
  | tooShortPermanentDelegate
  /-- `fmt.Errorf("not a permanent delegate extension")` -/
  | notPermanentDelegate
  /-- `fmt.Errorf("data too short for authorities")` -/
  | tooShortAuthorities
  /-- `fmt.Errorf("failed to get balance: %w", err)` -/
  | getBalance (cause : Err)
  /-- `fmt.Errorf("invalid wallet address: %w", err)` -/
  | invalidWalletAddress (cause : Err)
  /-- `fmt.Errorf("dividend address not configured")` -/
  | dividendAddressNotConfigured
  /-- `fmt.Errorf("invalid dividend address: %w", err)` -/
  | invalidDividendAddress (cause : Err)
  /-- `fmt.Errorf("failed to load dividend cache: %w", err)` -/
  | loadDividendCache (cause : Err)
  /-- `fmt.Errorf("failed to get signatures: %w", err)` -/
  | getSignatures (cause : Err)
  /-- `fmt.Errorf("invalid token address: %w", err)` -/
  | invalidTokenAddress (cause : Err)
  /-- `fmt.Errorf("failed to fetch account info: %w", err)` -/
  | fetchAccountInfo (cause : Err)
  /-- `fmt.Errorf("account not found")` -/
  | accountNotFound
  /-- `fmt.Errorf("balance check error: %w", check.Error)` -/
  | balanceCheckError (cause : Err)
  /-- `fmt.Errorf("swap failed: %w", err)` -/
  | swapFailed (cause : Err)
  /-- `fmt.Errorf("monitor error: %w", err)` -/
  | monitorError (cause : Err)
  /-- `ctx.Err()` of a context that is done -/
  | contextDone
  deriving DecidableEq, Repr

/-- Run-time panics the modelled code can raise. -/
inductive Panic where
  /-- slice bounds out of range: `s[:8]` on a string shorter than 8 bytes, `b[lo:hi]` on a
  byte slice of capacity below `hi` -/
  | sliceBounds
  /-- index out of range: `b[i]` with `i` not below the length -/
  | indexOutOfRange
  /-- nil pointer dereference -/
  | nilDereference
  /-- `time.NewTicker(d)` with `d <= 0`: "non-positive interval for NewTicker" -/
  | nonPositiveInterval
  /-- `big.ErrNaN`: `SetFloat64(NaN)`, `0 * Inf`, `0 / 0`, `Inf / Inf` -/
  | errNaN
  deriving DecidableEq, Repr

/-- Outcome of a Go call with signature `(T, error)`. -/
inductive Result (α : Type) where
  | ok (val : α)
  | err (e : Err)
  | panic (p : Panic)
  deriving DecidableEq, Repr

/-! ## Floating point

`float64` (IEEE-754 binary64) and `math/big.Float` values, with exact rounding. -/

/-- `2 ^ e` as a rational, for an integer exponent. -/
def pow2 (e : ℤ) : ℚ :=
  if 0 ≤ e then ((2 ^ e.toNat : ℕ) : ℚ) else 1 / ((2 ^ (-e).toNat : ℕ) : ℚ)

/-- Number of binary digits by repeated halving; `fuel` bounds the number of halvings. -/
def bitLenAux : ℕ → ℕ → ℕ
  | 0, _ => 0
  | fuel + 1, n => if n = 0 then 0 else bitLenAux fuel (n / 2) + 1

/-- Number of binary digits of `n` (0 for 0). -/
def bitLen (n : ℕ) : ℕ := bitLenAux n n

/-- The binary exponent of a positive rational: the `e` with `2 ^ e ≤ q < 2 ^ (e + 1)`. -/
def ilog2 (q : ℚ) : ℤ :=
  let a : ℤ := (bitLen q.num.natAbs : ℤ) - (bitLen q.den : ℤ)
  if pow2 a ≤ q then a else a - 1

/-- Round to the nearest integer, ties to the even one. -/
def roundHalfEven (m : ℚ) : ℤ :=
  let f : ℤ := ⌊m⌋
  let r : ℚ := m - f
  if r < 1 / 2 then f else if 1 / 2 < r then f + 1 else if f % 2 = 0 then f else f + 1

/-- Round to a multiple of `quantum`: nearest, ties to the even multiple. -/
def roundToQuantum (quantum q : ℚ) : ℚ :=
  (roundHalfEven (q / quantum) : ℚ) * quantum

/-- Round to `prec` significant bits with an unbounded exponent: the rounding of a
`big.Float` of precision `prec` in its default mode `ToNearestEven`. -/
def roundPrec (prec : ℕ) (q : ℚ) : ℚ :=
  if q = 0 then 0 else roundToQuantum (pow2 (ilog2 |q| - prec + 1)) q

/-- A `float64`: a finite value, an infinity or NaN. -/
inductive F64 where
  | fin (v : ℚ)
  | inf (neg : Bool)
  | nan
  deriving Repr

instance : DecidableEq F64 := fun a b =>
  match a, b with
  | F64.fin x, F64.fin y =>
    if h : x = y then isTrue (congrArg F64.fin h) else isFalse (fun h1 => h (F64.fin.inj h1))
  | F64.inf x, F64.inf y =>
    if h : x = y then isTrue (congrArg F64.inf h) else isFalse (fun h1 => h (F64.inf.inj h1))
  | F64.nan, F64.nan => isTrue rfl
  | F64.fin _, F64.inf _ => isFalse (fun h => F64.noConfusion h)
  | F64.fin _, F64.nan => isFalse (fun h => F64.noConfusion h)
  | F64.inf _, F64.fin _ => isFalse (fun h => F64.noConfusion h)
  | F64.inf _, F64.nan => isFalse (fun h => F64.noConfusion h)
  | F64.nan, F64.fin _ => isFalse (fun h => F64.noConfusion h)
  | F64.nan, F64.inf _ => isFalse (fun h => F64.noConfusion h)

/-- Round a rational to binary64: 53 significant bits, subnormals on the grid `2 ^ -1074`,
overflow to an infinity from `2 ^ 1024` on. -/
def roundF64 (q : ℚ) : F64 :=
  if q = 0 then F64.fin 0 else
    let r := roundToQuantum (pow2 (max (ilog2 |q|) (-1022) - 52)) q
    if pow2 1024 ≤ |r| then F64.inf (decide (q < 0)) else F64.fin r

namespace F64

/-- Conversion `float64(n)` of an unsigned integer. -/
def ofNat (n : ℕ) : F64 := roundF64 n

/-- `math.Abs`. -/
def abs : F64 → F64
  | fin v => fin |v|
  | inf _ => inf false
  | nan => nan

/-- The comparison `a < b`; false when either side is NaN. -/
def lt : F64 → F64 → Bool
  | fin x, fin y => decide (x < y)
  | fin _, inf neg => !neg
  | inf neg, fin _ => neg
  | inf a, inf b => a && !b
  | _, _ => false

/-- The comparison `a > b`. -/
def gt (a b : F64) : Bool := lt b a

/-- The comparison `a <= b`; false when either side is NaN. -/
def le : F64 → F64 → Bool
  | fin x, fin y => decide (x ≤ y)
  | fin _, inf neg => !neg
  | inf neg, fin _ => neg
  | inf a, inf b => a || !b
  | _, _ => false

/-- The comparison `a >= b`. -/
def ge (a b : F64) : Bool := le b a

/-- The sum `a + b`. -/
def add : F64 → F64 → F64
  | fin x, fin y => roundF64 (x + y)
  | fin _, inf s => inf s
  | inf s, fin _ => inf s
  | inf s, inf t => if s = t then inf s else nan
  | _, _ => nan

/-- The difference `a - b`. -/
def sub : F64 → F64 → F64
  | fin x, fin y => roundF64 (x - y)
  | fin _, inf s => inf (!s)
  | inf s, fin _ => inf s
  | inf s, inf t => if s = t then nan else inf s
  | _, _ => nan

/-- The product `a * b`. -/
def mul : F64 → F64 → F64
  | fin x, fin y => roundF64 (x * y)
  | fin x, inf s => if x = 0 then nan else inf (xor s (decide (x < 0)))
  | inf s, fin y => if y = 0 then nan else inf (xor s (decide (y < 0)))
  | inf s, inf t => inf (xor s t)
  | _, _ => nan

/-- The quotient `a / b`.  A zero divisor is taken as `+0`; the modelled code divides
only by `100.0` and by entries of the table of powers of ten. -/
def div : F64 → F64 → F64
  | fin x, fin y =>
    if y = 0 then (if x = 0 then nan else inf (decide (x < 0))) else roundF64 (x / y)
  | fin _, inf _ => fin 0
  | inf s, fin y => inf (xor s (decide (y < 0)))
  | _, _ => nan

end F64

/-- The table `pow10tab` of `math`: the constants `1e00 .. 1e31`. -/
def pow10tab (k : ℕ) : F64 := roundF64 ((10 ^ k : ℕ) : ℚ)

/-- The table `pow10postab32` of `math`: the constants `1e00, 1e32, .., 1e288`. -/
def pow10postab32 (k : ℕ) : F64 := roundF64 ((10 ^ (32 * k) : ℕ) : ℚ)

/-- The table `pow10negtab32` of `math`: the constants `1e-00, 1e-32, .., 1e-320`. -/
def pow10negtab32 (k : ℕ) : F64 := roundF64 (1 / ((10 ^ (32 * k) : ℕ) : ℚ))

/-- `math.Pow10(n)` of the Go standard library. -/
def Pow10 (n : ℤ) : F64 :=
  if 0 ≤ n ∧ n ≤ 308 then
    F64.mul (pow10postab32 (n.toNat / 32)) (pow10tab (n.toNat % 32))
  else if -323 ≤ n ∧ n ≤ 0 then
    F64.div (pow10negtab32 ((-n).toNat / 32)) (pow10tab ((-n).toNat % 32))
  else if n > 0 then F64.inf false
  else F64.fin 0

/-- A `big.Float`: its precision (mantissa bits) and a finite value or an infinity.
The exponent range of `big.Float` (32 bits) is never left by the modelled code. -/
inductive BigFloat where
  | fin (prec : ℕ) (v : ℚ)
  | inf (prec : ℕ) (neg : Bool)
  deriving DecidableEq, Repr

namespace BigFloat

/-- Precision of a `big.Float`. -/
def prec : BigFloat → ℕ
  | fin p _ => p
  | inf p _ => p

/-- `new(big.Float).SetFloat64(x)`: precision 0 becomes 53; panics with `ErrNaN` on NaN. -/
def SetFloat64 : F64 → Except Panic BigFloat
  | F64.fin v => Except.ok (fin 53 (roundPrec 53 v))
  | F64.inf s => Except.ok (inf 53 s)
  | F64.nan => Except.error Panic.errNaN

/-- `new(big.Float).Mul(x, y)`: the receiver's precision 0 becomes the larger of the
operands' precisions and the product is rounded to it; `0 * Inf` panics. -/
def Mul (x y : BigFloat) : Except Panic BigFloat :=
  let p := max x.prec y.prec
  match x, y with
  | fin _ a, fin _ b => Except.ok (fin p (roundPrec p (a * b)))
  | fin _ a, inf _ s =>
    if a = 0 then Except.error Panic.errNaN else Except.ok (inf p (xor s (decide (a < 0))))
  | inf _ s, fin _ b =>
    if b = 0 then Except.error Panic.errNaN else Except.ok (inf p (xor s (decide (b < 0))))
  | inf _ s, inf _ t => Except.ok (inf p (xor s t))

/-- `new(big.Float).Add(x, y)`: rounded to the larger precision; `Inf + -Inf` panics. -/
def Add (x y : BigFloat) : Except Panic BigFloat :=
  let p := max x.prec y.prec
  match x, y with
  | fin _ a, fin _ b => Except.ok (fin p (roundPrec p (a + b)))
  | fin _ _, inf _ s => Except.ok (inf p s)
  | inf _ s, fin _ _ => Except.ok (inf p s)
  | inf _ s, inf _ t => if s = t then Except.ok (inf p s) else Except.error Panic.errNaN

/-- `new(big.Float).Quo(x, y)`: rounded to the larger precision; `0 / 0` and `Inf / Inf`
panic.  A zero divisor is taken as `+0`. -/
def Quo (x y : BigFloat) : Except Panic BigFloat :=
  let p := max x.prec y.prec
  match x, y with
  | fin _ a, fin _ b =>
    if b = 0 then
      (if a = 0 then Except.error Panic.errNaN else Except.ok (inf p (decide (a < 0))))
    else Except.ok (fin p (roundPrec p (a / b)))
  | fin _ _, inf _ _ => Except.ok (fin p 0)
  | inf _ s, fin _ b => Except.ok (inf p (xor s (decide (b < 0))))
  | inf _ _, inf _ _ => Except.error Panic.errNaN

/-- `x.Uint64()`: truncation toward zero, 0 below 0, `math.MaxUint64` above it. -/
def Uint64 : BigFloat → ℕ
  | fin _ v => if v < 0 then 0 else if ((2 ^ 64 - 1 : ℕ) : ℚ) < v then 2 ^ 64 - 1 else ⌊v⌋.toNat
  | inf _ neg => if neg then 0 else 2 ^ 64 - 1

/-- `x.Float64()`: the nearest `float64`. -/
def Float64 : BigFloat → F64
  | fin _ v => roundF64 v
  | inf _ s => F64.inf s

end BigFloat

/-! ## internal/utils/retry.go -/

/-- The `for i := 0; i <= maxRetries; i++` loop of `WithRetry`.  `remaining` is the
number of iterations still to run, `i` the loop counter, `lastErr` the variable of
the same name; `sleep` is the effect of `time.Sleep(delay)` on the world.  It
returns the first success, or `lastErr` when the iterations are used up; a panic
of `fn` unwinds through the loop. -/
def WithRetry.loop {σ α : Type} (fn : σ → Result α × σ) (sleep : σ → σ) :
    Nat → Nat → Option Err → σ → (Result α ⊕ Option Err) × σ
  | 0, _, lastErr, s => (Sum.inr lastErr, s)
  | remaining + 1, i, _, s =>
    let s1 := if i > 0 then sleep s else s
    match fn s1 with
    | (Result.ok result, s2) => (Sum.inl (Result.ok result), s2)
    | (Result.panic p, s2) => (Sum.inl (Result.panic p), s2)
    | (Result.err e, s2) => WithRetry.loop fn sleep remaining (i + 1) (some e) s2

/-- `WithRetry(fn, maxRetries, delay)`: the loop runs for `i = 0 .. maxRetries`, that is
`maxRetries + 1` times when `maxRetries ≥ 0` and not at all when it is negative.
(The counter is a Go `int`; the model is the code's for `maxRetries < 2^63 - 1`.) -/
def WithRetry {σ α : Type} (fn : σ → Result α × σ) (sleep : σ → σ) (maxRetries : Int)
    (s : σ) : Result α × σ :=
  match WithRetry.loop fn sleep (maxRetries + 1).toNat 0 none s with
  | (Sum.inl r, s1) => (r, s1)
  | (Sum.inr (some lastErr), s1) => (Result.err (Err.retriesExhausted maxRetries lastErr), s1)
  | (Sum.inr none, s1) => (Result.err (Err.retriesExhaustedNil maxRetries), s1)

/-- Instrumentation: `fn` with a counter of its calls next to the world. -/
def counting {σ α : Type} (fn : σ → Result α × σ) : σ × Nat → Result α × (σ × Nat) :=
  fun s => ((fn s.1).1, ((fn s.1).2, s.2 + 1))

/-- Instrumentation: a sleep that leaves the call counter alone. -/
def countingSleep {σ : Type} (sleep : σ → σ) : σ × Nat → σ × Nat :=
  fun s => (sleep s.1, s.2)

/-- The world in which the `k`-th call (counting from 0) of `fn` under `WithRetry` starts,
when all earlier calls returned an error: a sleep precedes every call but the first. -/
def worldAt {σ α : Type} (fn : σ → Result α × σ) (sleep : σ → σ) (s : σ) : Nat → σ
  | 0 => s
  | k + 1 => sleep (fn (worldAt fn sleep s k)).2


/-! ## Data model -/

/-- `token2022.TransferFee`. -/
structure TransferFee where
  /-- `uint16` -/
  BasisPoints : ℕ
  /-- `uint64` -/
  MaximumFee : ℕ
  /-- the 32 bytes of the collector's public key -/
  CollectorWallet : List ℕ
  deriving DecidableEq, Repr

/-- `token2022.InterestRate`. -/
structure InterestRate where
  CurrentRate : ℕ
  APY : F64
  LastUpdateSlot : ℕ
  deriving Repr

/-- `token2022.TokenInfo`; the display fields (logo, volume, dates) and the untyped
`Extensions` map are not read by the modelled code and are left out. -/
structure TokenInfo where
  Address : String
  Name : String
  Symbol : String
  Decimals : ℤ
  Tags : List String
  TransferFee : Option TransferFee
  InterestRate : Option InterestRate
  PermanentDelegate : Option String
  FreezeAuthority : Option String
  MintAuthority : Option String
  deriving Repr

/-- `jupiter.SwapInfo`. -/
structure SwapInfo where
  AmmKey : String
  Label : String
  InputMint : String
  OutputMint : String
  InAmount : String
  OutAmount : String
  FeeAmount : String
  FeeMint : String
  deriving DecidableEq, Repr

/-- `jupiter.Route`. -/
structure Route where
  SwapInfo : SwapInfo
  Percent : ℤ
  deriving DecidableEq, Repr

/-- `jupiter.Quote`; `PlatformFee`, `ContextSlot` and `TimeTaken` are carried through
unread and are left out. -/
structure Quote where
  InputMint : String
  OutputMint : String
  InAmount : String
  OutAmount : String
  OtherAmountThreshold : String
  SwapMode : String
  SlippageBps : ℤ
  PriceImpactPct : String
  RoutePlan : List Route
  deriving DecidableEq, Repr

/-- `jupiter.SwapRequest`. -/
structure SwapRequest where
  UserPublicKey : String
  WrapAndUnwrapSol : Bool
  UseSharedAccounts : Bool
  PrioritizationFeeLamports : ℤ
  AsLegacyTransaction : Bool
  UseTokenLedger : Bool
  DynamicComputeUnitLimit : Bool
  SkipUserAccountsRpcCalls : Bool
  QuoteResponse : Quote
  ComputeUnitLimit : ℤ
  ComputeUnitPrice : ℤ
  deriving DecidableEq, Repr

/-- `jupiter.SwapResponse`. -/
structure SwapResponse where
  SwapTransaction : String
  deriving DecidableEq, Repr

/-- A deserialized `solana.Transaction`: the public keys that must sign it, in order,
and the rest of its content. -/
structure Transaction where
  signerKeys : List String
  message : List ℕ
  deriving DecidableEq, Repr

/-- A `solana.Wallet`, by its public key in base58 (32 to 44 characters). -/
structure Wallet where
  PublicKey : String
  deriving DecidableEq, Repr

/-- The query of the quote request, as `Client.GetQuote` formats it into the URL. -/
structure QuoteURL where
  endpoint : String
  inputMint : String
  outputMint : String
  amount : ℕ
  onlyDirectRoutes : Bool
  /-- `&slippageBps=%d` when present, `&dynamicSlippage=true` when absent -/
  slippageBps : Option ℤ
  /-- `&dexes=%s` when present -/
  dexes : Option String
  deriving DecidableEq, Repr

/-- `config.WalletConfig` (the private key apart). -/
structure WalletConfig where
  MinSolBalance : F64
  ReserveAmount : F64

/-- `config.TokenConfig`, the fields read by the swap pipeline and by the dividend
ledger. -/
structure TokenConfig where
  InputMint : String
  OutputMint : String
  SwapAmount : F64
  /-- `uint64` -/
  SlippageBPS : ℕ
  /-- the address whose transfers to the wallet count as dividends -/
  DividendMint : String

/-- `config.MonitorConfig`. -/
structure MonitorConfig where
  CheckIntervalMinutes : ℤ
  MaxRetries : ℤ
  RetryDelaySeconds : ℤ

/-- `config.JupiterConfig`, the fields read by the quote/swap client. -/
structure JupiterConfig where
  QuoteEndpoint : String
  SwapEndpoint : String
  OnlyDirectRoutes : Bool

/-- `config.Config`. -/
structure Config where
  Wallet : WalletConfig
  Token : TokenConfig
  Monitor : MonitorConfig
  Jupiter : JupiterConfig

/-! ## The world -/

/-- What the modelled code does to the outside, in the order it does it. -/
inductive Event where
  /-- a call of `tokenClient.GetTokenInfo(ctx, address)` -/
  | tokenInfo (address : String)
  /-- entry into `jupiterClient.GetQuote` -/
  | jupiterGetQuote (inputMint outputMint : String) (amount : ℕ) (slippageBps : ℤ)
      (dexes : String)
  /-- `rateLimiter.Wait(ctx)` -/
  | rateWait
  /-- `httpClient.Get(url)` on the quote endpoint -/
  | httpGet (url : QuoteURL)
  /-- entry into `jupiterClient.ExecuteSwap` -/
  | jupiterExecuteSwap (quote : Quote) (priorityFee : ℤ)
  /-- `httpClient.Post` on the swap endpoint -/
  | httpPost (endpoint : String) (req : SwapRequest)
  /-- `rpcClient.SendTransaction(ctx, tx)` -/
  | sendTransaction (tx : Transaction)
  /-- `time.Sleep` for that many seconds -/
  | sleep (seconds : ℤ)
  deriving DecidableEq, Repr

/-- The collaborators outside the modelled code.  Those that talk to the outside answer
as a function of everything that happened before the call. -/
structure Env where
  /-- `token2022.Client.GetTokenInfo` -/
  getTokenInfo : List Event → String → Result TokenInfo
  /-- `rateLimiter.Wait(ctx)`: the error, if the wait is aborted -/
  rateWait : List Event → Option Err
  /-- `httpClient.Get(url)`: a transport error, or status code and body -/
  httpGet : List Event → QuoteURL → Except Err (ℕ × String)
  /-- `json.NewDecoder(resp.Body).Decode(&quote)` -/
  decodeQuote : String → Except Err Quote
  /-- `json.Marshal(req)` -/
  marshal : SwapRequest → Except Err String
  /-- `httpClient.Post(endpoint, "application/json", body)` -/
  httpPost : List Event → String → SwapRequest → Except Err (ℕ × String)
  /-- `json.NewDecoder(resp.Body).Decode(&swapResp)` -/
  decodeSwapResponse : String → Except Err SwapResponse
  /-- `base64.StdEncoding.DecodeString` -/
  base64Decode : String → Except Err (List ℕ)
  /-- `solana.TransactionFromDecoder(bin.NewBinDecoder(txBytes))` -/
  transactionFromDecoder : List ℕ → Except Err Transaction
  /-- `rpcClient.SendTransaction(ctx, tx)` -/
  sendTransaction : List Event → Transaction → Except Err String
  /-- `fmt.Sscanf(s, "%f", &x)`: the value scanned, or the scan error -/
  sscanFloat : String → Except Err F64
  /-- the receiver after `new(big.Float).SetString(s)`, whose success flag the caller drops -/
  setString : String → BigFloat

/-! ## pkg/token2022/token.go -/

/-- `TokenInfo.GetTransferFeeBps`: the transfer fee in basis points, 0 without the extension. -/
def TokenInfo.GetTransferFeeBps (t : TokenInfo) : ℕ :=
  match t.TransferFee with
  | some fee => fee.BasisPoints
  | none => 0

/-- A call of `tokenClient.GetTokenInfo`, recorded in the log. -/
def GetTokenInfo (env : Env) (address : String) (log : List Event) :
    Result TokenInfo × List Event :=
  (env.getTokenInfo log address, log ++ [Event.tokenInfo address])

/-! ## internal/jupiter/client.go -/

/-- The string `s[:8]` is evaluated: it panics when `s` has fewer than 8 bytes. -/
def slicePanics (s : String) : Bool := decide (s.utf8ByteSize < 8)

/-- `Client.GetQuote`. -/
def Client.GetQuote (env : Env) (jcfg : JupiterConfig) (inputMint outputMint : String)
    (amount : ℕ) (slippageBps : ℤ) (dexes : String) (log : List Event) :
    Result Quote × List Event :=
  let log0 := log ++ [Event.jupiterGetQuote inputMint outputMint amount slippageBps dexes]
  let log1 := log0 ++ [Event.rateWait]
  match env.rateWait log0 with
  | some e => (Result.err (Err.rateLimit e), log1)
  | none =>
    -- token info of both mints; an error is only logged
    match GetTokenInfo env inputMint log1 with
    | (Result.panic p, log2) => (Result.panic p, log2)
    | (_, log2) =>
      match GetTokenInfo env outputMint log2 with
      | (Result.panic p, log3) => (Result.panic p, log3)
      | (_, log3) =>
        let url : QuoteURL :=
          { endpoint := jcfg.QuoteEndpoint, inputMint := inputMint, outputMint := outputMint,
            amount := amount, onlyDirectRoutes := jcfg.OnlyDirectRoutes,
            slippageBps := if slippageBps > 0 then some slippageBps else none,
            dexes := if dexes ≠ "" then some dexes else none }
        let log4 := log3 ++ [Event.httpGet url]
        match env.httpGet log3 url with
        | Except.error e => (Result.err (Err.getQuote e), log4)
        | Except.ok (status, body) =>
          if status ≠ 200 then (Result.err (Err.apiError body), log4)
          else
            match env.decodeQuote body with
            | Except.error e => (Result.err (Err.decodeQuoteResponse e), log4)
            | Except.ok quote =>
              -- the route details and the log line slice the mint strings
              if quote.RoutePlan.any
                  (fun route => slicePanics route.SwapInfo.InputMint
                    || slicePanics route.SwapInfo.OutputMint) then
                (Result.panic Panic.sliceBounds, log4)
              else if slicePanics quote.InputMint || slicePanics quote.OutputMint then
                (Result.panic Panic.sliceBounds, log4)
              else (Result.ok quote, log4)

/-- `Client.submitSwapRequest`. -/
def Client.submitSwapRequest (env : Env) (jcfg : JupiterConfig) (req : SwapRequest)
    (log : List Event) : Result SwapResponse × List Event :=
  match env.marshal req with
  | Except.error e => (Result.err (Err.marshalSwapRequest e), log)
  | Except.ok _ =>
    let log1 := log ++ [Event.httpPost jcfg.SwapEndpoint req]
    match env.httpPost log jcfg.SwapEndpoint req with
    | Except.error e => (Result.err (Err.submitSwapRequest e), log1)
    | Except.ok (status, body) =>
      if status ≠ 200 then (Result.err (Err.apiError body), log1)
      else
        match env.decodeSwapResponse body with
        | Except.error e => (Result.err (Err.decodeSwapResponse e), log1)
        | Except.ok swapResp => (Result.ok swapResp, log1)

/-- `tx.Sign(getter)` with the getter of `processSwapTransaction`, which knows the wallet's
key only: the first required signer that is not the wallet fails the signing. -/
def signWith (wallet : Wallet) (tx : Transaction) : Except Err Unit :=
  match tx.signerKeys.find? (fun key => wallet.PublicKey ≠ key) with
  | some key => Except.error (Err.signerKeyNotFound key)
  | none => Except.ok ()

/-- `Client.processSwapTransaction`. -/
def Client.processSwapTransaction (env : Env) (swapResp : SwapResponse) (wallet : Wallet)
    (log : List Event) : Result String × List Event :=
  match env.base64Decode swapResp.SwapTransaction with
  | Except.error e => (Result.err (Err.decodeSwapTransaction e), log)
  | Except.ok txBytes =>
    match env.transactionFromDecoder txBytes with
    | Except.error e => (Result.err (Err.deserializeTransaction e), log)
    | Except.ok tx =>
      match signWith wallet tx with
      | Except.error e => (Result.err (Err.signTransaction e), log)
      | Except.ok _ =>
        let log1 := log ++ [Event.sendTransaction tx]
        match env.sendTransaction log tx with
        | Except.error e => (Result.err (Err.sendTransaction e), log1)
        | Except.ok sig => (Result.ok sig, log1)

/-- `Client.ExecuteSwap`. -/
def Client.ExecuteSwap (env : Env) (jcfg : JupiterConfig) (wallet : Wallet) (quote : Quote)
    (priorityFee : ℤ) (log : List Event) : Result String × List Event :=
  let log0 := log ++ [Event.jupiterExecuteSwap quote priorityFee]
  -- the first log line slices the mint strings of the quote
  if slicePanics quote.InputMint || slicePanics quote.OutputMint then
    (Result.panic Panic.sliceBounds, log0)
  else
    match GetTokenInfo env quote.OutputMint log0 with
    | (Result.panic p, log1) => (Result.panic p, log1)
    | (Result.err e, log1) => (Result.err (Err.outputTokenInfo e), log1)
    | (Result.ok outputToken, log1) =>
      let isToken2022 := outputToken.Tags.any (fun tag => tag == "token-2022")
      let swapRequest : SwapRequest :=
        { UserPublicKey := wallet.PublicKey, WrapAndUnwrapSol := true,
          UseSharedAccounts := true, PrioritizationFeeLamports := priorityFee,
          AsLegacyTransaction := false, UseTokenLedger := false,
          DynamicComputeUnitLimit := true, SkipUserAccountsRpcCalls := true,
          QuoteResponse := quote,
          ComputeUnitLimit := if isToken2022 then 400000 else 200000,
          ComputeUnitPrice := 0 }
      match Client.submitSwapRequest env jcfg swapRequest log1 with
      | (Result.panic p, log2) => (Result.panic p, log2)
      | (Result.err e, log2) => (Result.err e, log2)
      | (Result.ok swapResp, log2) => Client.processSwapTransaction env swapResp wallet log2

/-! ## internal/bot/trader.go -/

/-- `Trader.calculatePriceImpact`. -/
def Trader.calculatePriceImpact (env : Env) (priceImpactStr : String) : Except Err F64 :=
  match env.sscanFloat priceImpactStr with
  | Except.error e => Except.error (Err.parsePriceImpact e)
  | Except.ok priceImpact => Except.ok (F64.abs priceImpact)

/-- `Trader.toRawAmount`; a panic of `math/big` is the error of the result. -/
def Trader.toRawAmount (amount : F64) (decimals : ℤ) : Except Panic ℕ :=
  match BigFloat.SetFloat64 (Pow10 decimals) with
  | Except.error p => Except.error p
  | Except.ok multiplier =>
    match BigFloat.SetFloat64 amount with
    | Except.error p => Except.error p
    | Except.ok x =>
      match BigFloat.Mul x multiplier with
      | Except.error p => Except.error p
      | Except.ok rawAmount =>
        -- Round to nearest
        match BigFloat.Add rawAmount (BigFloat.fin 53 (1 / 2)) with
        | Except.error p => Except.error p
        | Except.ok result => Except.ok result.Uint64

/-- `Trader.fromRawAmount`; a panic of `math/big` is the error of the result. -/
def Trader.fromRawAmount (env : Env) (rawAmount : String) (decimals : ℤ) : Except Panic F64 :=
  let amount := env.setString rawAmount
  match BigFloat.SetFloat64 (Pow10 decimals) with
  | Except.error p => Except.error p
  | Except.ok divisor =>
    match BigFloat.Quo amount divisor with
    | Except.error p => Except.error p
    | Except.ok result => Except.ok result.Float64

/-- The effective slippage of `Trader.ExecuteSwap`: `uint16(SlippageBPS)`, to which the
output token's transfer fee is added, in `uint16`, when it is positive. -/
def Trader.effectiveSlippage (slippageBPS outputTransferFee : ℕ) : ℕ :=
  let effectiveSlippage := slippageBPS % 2 ^ 16
  if outputTransferFee > 0 then (effectiveSlippage + outputTransferFee) % 2 ^ 16
  else effectiveSlippage

/-- The effect of `time.Sleep(delay)` between two attempts. -/
def sleepFor (seconds : ℤ) (log : List Event) : List Event := log ++ [Event.sleep seconds]

/-- `Trader.ExecuteSwap`. -/
def Trader.ExecuteSwap (env : Env) (cfg : Config) (wallet : Wallet) (balance : F64)
    (log : List Event) : Result Unit × List Event :=
  let amount := cfg.Token.SwapAmount
  if F64.lt balance (F64.add amount cfg.Wallet.ReserveAmount) then
    (Result.err Err.insufficientBalance, log)
  else
    match GetTokenInfo env cfg.Token.InputMint log with
    | (Result.panic p, log1) => (Result.panic p, log1)
    | (Result.err e, log1) => (Result.err (Err.inputTokenInfo e), log1)
    | (Result.ok inputToken, log1) =>
      match GetTokenInfo env cfg.Token.OutputMint log1 with
      | (Result.panic p, log2) => (Result.panic p, log2)
      | (Result.err e, log2) => (Result.err (Err.outputTokenInfo e), log2)
      | (Result.ok outputToken, log2) =>
        match Trader.toRawAmount amount inputToken.Decimals with
        | Except.error p => (Result.panic p, log2)
        | Except.ok rawAmount =>
          let effectiveSlippage :=
            Trader.effectiveSlippage cfg.Token.SlippageBPS outputToken.GetTransferFeeBps
          match WithRetry
              (Client.GetQuote env cfg.Jupiter cfg.Token.InputMint cfg.Token.OutputMint
                rawAmount effectiveSlippage "")
              (sleepFor cfg.Monitor.RetryDelaySeconds) cfg.Monitor.MaxRetries log2 with
          | (Result.panic p, log3) => (Result.panic p, log3)
          | (Result.err e, log3) => (Result.err (Err.getQuote e), log3)
          | (Result.ok quote, log3) =>
            match Trader.calculatePriceImpact env quote.PriceImpactPct with
            | Except.error e => (Result.err (Err.calculatePriceImpact e), log3)
            | Except.ok priceImpact =>
              let maxPriceImpact := F64.div (F64.ofNat effectiveSlippage) (F64.fin 100)
              if F64.gt priceImpact maxPriceImpact then
                (Result.err Err.priceImpactTooHigh, log3)
              else
                match WithRetry
                    (Client.ExecuteSwap env cfg.Jupiter wallet quote 36699)
                    (sleepFor cfg.Monitor.RetryDelaySeconds) cfg.Monitor.MaxRetries log3 with
                | (Result.panic p, log4) => (Result.panic p, log4)
                | (Result.err e, log4) => (Result.err (Err.executeSwap e), log4)
                | (Result.ok _, log4) =>
                  -- the amounts of the success log line
                  match Trader.fromRawAmount env quote.InAmount inputToken.Decimals with
                  | Except.error p => (Result.panic p, log4)
                  | Except.ok _ =>
                    match Trader.fromRawAmount env quote.OutAmount outputToken.Decimals with
                    | Except.error p => (Result.panic p, log4)
                    | Except.ok _ => (Result.ok (), log4)


/-! ## pkg/token2022/utils.go -/

/-- A byte. -/
abbrev Byte := Fin 256

/-- A Go `[]byte`: `data` holds the elements below its length, `spare` the elements of
the backing array between its length and its capacity. -/
structure Bytes where
  data : List Byte
  spare : List Byte
  deriving DecidableEq, Repr

namespace Bytes

/-- `len(b)`. -/
def len (b : Bytes) : ℕ := b.data.length

/-- `cap(b)`. -/
def cap (b : Bytes) : ℕ := b.data.length + b.spare.length

/-- `b[i]`: panics unless `i < len(b)`. -/
def index (b : Bytes) (i : ℕ) : Except Panic Byte :=
  match b.data.get? i with
  | some x => Except.ok x
  | none => Except.error Panic.indexOutOfRange

/-- `b[lo:]`: panics unless `lo <= len(b)`. -/
def sliceFrom (b : Bytes) (lo : ℕ) : Except Panic Bytes :=
  if lo ≤ b.len then Except.ok { data := b.data.drop lo, spare := b.spare }
  else Except.error Panic.sliceBounds

/-- `b[lo:hi]`: panics unless `lo <= hi <= cap(b)`; the upper bound of a slice expression
on a slice is its capacity, so elements past the length can come into view. -/
def slice (b : Bytes) (lo hi : ℕ) : Except Panic Bytes :=
  if hi ≤ b.cap ∧ lo ≤ hi then
    Except.ok { data := ((b.data ++ b.spare).take hi).drop lo,
                spare := (b.data ++ b.spare).drop hi }
  else Except.error Panic.sliceBounds

end Bytes

/-- `binary.LittleEndian.Uint16(b)`: `_ = b[1]`, then `uint16(b[0]) | uint16(b[1])<<8`. -/
def LittleEndian.Uint16 (b : Bytes) : Except Panic ℕ := do
  let b1 ← b.index 1
  let b0 ← b.index 0
  pure (b0.val + 256 * b1.val)

/-- `binary.LittleEndian.Uint64(b)`: `_ = b[7]`, then the eight bytes, lowest first. -/
def LittleEndian.Uint64 (b : Bytes) : Except Panic ℕ := do
  let b7 ← b.index 7
  let b0 ← b.index 0
  let b1 ← b.index 1
  let b2 ← b.index 2
  let b3 ← b.index 3
  let b4 ← b.index 4
  let b5 ← b.index 5
  let b6 ← b.index 6
  pure (b0.val + 256 * b1.val + 256 ^ 2 * b2.val + 256 ^ 3 * b3.val + 256 ^ 4 * b4.val
    + 256 ^ 5 * b5.val + 256 ^ 6 * b6.val + 256 ^ 7 * b7.val)

/-- `solana.PublicKeyFromBytes(in)`: the first 32 bytes of `in`, filled up with zeros. -/
def PublicKeyFromBytes (b : Bytes) : List Byte :=
  b.data.take 32 ++ List.replicate (32 - b.len) 0

/-- The alphabet of `base58.Encode` (the Bitcoin alphabet). -/
def base58Alphabet : List Char :=
  "123456789ABCDEFGHJKLMNPQRSTUVWXYZabcdefghijkmnopqrstuvwxyz".toList

/-- The digits of `n` in base 58, most significant first, put in front of `acc`. -/
def base58Digits : ℕ → ℕ → List Char → List Char
  | 0, _, acc => acc
  | fuel + 1, n, acc =>
    if n = 0 then acc
    else base58Digits fuel (n / 58) (base58Alphabet.getD (n % 58) '1' :: acc)

/-- The number whose big-endian bytes are `bs`. -/
def bytesToNat (bs : List Byte) : ℕ := bs.foldl (fun acc b => acc * 256 + b.val) 0

/-- `base58.Encode(bs)`: one `1` per leading zero byte, then the base-58 digits of the
number; two digits per byte are always enough. -/
def base58Encode (bs : List Byte) : String :=
  String.mk (List.replicate (bs.takeWhile (fun b => b = 0)).length '1'
    ++ base58Digits (2 * bs.length) (bytesToNat bs) [])

/-- `PublicKey.String()`. -/
def PublicKey.String (key : List Byte) : String := base58Encode key

/-- Base account data size. -/
abbrev MintAccountSize : ℕ := 82

/-- Extension type identifier of the transfer fee extension. -/
abbrev ExtensionTransferFee : ℕ := 1

/-- Extension type identifier of the interest bearing extension. -/
abbrev ExtensionInterestBearing : ℕ := 2

/-- Extension type identifier of the permanent delegate extension. -/
abbrev ExtensionPermanentDelegate : ℕ := 3

/-- The struct `authorities` of `utils.go`. -/
structure authorities where
  FreezeAuthority : String
  MintAuthority : String
  deriving DecidableEq, Repr

/-- A panic of the part of a function that cannot return an error. -/
def Result.ofPanic {α : Type} : Except Panic α → Result α
  | Except.ok a => Result.ok a
  | Except.error p => Result.panic p

/-- `Client.parseTransferFee(data)`. -/
def parseTransferFee (data : Bytes) : Result TransferFee :=
  if data.len < MintAccountSize + 16 then Result.err Err.tooShortTransferFee
  else
    match data.sliceFrom MintAccountSize with
    | Except.error p => Result.panic p
    | Except.ok data =>
      match LittleEndian.Uint16 data with
      | Except.error p => Result.panic p
      | Except.ok tag =>
        if tag ≠ ExtensionTransferFee then Result.err Err.notTransferFee
        else Result.ofPanic do
          let basisPoints ← data.sliceFrom 2 >>= LittleEndian.Uint16
          let maximumFee ← data.sliceFrom 4 >>= LittleEndian.Uint64
          let collector ← data.slice 12 44
          pure { BasisPoints := basisPoints, MaximumFee := maximumFee,
                 CollectorWallet := (PublicKeyFromBytes collector).map Fin.val }

/-- `Client.parseInterestRate(data)`. -/
def parseInterestRate (data : Bytes) : Result InterestRate :=
  if data.len < MintAccountSize + 24 then Result.err Err.tooShortInterestRate
  else
    match data.sliceFrom MintAccountSize with
    | Except.error p => Result.panic p
    | Except.ok data =>
      match LittleEndian.Uint16 data with
      | Except.error p => Result.panic p
      | Except.ok tag =>
        if tag ≠ ExtensionInterestBearing then Result.err Err.notInterestBearing
        else Result.ofPanic do
          let currentRate ← data.sliceFrom 2 >>= LittleEndian.Uint16
          let apy := F64.div (F64.ofNat currentRate) (F64.fin 100)
          let lastUpdateSlot ← data.sliceFrom 16 >>= LittleEndian.Uint64
          pure { CurrentRate := currentRate, APY := apy, LastUpdateSlot := lastUpdateSlot }

/-- `Client.parsePermanentDelegate(data)`. -/
def parsePermanentDelegate (data : Bytes) : Result String :=
  if data.len < MintAccountSize + 34 then Result.err Err.tooShortPermanentDelegate
  else
    match data.sliceFrom MintAccountSize with
    | Except.error p => Result.panic p
    | Except.ok data =>
      match LittleEndian.Uint16 data with
      | Except.error p => Result.panic p
      | Except.ok tag =>
        if tag ≠ ExtensionPermanentDelegate then Result.err Err.notPermanentDelegate
        else Result.ofPanic do
          let delegate ← data.slice 2 34
          pure (PublicKey.String (PublicKeyFromBytes delegate))

/-- `Client.parseAuthorities(data)`. -/
def parseAuthorities (data : Bytes) : Result authorities :=
  if data.len < MintAccountSize then Result.err Err.tooShortAuthorities
  else Result.ofPanic do
    let mintAuth ← data.slice 0 32
    let freezeAuth ← data.slice 36 68
    pure { MintAuthority := PublicKey.String (PublicKeyFromBytes mintAuth),
           FreezeAuthority := PublicKey.String (PublicKeyFromBytes freezeAuth) }

/-! ## Go maps and time -/

/-- A Go map with string keys, as the list of its entries: at most one entry per key, in
the order of the last store to each key.  Go fixes no order of iteration: a `range` loop
visits the entries in the order given by `GoMap.range`. -/
abbrev GoMap (α : Type) := List (String × α)

namespace GoMap

/-- The lookup `m[k]` with its presence flag. -/
def load {α : Type} (m : GoMap α) (k : String) : Option α :=
  (m.find? (fun p => p.1 = k)).map Prod.snd

/-- The removal `delete(m, k)`. -/
def delete {α : Type} (m : GoMap α) (k : String) : GoMap α :=
  m.filter (fun p => p.1 ≠ k)

/-- The assignment `m[k] = v`. -/
def store {α : Type} (m : GoMap α) (k : String) (v : α) : GoMap α :=
  m.delete k ++ [(k, v)]

/-- The entries of a map in the order in which one `range` loop visits them.  Go leaves
the order unspecified and varies it from one loop to the next; `picks` stands for the
choices of the run time: each pick selects the next entry among those not visited yet
(the pick modulo their number), and the entries left when the picks run out come in the
order of the list.  Each entry is visited once, and every order of the entries comes from
some picks. -/
def range {α : Type} (m : GoMap α) (picks : List ℕ) : List (String × α) :=
  match picks with
  | [] => m
  | pick :: rest =>
    match m.get? (pick % m.length) with
    | none => m
    | some entry => entry :: range (m.eraseIdx (pick % m.length)) rest

end GoMap

/-- The zero `time.Time`, January 1 of year 1, in nanoseconds since the Unix epoch.
Instants are integers, in nanoseconds since the Unix epoch. -/
def zeroTime : ℤ := -62135596800 * 1000000000

/-- `time.Unix(sec, 0)`. -/
def timeUnix (sec : ℤ) : ℤ := sec * 1000000000

/-- `t.Sub(u)`: the difference as a `time.Duration`, which saturates at the ends of
`int64`. -/
def timeSub (t u : ℤ) : ℤ := max (-(2 ^ 63)) (min (2 ^ 63 - 1) (t - u))

/-! ## pkg/token2022/token.go: the cache -/

/-- The struct `cacheEntry`. -/
structure cacheEntry where
  info : TokenInfo
  expiresAt : ℤ

/-- `token2022.TokenCache`: the entries of its `sync.Map` and the time to live, a
`time.Duration` in nanoseconds. -/
structure TokenCache where
  cache : GoMap cacheEntry
  cacheTTL : ℤ

/-- `TokenCache.Get(address)`, with `now` the reading of `time.Now()`. -/
def TokenCache.Get (c : TokenCache) (now : ℤ) (address : String) :
    Option TokenInfo × TokenCache :=
  match c.cache.load address with
  | some entry =>
    if now < entry.expiresAt then (some entry.info, c)
    else (none, { c with cache := c.cache.delete address })
  | none => (none, c)

/-- `TokenCache.Set(address, info)`, with `now` the reading of `time.Now()`. -/
def TokenCache.Set (c : TokenCache) (now : ℤ) (address : String) (info : TokenInfo) :
    TokenCache :=
  { c with cache := c.cache.store address { info := info, expiresAt := now + c.cacheTTL } }

/-- `TokenCache.Clear()`. -/
def TokenCache.Clear (c : TokenCache) : TokenCache := { c with cache := [] }

/-! ## internal/bot/monitor.go -/

/-- `bot.BalanceCheck`. -/
structure BalanceCheck where
  Balance : F64
  Timestamp : ℤ
  MetTarget : Bool
  Error : Option Err
  deriving DecidableEq, Repr

/-- A buffered Go channel: the elements sent and not yet received, oldest first, and the
capacity given to `make`. -/
structure Chan (α : Type) where
  buf : List α
  cap : ℕ
  deriving DecidableEq, Repr

/-- The non-blocking send `select { case ch <- x: default: }`: the channel after it, and
whether the element was taken. -/
def Chan.trySend {α : Type} (ch : Chan α) (x : α) : Chan α × Bool :=
  if ch.buf.length < ch.cap then ({ ch with buf := ch.buf ++ [x] }, true) else (ch, false)

/-- The receive `<-ch` when an element is pending. -/
def Chan.recv {α : Type} (ch : Chan α) : Option α × Chan α :=
  match ch.buf with
  | [] => (none, ch)
  | x :: rest => (some x, { ch with buf := rest })

/-- `bot.Monitor`: the fields read and written by `checkBalance` and the two updates. -/
structure Monitor where
  minBalance : F64
  /-- a `time.Duration`, in nanoseconds -/
  checkInterval : ℤ
  resultChan : Chan BalanceCheck
  deriving DecidableEq, Repr

/-- `NewMonitor(rpcClient, wallet, minBalance, checkInterval)`. -/
def NewMonitor (minBalance : F64) (checkInterval : ℤ) : Monitor :=
  { minBalance := minBalance, checkInterval := checkInterval,
    resultChan := { buf := [], cap := 1 } }

/-- `solana.LAMPORTS_PER_SOL`. -/
abbrev LAMPORTS_PER_SOL : ℕ := 1000000000

/-- `Monitor.checkBalance(ctx)`: `getBalance` is the answer of `rpcClient.GetBalance`
(the lamports, a `uint64`) and `now` the reading of `time.Now()`. -/
def Monitor.checkBalance (m : Monitor) (getBalance : Except Err ℕ) (now : ℤ) :
    Option Err × Monitor :=
  match getBalance with
  | Except.error e => (some (Err.getBalance e), m)
  | Except.ok value =>
    let solBalance := F64.div (F64.ofNat value) (F64.ofNat LAMPORTS_PER_SOL)
    let result : BalanceCheck :=
      { Balance := solBalance, Timestamp := now,
        MetTarget := F64.ge solBalance m.minBalance, Error := none }
    (none, { m with resultChan := (m.resultChan.trySend result).1 })

/-- `Monitor.UpdateMinBalance(newMin)`. -/
def Monitor.UpdateMinBalance (m : Monitor) (newMin : F64) : Monitor :=
  { m with minBalance := newMin }

/-- `Monitor.UpdateCheckInterval(newInterval)`. -/
def Monitor.UpdateCheckInterval (m : Monitor) (newInterval : ℤ) : Monitor :=
  { m with checkInterval := newInterval }

/-! ## pkg/wallet/dividend.go -/

/-- `wallet.DividendInfo`; `TokenInfo` stays nil and `USDValue` zero in the modelled
code. -/
structure DividendInfo where
  TotalAmount : F64
  LastReceived : ℤ
  TransferCount : ℤ
  USDValue : F64
  Last24hAmount : F64
  Last7dAmount : F64
  Last30dAmount : F64
  deriving DecidableEq, Repr

/-- `wallet.DividendTransfer`. -/
structure DividendTransfer where
  Signature : String
  Amount : F64
  Timestamp : ℤ
  PreBalance : F64
  PostBalance : F64
  deriving DecidableEq, Repr

/-- `wallet.DividendCache`. -/
structure DividendCache where
  LastUpdate : ℤ
  LastSignature : String
  Transactions : GoMap DividendTransfer
  deriving DecidableEq, Repr

/-- `rpc.TransactionMeta`, the two balance lists; `none` is a nil slice. -/
structure TransactionMeta where
  PreBalances : Option (List ℕ)
  PostBalances : Option (List ℕ)
  deriving DecidableEq, Repr

/-- `rpc.GetTransactionResult`, as far as the code reads it.  `AccountKeys` is the answer
of `tx.Transaction.GetTransaction()`: the decoding error, or the text of each key of
`Message.AccountKeys`. -/
structure GetTransactionResult where
  Meta : Option TransactionMeta
  /-- a `*solana.UnixTimeSeconds` -/
  BlockTime : Option ℤ
  AccountKeys : Except Err (List String)
  deriving Repr

/-- What `GetDividendHistory` does to the outside. -/
inductive LedgerEvent where
  /-- `os.ReadFile(cacheFile)` -/
  | readFile (path : String)
  /-- `rpcClient.GetSignaturesForAddress(ctx, pubKey)` -/
  | getSignatures (wallet : String)
  /-- `rpcClient.GetTransaction(ctx, sig, opts)` -/
  | getTransaction (sig : String)
  /-- `os.WriteFile(cacheFile, data, 0644)` with the JSON text of `cache` -/
  | writeFile (path : String) (cache : DividendCache)
  deriving DecidableEq, Repr

/-- The file system and the log of a ledger run.  A cache file holds the JSON text of a
`DividendCache`; encoding and decoding are taken to be inverse to each other. -/
structure LedgerWorld where
  files : GoMap DividendCache
  log : List LedgerEvent
  deriving DecidableEq, Repr

/-- The collaborators of `GetDividendHistory`; those that talk to the outside answer as a
function of the log so far. -/
structure LedgerEnv where
  /-- `solana.PublicKeyFromBase58(s)`: the error, if `s` is not the text of a key -/
  publicKeyFromBase58 : String → Option Err
  /-- `os.MkdirAll("cache", 0755)` -/
  mkdirAll : List LedgerEvent → Option Err
  /-- a failure of `os.ReadFile` other than "not exist", or of `json.Unmarshal` -/
  readFails : List LedgerEvent → String → Option Err
  /-- `rpcClient.GetSignaturesForAddress`: the text of each signature, newest first -/
  getSignaturesForAddress : List LedgerEvent → String → Except Err (List String)
  /-- `rpcClient.GetTransaction`; `none` is a nil result -/
  getTransaction : List LedgerEvent → String → Except Err (Option GetTransactionResult)
  /-- a failure of `json.MarshalIndent` or `os.WriteFile` -/
  writeFails : List LedgerEvent → String → Option Err
  /-- `time.Now()` -/
  now : List LedgerEvent → ℤ
  /-- the choices of the run time for the order of `for _, tx := range cache.Transactions`,
  see `GoMap.range`; they may differ from one loop to the next -/
  rangeOrder : List LedgerEvent → List ℕ

/-- The path `filepath.Join("cache", fmt.Sprintf("dividend_cache_%s.json", wallet[:8]))`.
The wallet is the base58 text of a key, whose first 8 bytes are its first 8 characters. -/
def cacheFile (wallet : String) : String :=
  "cache/dividend_cache_" ++ wallet.take 8 ++ ".json"

/-- `loadDividendCache(wallet)`. -/
def loadDividendCache (env : LedgerEnv) (wallet : String) (w : LedgerWorld) :
    Result DividendCache × LedgerWorld :=
  match env.mkdirAll w.log with
  | some e => (Result.err e, w)
  | none =>
    if slicePanics wallet then (Result.panic Panic.sliceBounds, w)
    else
      let w1 := { w with log := w.log ++ [LedgerEvent.readFile (cacheFile wallet)] }
      match env.readFails w.log (cacheFile wallet) with
      | some e => (Result.err e, w1)
      | none =>
        match w.files.load (cacheFile wallet) with
        | none => (Result.ok { LastUpdate := zeroTime, LastSignature := "", Transactions := [] },
                   w1)
        | some cache => (Result.ok cache, w1)

/-- `saveDividendCache(wallet, cache)`. -/
def saveDividendCache (env : LedgerEnv) (wallet : String) (cache : DividendCache)
    (w : LedgerWorld) : Option Err × LedgerWorld :=
  let log1 := w.log ++ [LedgerEvent.writeFile (cacheFile wallet) cache]
  match env.writeFails w.log (cacheFile wallet) with
  | some e => (some e, { w with log := log1 })
  | none => (none, { files := w.files.store (cacheFile wallet) cache, log := log1 })

/-- The inner loop of `getTransferAmount` over the senders, for the wallet at index `i`:
the amount returned from inside the loop, if any. -/
def getTransferAmount.senders (pre post : List ℕ) (i : ℕ) (dividendAddress : String) :
    List String → Except Panic (Option F64)
  | [] => Except.ok none
  | sender :: rest =>
    if sender = dividendAddress then
      match pre.get? i, post.get? i with
      | some a, some b =>
        let preBalance := F64.div (F64.ofNat a) (F64.fin 1000000000)
        let postBalance := F64.div (F64.ofNat b) (F64.fin 1000000000)
        if F64.gt postBalance preBalance then Except.ok (some (F64.sub postBalance preBalance))
        else getTransferAmount.senders pre post i dividendAddress rest
      | _, _ => Except.error Panic.indexOutOfRange
    else getTransferAmount.senders pre post i dividendAddress rest

/-- The outer loop of `getTransferAmount` over the account keys from index `i` on. -/
def getTransferAmount.accounts (pre post : List ℕ) (dividendAddress wallet : String)
    (all : List String) : ℕ → List String → Except Panic F64
  | _, [] => Except.ok (F64.fin 0)
  | i, account :: rest =>
    if account = wallet then
      match getTransferAmount.senders pre post i dividendAddress all with
      | Except.error p => Except.error p
      | Except.ok (some amount) => Except.ok amount
      | Except.ok none =>
        getTransferAmount.accounts pre post dividendAddress wallet all (i + 1) rest
    else getTransferAmount.accounts pre post dividendAddress wallet all (i + 1) rest

/-- `getTransferAmount(tx, dividendAddress, wallet)`. -/
def getTransferAmount (tx : Option GetTransactionResult) (dividendAddress wallet : String) :
    Except Panic F64 :=
  match tx with
  | none => Except.ok (F64.fin 0)
  | some tx =>
    match tx.Meta with
    | none => Except.ok (F64.fin 0)
    | some m =>
      match m.PreBalances, m.PostBalances with
      | some pre, some post =>
        match tx.AccountKeys with
        | Except.error _ => Except.ok (F64.fin 0)
        | Except.ok keys =>
          getTransferAmount.accounts pre post dividendAddress wallet keys 0 keys
      | _, _ => Except.ok (F64.fin 0)

/-- The length `len(s)` of a slice that may be nil. -/
def sliceLen (s : Option (List ℕ)) : ℕ := (s.getD []).length

/-- The element `s[0]` of a slice whose length is not zero. -/
def sliceHead (s : Option (List ℕ)) : ℕ := (s.getD []).headD 0

/-- One round of the loop of `GetDividendHistory` over the new signatures.  A signature is
the base58 text of 64 bytes, so taking its first 8 bytes cannot fail.  Go compares strings
byte by byte, which on UTF-8 text is the order of the code points, the order of
`String`. -/
def processSignature (env : LedgerEnv) (dividendMint wallet sig : String)
    (cache : DividendCache) (w : LedgerWorld) : Result DividendCache × LedgerWorld :=
  if (cache.Transactions.load sig).isSome then (Result.ok cache, w)
  else
    let w1 := { w with log := w.log ++ [LedgerEvent.getTransaction sig] }
    match env.getTransaction w.log sig with
    | Except.error _ => (Result.ok cache, w1)
    | Except.ok none => (Result.ok cache, w1)
    | Except.ok (some tx) =>
      match tx.Meta with
      | none => (Result.ok cache, w1)
      | some m =>
        if sliceLen m.PreBalances = 0 ∨ sliceLen m.PostBalances = 0 then (Result.ok cache, w1)
        else
          match getTransferAmount (some tx) dividendMint wallet with
          | Except.error p => (Result.panic p, w1)
          | Except.ok amount =>
            if F64.le amount (F64.fin 0) then (Result.ok cache, w1)
            else
              match tx.BlockTime with
              | none => (Result.panic Panic.nilDereference, w1)
              | some blockTime =>
                let transfer : DividendTransfer :=
                  { Signature := sig, Amount := amount, Timestamp := timeUnix blockTime,
                    PreBalance :=
                      F64.div (F64.ofNat (sliceHead m.PreBalances)) (F64.fin 1000000000),
                    PostBalance :=
                      F64.div (F64.ofNat (sliceHead m.PostBalances)) (F64.fin 1000000000) }
                (Result.ok
                  { cache with
                    Transactions := cache.Transactions.store sig transfer,
                    LastSignature :=
                      if cache.LastSignature = "" ∨ cache.LastSignature < sig then sig
                      else cache.LastSignature }, w1)

/-- The loop of `GetDividendHistory` over the new signatures. -/
def processSignatures (env : LedgerEnv) (dividendMint wallet : String) :
    List String → DividendCache → LedgerWorld → Result DividendCache × LedgerWorld
  | [], cache, w => (Result.ok cache, w)
  | sig :: rest, cache, w =>
    match processSignature env dividendMint wallet sig cache w with
    | (Result.ok cache1, w1) => processSignatures env dividendMint wallet rest cache1 w1
    | (r, w1) => (r, w1)

/-- The signatures to process: with a watermark, those before its first occurrence in the
list; without one, all of them. -/
def newSignatures (lastSignature : String) (sigs : List String) : List String :=
  if lastSignature ≠ "" then sigs.takeWhile (fun sig => sig ≠ lastSignature) else sigs

/-- One round of the loop of `GetDividendHistory` over the cached transfers. -/
def addTransfer (now : ℤ) (info : DividendInfo) (tx : DividendTransfer) : DividendInfo :=
  let day : ℤ := 24 * 3600 * 1000000000
  let age := timeSub now tx.Timestamp
  { info with
    TotalAmount := F64.add info.TotalAmount tx.Amount,
    TransferCount := info.TransferCount + 1,
    Last24hAmount :=
      if age ≤ day then F64.add info.Last24hAmount tx.Amount else info.Last24hAmount,
    Last7dAmount :=
      if age ≤ 7 * day then F64.add info.Last7dAmount tx.Amount else info.Last7dAmount,
    Last30dAmount :=
      if age ≤ 30 * day then F64.add info.Last30dAmount tx.Amount else info.Last30dAmount,
    LastReceived :=
      if info.LastReceived < tx.Timestamp then tx.Timestamp else info.LastReceived }

/-- The loop `for _, tx := range cache.Transactions` of `GetDividendHistory`, which adds
up the totals; `picks` gives the order in which this loop visits the map. -/
def totals (picks : List ℕ) (now : ℤ) (transactions : GoMap DividendTransfer) :
    DividendInfo :=
  (transactions.range picks).foldl (fun info p => addTransfer now info p.2)
    { TotalAmount := F64.fin 0, LastReceived := zeroTime, TransferCount := 0,
      USDValue := F64.fin 0, Last24hAmount := F64.fin 0, Last7dAmount := F64.fin 0,
      Last30dAmount := F64.fin 0 }

/-- `GetDividendHistory(ctx, cfg, rpcClient, tokenClient, wallet)`. -/
def GetDividendHistory (env : LedgerEnv) (cfg : Config) (wallet : String) (w : LedgerWorld) :
    Result DividendInfo × LedgerWorld :=
  match env.publicKeyFromBase58 wallet with
  | some e => (Result.err (Err.invalidWalletAddress e), w)
  | none =>
    if cfg.Token.DividendMint = "" then (Result.err Err.dividendAddressNotConfigured, w)
    else
      match env.publicKeyFromBase58 cfg.Token.DividendMint with
      | some e => (Result.err (Err.invalidDividendAddress e), w)
      | none =>
        -- the log line slices both addresses
        if slicePanics wallet || slicePanics cfg.Token.DividendMint then
          (Result.panic Panic.sliceBounds, w)
        else
          match loadDividendCache env wallet w with
          | (Result.panic p, w1) => (Result.panic p, w1)
          | (Result.err e, w1) => (Result.err (Err.loadDividendCache e), w1)
          | (Result.ok cache, w1) =>
            -- with a watermark, the log line slices it
            if cache.LastSignature ≠ "" ∧ slicePanics cache.LastSignature = true then
              (Result.panic Panic.sliceBounds, w1)
            else
              let w2 := { w1 with log := w1.log ++ [LedgerEvent.getSignatures wallet] }
              match env.getSignaturesForAddress w1.log wallet with
              | Except.error e => (Result.err (Err.getSignatures e), w2)
              | Except.ok sigs =>
                match processSignatures env cfg.Token.DividendMint wallet
                    (newSignatures cache.LastSignature sigs) cache w2 with
                | (Result.panic p, w3) => (Result.panic p, w3)
                | (Result.err e, w3) => (Result.err e, w3)
                | (Result.ok cache1, w3) =>
                  let cache2 := { cache1 with LastUpdate := env.now w3.log }
                  -- a failure to save is only logged
                  let w4 := (saveDividendCache env wallet cache2 w3).2
                  (Result.ok (totals (env.rangeOrder w4.log) (env.now w4.log)
                    cache2.Transactions), w4)

/-! ## pkg/token2022/token.go: the enrichment -/

/-- The block "Check for transfer fee extension" of `enrichWithToken2022Data`, on the
token info and the `Extensions` map built so far. -/
def enrichTransferFee (data : Bytes) (st : TokenInfo × GoMap Bool) :
    Result (TokenInfo × GoMap Bool) :=
  match parseTransferFee data with
  | Result.ok transferFee =>
    Result.ok ({ st.1 with TransferFee := some transferFee }, st.2.store "transfer_fee" true)
  | Result.err _ => Result.ok st
  | Result.panic p => Result.panic p

/-- The block "Check for interest rate extension". -/
def enrichInterestRate (data : Bytes) (st : TokenInfo × GoMap Bool) :
    Result (TokenInfo × GoMap Bool) :=
  match parseInterestRate data with
  | Result.ok interestRate =>
    Result.ok ({ st.1 with InterestRate := some interestRate },
      st.2.store "interest_rate" true)
  | Result.err _ => Result.ok st
  | Result.panic p => Result.panic p

/-- The block "Check for permanent delegate". -/
def enrichPermanentDelegate (data : Bytes) (st : TokenInfo × GoMap Bool) :
    Result (TokenInfo × GoMap Bool) :=
  match parsePermanentDelegate data with
  | Result.ok delegate =>
    Result.ok ({ st.1 with PermanentDelegate := some delegate },
      st.2.store "permanent_delegate" true)
  | Result.err _ => Result.ok st
  | Result.panic p => Result.panic p

/-- The block "Check for authorities". -/
def enrichAuthorities (data : Bytes) (st : TokenInfo × GoMap Bool) :
    Result (TokenInfo × GoMap Bool) :=
  match parseAuthorities data with
  | Result.ok auth =>
    let st1 : TokenInfo × GoMap Bool :=
      if auth.FreezeAuthority ≠ "" then
        ({ st.1 with FreezeAuthority := some auth.FreezeAuthority },
         st.2.store "freeze_authority" true)
      else st
    let st2 : TokenInfo × GoMap Bool :=
      if auth.MintAuthority ≠ "" then
        ({ st1.1 with MintAuthority := some auth.MintAuthority },
         st1.2.store "mint_authority" true)
      else st1
    Result.ok st2
  | Result.err _ => Result.ok st
  | Result.panic p => Result.panic p

/-- `Client.enrichWithToken2022Data(ctx, info)`: the token info after the call, and the
`Extensions` map the call builds.  `publicKeyFromBase58` is the error of
`solana.PublicKeyFromBase58(info.Address)`, if any; `getAccountInfo` is the answer of
`rpcClient.GetAccountInfo`, with `none` for a nil account or a nil value, and else the
bytes of `account.Value.Data.GetBinary()`. -/
def enrichWithToken2022Data (publicKeyFromBase58 : Option Err)
    (getAccountInfo : Except Err (Option Bytes)) (info : TokenInfo) :
    Result (TokenInfo × GoMap Bool) :=
  match publicKeyFromBase58 with
  | some e => Result.err (Err.invalidTokenAddress e)
  | none =>
    match getAccountInfo with
    | Except.error e => Result.err (Err.fetchAccountInfo e)
    | Except.ok none => Result.err Err.accountNotFound
    | Except.ok (some data) =>
      match enrichTransferFee data (info, []) with
      | Result.ok st1 =>
        match enrichInterestRate data st1 with
        | Result.ok st2 =>
          match enrichPermanentDelegate data st2 with
          | Result.ok st3 => enrichAuthorities data st3
          | r => r
        | r => r
      | r => r

/-! ## internal/bot/bot.go -/

/-- `bot.Status`. -/
inductive Status where
  | StatusIdle
  | StatusChecking
  | StatusSwapping
  | StatusError
  | StatusStopped
  deriving DecidableEq, Repr

/-- The `int64` holding the exact value `x`, wrapped around in two's complement. -/
def int64 (x : ℤ) : ℤ := (x + 2 ^ 63) % 2 ^ 64 - 2 ^ 63

/-- `bot.State`; `TotalSwaps` and `Errors` are `int64`. -/
structure State where
  CurrentBalance : F64
  LastSwapAmount : F64
  LastSwapTime : ℤ
  TotalSwaps : ℤ
  Errors : ℤ
  Status : Status
  deriving DecidableEq, Repr

/-- The send `ch <- x` by the only goroutine that receives from `ch`: with room in the
buffer the element is queued, without room the send never completes (`none`). -/
def Chan.send {α : Type} (ch : Chan α) (x : α) : Option (Chan α) :=
  if ch.buf.length < ch.cap then some { ch with buf := ch.buf ++ [x] } else none

/-- `bot.Bot`: the fields the main loop works on.  `stateChan` is made with capacity 1
and holds at most one state, `none` is the empty channel; `errorChan` is made with
capacity 10, or the one given to `WithErrorBuffer`. -/
structure Bot where
  isRunning : Bool
  stateChan : Option State
  errorChan : Chan Err
  deriving DecidableEq, Repr

/-- `Bot.getState()`: the state in the channel, which is put back, or `State{Status:
StatusIdle}` when the channel is empty. -/
def Bot.getState (b : Bot) : State :=
  match b.stateChan with
  | some state => state
  | none =>
    { CurrentBalance := F64.fin 0, LastSwapAmount := F64.fin 0, LastSwapTime := zeroTime,
      TotalSwaps := 0, Errors := 0, Status := Status.StatusIdle }

/-- `Bot.updateState(state)`: the channel is cleared, then `state` is sent. -/
def Bot.updateState (b : Bot) (state : State) : Bot :=
  { b with stateChan := some state }

/-- `Bot.handleBalanceCheck(ctx, check)`; `now` is the reading of `time.Now()` after a
swap. -/
def Bot.handleBalanceCheck (env : Env) (cfg : Config) (wallet : Wallet) (now : ℤ) (b : Bot)
    (check : BalanceCheck) (log : List Event) : Result Unit × Bot × List Event :=
  match check.Error with
  | some e => (Result.err (Err.balanceCheckError e), b, log)
  | none =>
    let state : State :=
      { b.getState with
        CurrentBalance := check.Balance, Status := Status.StatusChecking,
        LastSwapTime := check.Timestamp }
    let b1 := b.updateState state
    if check.MetTarget then
      let state1 : State := { state with Status := Status.StatusSwapping }
      let b2 := b1.updateState state1
      match Trader.ExecuteSwap env cfg wallet check.Balance log with
      | (Result.panic p, log1) => (Result.panic p, b2, log1)
      | (Result.err e, log1) =>
        let state2 : State :=
          { state1 with Status := Status.StatusError, Errors := int64 (state1.Errors + 1) }
        (Result.err (Err.swapFailed e), b2.updateState state2, log1)
      | (Result.ok _, log1) =>
        let state2 : State :=
          { state1 with
            Status := Status.StatusIdle, TotalSwaps := int64 (state1.TotalSwaps + 1),
            LastSwapAmount := cfg.Token.SwapAmount, LastSwapTime := now }
        (Result.ok (), b2.updateState state2, log1)
    else (Result.ok (), b1, log)

/-- The case taken by the `select` of the main loop of `Bot.Start`; the case of the
monitor carries the sample received. -/
inductive Select where
  | ctxDone
  | stopChan
  | result (check : BalanceCheck)
  | errorChan
  deriving DecidableEq, Repr

/-- How a round of the main loop ends: the loop goes on, `Start` returns, the goroutine
is stuck in a send for ever, the goroutine panics, or the case was not ready. -/
inductive Round where
  | running (b : Bot)
  | returned (err : Option Err) (b : Bot)
  | blocked (b : Bot)
  | panicked (p : Panic) (b : Bot)
  | notReady
  deriving DecidableEq, Repr

/-- One round of the main loop of `Bot.Start`, for the case the `select` takes. -/
def Bot.round (env : Env) (cfg : Config) (wallet : Wallet) (now : ℤ) (b : Bot)
    (log : List Event) : Select → Round × List Event
  | Select.ctxDone => (Round.returned (some Err.contextDone) { b with isRunning := false }, log)
  | Select.stopChan => (Round.returned none { b with isRunning := false }, log)
  | Select.result check =>
    match b.handleBalanceCheck env cfg wallet now check log with
    | (Result.panic p, b1, log1) => (Round.panicked p b1, log1)
    | (Result.ok _, b1, log1) => (Round.running b1, log1)
    | (Result.err e, b1, log1) =>
      match b1.errorChan.send e with
      | some ch => (Round.running { b1 with errorChan := ch }, log1)
      | none => (Round.blocked b1, log1)
  | Select.errorChan =>
    match b.errorChan.recv with
    | (none, _) => (Round.notReady, log)
    | (some _, ch) =>
      let b1 : Bot := { b with errorChan := ch }
      (Round.running (b1.updateState
        { CurrentBalance := F64.fin 0, LastSwapAmount := F64.fin 0, LastSwapTime := zeroTime,
          TotalSwaps := 0, Errors := int64 (b1.getState.Errors + 1),
          Status := Status.StatusError }), log)

/-- The main loop of `Bot.Start` over the cases its `select` takes, one after the other,
as long as the loop goes on. -/
def Bot.rounds (env : Env) (cfg : Config) (wallet : Wallet) (now : ℤ) (b : Bot)
    (log : List Event) : List Select → Round × List Event
  | [] => (Round.running b, log)
  | s :: rest =>
    match b.round env cfg wallet now log s with
    | (Round.running b1, log1) => Bot.rounds env cfg wallet now b1 log1 rest
    | r => r

/-- `Bot.GetStats()`: `TotalSwaps`, `SuccessfulSwaps` and `FailedSwaps`. -/
def Bot.GetStats (b : Bot) : ℤ × ℤ × ℤ :=
  let state := b.getState
  (state.TotalSwaps, int64 (state.TotalSwaps - state.Errors), state.Errors)

/-! ## internal/bot/monitor.go: the loop -/

/-- The loop of `Monitor.Start` while it runs: the monitor, the period its ticker was
made with, the instant of the next tick, and the instants of the polls so far. -/
structure MonitorLoop where
  m : Monitor
  period : ℤ
  nextTick : ℤ
  polls : List ℤ
  deriving DecidableEq, Repr

/-- `Monitor.Start(ctx)` up to its loop: `time.NewTicker(m.checkInterval)` at the instant
`now`, which panics on an interval that is not positive, and the initial check, whose
failure is returned. -/
def Monitor.Start (m : Monitor) (getBalance : Except Err ℕ) (now : ℤ) : Result MonitorLoop :=
  if m.checkInterval ≤ 0 then Result.panic Panic.nonPositiveInterval
  else
    match m.checkBalance getBalance now with
    | (some e, _) => Result.err e
    | (none, m1) =>
      Result.ok { m := m1, period := m.checkInterval, nextTick := now + m.checkInterval,
                  polls := [now] }

/-- The case `<-ticker.C` of the loop of `Monitor.Start`: the poll at the instant of the
tick, whose failure is only logged; the next tick comes one period of the ticker later. -/
def MonitorLoop.tick (l : MonitorLoop) (getBalance : Except Err ℕ) : MonitorLoop :=
  { m := (l.m.checkBalance getBalance l.nextTick).2, period := l.period,
    nextTick := l.nextTick + l.period, polls := l.polls ++ [l.nextTick] }

/-- A call on the monitor by another goroutine while the loop of `Start` runs. -/
def MonitorLoop.call (l : MonitorLoop) (f : Monitor → Monitor) : MonitorLoop :=
  { l with m := f l.m }

/-- The loop of `Monitor.Start` over a row of ticks, with the answer of `GetBalance` at
each. -/
def MonitorLoop.ticks (l : MonitorLoop) : List (Except Err ℕ) → MonitorLoop
  | [] => l
  | getBalance :: rest => (l.tick getBalance).ticks rest

/-! ## Instruments and example worlds -/

instance {ε α : Type} [DecidableEq ε] [DecidableEq α] : DecidableEq (Except ε α) := fun a b =>
  match a, b with
  | Except.ok x, Except.ok y =>
    if h : x = y then isTrue (congrArg Except.ok h) else isFalse (fun h1 => h (Except.ok.inj h1))
  | Except.error x, Except.error y =>
    if h : x = y then isTrue (congrArg Except.error h)
    else isFalse (fun h1 => h (Except.error.inj h1))
  | Except.ok _, Except.error _ => isFalse (fun h => Except.noConfusion h)
  | Except.error _, Except.ok _ => isFalse (fun h => Except.noConfusion h)

/-- The error of a result, if it is one. -/
def Result.getErr? {α : Type} : Result α → Option Err
  | Result.err e => some e
  | _ => none

/-- A scripted operation: the world is the list of answers still to give. -/
def scripted {α : Type} : List (Result α) → Result α × List (Result α)
  | [] => (Result.err (Err.external "script exhausted"), [])
  | r :: rest => (r, rest)

/-- The event is an entry into `jupiterClient.ExecuteSwap`. -/
def Event.isExecuteSwap : Event → Bool
  | Event.jupiterExecuteSwap _ _ => true
  | _ => false

/-- The event is an entry into `jupiterClient.GetQuote`. -/
def Event.isGetQuote : Event → Bool
  | Event.jupiterGetQuote _ _ _ _ _ => true
  | _ => false

/-- The event is a call of `rpcClient.SendTransaction`. -/
def Event.isSend : Event → Bool
  | Event.sendTransaction _ => true
  | _ => false

/-- Value of a decimal digit. -/
def digitValue (c : Char) : Option ℕ :=
  if 48 ≤ c.toNat ∧ c.toNat ≤ 57 then some (c.toNat - 48) else none

/-- Reads a run of decimal digits: the number read, how many digits, and the rest. -/
def readDigits : List Char → ℕ → ℕ → ℕ × ℕ × List Char
  | [], acc, n => (acc, n, [])
  | c :: cs, acc, n =>
    match digitValue c with
    | some d => readDigits cs (acc * 10 + d) (n + 1)
    | none => (acc, n, c :: cs)

/-- The number written by a plain decimal literal, `digits` or `digits.digits` with an
optional sign; `none` for every other string. -/
def decimalLiteral (s : String) : Option ℚ :=
  let signed : Bool × List Char :=
    match s.data with
    | '-' :: cs => (true, cs)
    | '+' :: cs => (false, cs)
    | cs => (false, cs)
  let sign : ℚ := if signed.1 then -1 else 1
  match readDigits signed.2 0 0 with
  | (ip, n1, []) => if n1 = 0 then none else some (sign * ip)
  | (ip, n1, '.' :: fs) =>
    match readDigits fs 0 0 with
    | (fp, n2, []) =>
      if n1 + n2 = 0 then none else some (sign * (ip + (fp : ℚ) / ((10 ^ n2 : ℕ) : ℚ)))
    | _ => none
  | _ => none

/-- Parameters of an example world: a SOL-to-token swap whose answers are fixed but
for the points the examples vary. -/
structure Demo where
  /-- transfer fee of the output token, in basis points; 0 for no extension -/
  fee : ℕ
  /-- the `priceImpactPct` of every quote -/
  priceImpact : String
  /-- the public key that must sign the swap transaction -/
  signer : String
  /-- whether the swap transaction is valid base64 -/
  base64Ok : Bool
  /-- how many `SendTransaction` calls fail before one succeeds -/
  sendFailures : ℕ

/-- Mint address of wrapped SOL. -/
def solMint : String := "So11111111111111111111111111111111111111112"

/-- Mint address of the example output token. -/
def outMint : String := "TokenzQdBNbLqP5VEhdkAS6EPFLC1PHnBqCXEpPxuEb"

/-- Public key of the example wallet. -/
def walletKey : String := "4Nd1mYvYqKx9bVJ7XbbSbCMHxFz8gq7u3nJ8b3JYqX1c"

/-- The quote every example world answers with. -/
def Demo.quote (d : Demo) : Quote :=
  { InputMint := solMint, OutputMint := outMint, InAmount := "1500000000",
    OutAmount := "2500000", OtherAmountThreshold := "2437500", SwapMode := "ExactIn",
    SlippageBps := 250, PriceImpactPct := d.priceImpact, RoutePlan := [] }

/-- Token metadata of the example world: 9 decimals for SOL, 6 for the output token,
which carries the transfer fee. -/
def Demo.token (d : Demo) (address : String) : TokenInfo :=
  { Address := address, Name := "", Symbol := "", Tags := [],
    Decimals := if address = solMint then 9 else 6,
    TransferFee :=
      if address = outMint ∧ d.fee > 0 then
        some { BasisPoints := d.fee, MaximumFee := 1000000, CollectorWallet := [] }
      else none,
    InterestRate := none, PermanentDelegate := none,
    FreezeAuthority := none, MintAuthority := none }

/-- The example world.  Its two readers of numbers stand in for the library on plain
decimal literals, where `strconv.ParseFloat` rounds the number written to the nearest
`float64` and `big.Float.SetString` rounds it to 64 bits (for up to 19 digits); on any
other string they answer with a scan error and with the zero value. -/
def Demo.env (d : Demo) : Env :=
  { getTokenInfo := fun _ address => Result.ok (d.token address)
    rateWait := fun _ => none
    httpGet := fun _ _ => Except.ok (200, "quote")
    decodeQuote := fun _ => Except.ok d.quote
    marshal := fun _ => Except.ok "request"
    httpPost := fun _ _ _ => Except.ok (200, "swap")
    decodeSwapResponse := fun _ => Except.ok { SwapTransaction := "AQID" }
    base64Decode := fun _ =>
      if d.base64Ok then Except.ok [1, 2, 3] else Except.error (Err.external "illegal base64 data")
    transactionFromDecoder := fun bytes =>
      Except.ok { signerKeys := [d.signer], message := bytes }
    sendTransaction := fun log _ =>
      if (log.filter Event.isSend).length < d.sendFailures then
        Except.error (Err.external "blockhash not found")
      else Except.ok "signature"
    sscanFloat := fun s =>
      match decimalLiteral s with
      | some q => Except.ok (roundF64 q)
      | none => Except.error (Err.external "strconv.ParseFloat: invalid syntax")
    setString := fun s =>
      match decimalLiteral s with
      | some q => BigFloat.fin 64 (roundPrec 64 q)
      | none => BigFloat.fin 0 0 }

/-- The example configuration: swap 1.5 SOL, keep 0.5 in reserve, 50 bps base slippage. -/
def Demo.config (slippageBPS : ℕ) (maxRetries : ℤ) : Config :=
  { Wallet := { MinSolBalance := F64.fin 1, ReserveAmount := F64.fin (1 / 2) }
    Token := { InputMint := solMint, OutputMint := outMint, SwapAmount := F64.fin (3 / 2),
               SlippageBPS := slippageBPS, DividendMint := "" }
    Monitor := { CheckIntervalMinutes := 5, MaxRetries := maxRetries, RetryDelaySeconds := 5 }
    Jupiter := { QuoteEndpoint := "https://quote-api.jup.ag/v6/quote",
                 SwapEndpoint := "https://quote-api.jup.ag/v6/swap",
                 OnlyDirectRoutes := false } }

/-- The example wallet. -/
def demoWallet : Wallet := { PublicKey := walletKey }

/-- An example world whose quotes carry a price impact of 3.00 percent; the output token
has a transfer fee of 200 bps. -/
def demoHighImpact : Demo :=
  { fee := 200, priceImpact := "3.00", signer := walletKey, base64Ok := true,
    sendFailures := 0 }

/-- An example world whose quotes carry a price impact of 1.50 percent. -/
def demoLowImpact : Demo :=
  { fee := 200, priceImpact := "1.50", signer := walletKey, base64Ok := true,
    sendFailures := 0 }

/-- An example world whose quotes carry a price impact of 2.50 percent, the cap at an
effective slippage of 250 bps. -/
def demoCapImpact : Demo :=
  { fee := 200, priceImpact := "2.50", signer := walletKey, base64Ok := true,
    sendFailures := 0 }

/-- An example world in which the first `SendTransaction` fails and the second succeeds. -/
def demoSendFailsOnce : Demo :=
  { fee := 200, priceImpact := "1.50", signer := walletKey, base64Ok := true,
    sendFailures := 1 }

/-- An example world whose swap transaction must be signed by a key the wallet lacks. -/
def demoForeignSigner : Demo :=
  { fee := 200, priceImpact := "1.50", signer := "9xQeWvG816bUx9EPjHmaT23yvVM2ZWbrrpZb9PusVFin",
    base64Ok := true, sendFailures := 0 }

/-- An example world whose swap transaction is not valid base64. -/
def demoBadBase64 : Demo :=
  { fee := 200, priceImpact := "1.50", signer := walletKey, base64Ok := false,
    sendFailures := 0 }

/-- An example world whose output token has a transfer fee of 100 bps. -/
def demoFee100 : Demo :=
  { fee := 100, priceImpact := "0.10", signer := walletKey, base64Ok := true,
    sendFailures := 0 }

/-- The log left by the token lookups and the quote request in the example worlds. -/
def demoQuoteLog : List Event :=
  [Event.tokenInfo solMint, Event.tokenInfo outMint,
   Event.jupiterGetQuote solMint outMint 1500000000 250 "", Event.rateWait,
   Event.tokenInfo solMint, Event.tokenInfo outMint,
   Event.httpGet
     { endpoint := "https://quote-api.jup.ag/v6/quote", inputMint := solMint,
       outputMint := outMint, amount := 1500000000, onlyDirectRoutes := false,
       slippageBps := some 250, dexes := none }]

/-- The log `log1` is `log` followed by new events that all satisfy `P`. -/
def Appends (P : Event → Prop) (log log1 : List Event) : Prop :=
  ∃ ev, log1 = log ++ ev ∧ ∀ x ∈ ev, P x

/-- The number whose little-endian bytes are `bs`. -/
def leValue (bs : List Byte) : ℕ := bs.foldr (fun b acc => b.val + 256 * acc) 0

/-- The bytes of a buffer at the indices `lo <= i < hi` below its length. -/
def Bytes.range (b : Bytes) (lo hi : ℕ) : List Byte := (b.data.drop lo).take (hi - lo)

deriving instance DecidableEq for InterestRate

/-- A 126-byte account: 82 base bytes, tag 1, 250 basis points, maximum fee 1000000 and
the collector key `1, 2, .., 32`. -/
def demoTransferFeeAccount : Bytes :=
  { data := List.replicate 82 0 ++ [1, 0, 250, 0, 64, 66, 15, 0, 0, 0, 0, 0]
      ++ (List.range 32).map (fun i => Fin.ofNat (i + 1)),
    spare := [] }

/-- A 98-byte account with tag 1: the shortest buffer that passes the length guard of
`parseTransferFee`. -/
def demoShortTransferFeeAccount : Bytes :=
  { data := List.replicate 82 0 ++ [1, 0, 250, 0, 64, 66, 15, 0, 0, 0, 0, 0, 1, 2, 3, 4],
    spare := [] }

/-- A call on a `TokenCache`, with the reading of the clock in it. -/
inductive CacheCall where
  | Get (now : ℤ) (address : String)
  | Set (now : ℤ) (address : String) (info : TokenInfo)
  | Clear

/-- The cache after a call. -/
def TokenCache.call (c : TokenCache) : CacheCall → TokenCache
  | CacheCall.Get now address => (c.Get now address).2
  | CacheCall.Set now address info => c.Set now address info
  | CacheCall.Clear => c.Clear

/-- The cache after a sequence of calls, oldest first. -/
def TokenCache.after (c : TokenCache) (calls : List CacheCall) : TokenCache :=
  calls.foldl TokenCache.call c

/-- The most recent `Set` for `address` in a sequence of calls, oldest first: its clock
reading and its value. -/
def lastSet (calls : List CacheCall) (address : String) : Option (ℤ × TokenInfo) :=
  calls.foldl
    (fun acc call =>
      match call with
      | CacheCall.Set now a info => if a = address then some (now, info) else acc
      | _ => acc)
    none

deriving instance DecidableEq for TokenInfo

/-- Calls on a cache: a first entry for the output token at time 0, a second one at 100
seconds, and a lookup of another key. -/
def demoCacheCalls : List CacheCall :=
  [CacheCall.Set 0 outMint (demoLowImpact.token outMint),
   CacheCall.Set 100000000000 outMint (demoFee100.token outMint),
   CacheCall.Get 120000000000 solMint]

/-- The sample `checkBalance` builds from a balance of `lamports` read at `now` against
the threshold `minBalance`. -/
def sampleOf (lamports : ℕ) (now : ℤ) (minBalance : F64) : BalanceCheck :=
  { Balance := F64.div (F64.ofNat lamports) (F64.ofNat LAMPORTS_PER_SOL),
    Timestamp := now,
    MetTarget := F64.ge (F64.div (F64.ofNat lamports) (F64.ofNat LAMPORTS_PER_SOL)) minBalance,
    Error := none }

/-- The watermark of a ledger is the greatest key of its transactions, and empty when
there are none. -/
def Watermark (cache : DividendCache) : Prop :=
  (∀ p ∈ cache.Transactions, p.1 ≤ cache.LastSignature) ∧
  (cache.Transactions = [] → cache.LastSignature = "") ∧
  (cache.Transactions ≠ [] → ∃ p ∈ cache.Transactions, p.1 = cache.LastSignature)

instance (cache : DividendCache) : Decidable (Watermark cache) := by
  unfold Watermark
  infer_instance

/-- The answer of `GetTransaction` is passed over by the loop: an error, a nil result, no
meta data, an empty balance list, or a transfer amount that is not positive. -/
def Skipped (r : Except Err (Option GetTransactionResult)) (dividendMint wallet : String) :
    Prop :=
  match r with
  | Except.error _ => True
  | Except.ok none => True
  | Except.ok (some tx) =>
    match tx.Meta with
    | none => True
    | some m =>
      sliceLen m.PreBalances = 0 ∨ sliceLen m.PostBalances = 0 ∨
      ∃ amount, getTransferAmount (some tx) dividendMint wallet = Except.ok amount ∧
        F64.le amount (F64.fin 0) = true

/-- The answer of `GetTransaction` is a qualifying transfer of `amount` at `blockTime`:
a transaction with both balance lists, `pre` and `post`, not empty and a positive
transfer amount. -/
def Qualifies (r : Except Err (Option GetTransactionResult)) (dividendMint wallet : String)
    (pre post : List ℕ) (amount : F64) (blockTime : ℤ) : Prop :=
  ∃ keys, r = Except.ok (some
      { Meta := some { PreBalances := some pre, PostBalances := some post },
        BlockTime := some blockTime, AccountKeys := keys }) ∧
    pre ≠ [] ∧ post ≠ [] ∧
    getTransferAmount (some
      { Meta := some { PreBalances := some pre, PostBalances := some post },
        BlockTime := some blockTime, AccountKeys := keys }) dividendMint wallet =
      Except.ok amount ∧
    F64.le amount (F64.fin 0) = false

/-- The address paying the dividends in the example ledger. -/
def dividendKey : String := "D1vPayerXhVCqZ6b2sE5gU7oTAnkWMzR3sC4tGh8pQwE"

/-- The newest signature of the example ledger, not a transfer from the dividend address;
it is the greatest of the three in the order of strings. -/
def sigA : String := "5KtPn1LGuxhFiwjxErkxTbGQYdRyS8b7jMXnPE9u1WvQ"

/-- The second signature of the example ledger, a dividend of 1 SOL. -/
def sigB : String := "2nBhEBYYvfaAe16UMNqRHDxvNeKp4yXu5ZWtgJ9d3sLc"

/-- The oldest signature of the example ledger, whose transaction cannot be fetched. -/
def sigC : String := "3v1cXCGz6bS4XyLrEnzJfNaW8mTqB7kR2uYhD5pVe9Gs"

/-- The example world of the ledger: the RPC node lists `sigA`, `sigB`, `sigC`, and only
`sigB` is a transfer from the dividend address to the wallet. -/
def demoLedgerEnv : LedgerEnv :=
  { publicKeyFromBase58 := fun _ => none,
    mkdirAll := fun _ => none,
    readFails := fun _ _ => none,
    getSignaturesForAddress := fun _ _ => Except.ok [sigA, sigB, sigC],
    getTransaction := fun _ sig =>
      if sig = sigB then
        Except.ok (some
          { Meta := some { PreBalances := some [5000000000, 1000000000],
                           PostBalances := some [3500000000, 2000000000] },
            BlockTime := some 1700000000,
            AccountKeys := Except.ok [dividendKey, walletKey] })
      else if sig = sigA then
        Except.ok (some
          { Meta := some { PreBalances := some [7000000000, 1000000000],
                           PostBalances := some [6499995000, 1500000000] },
            BlockTime := some 1700000500,
            AccountKeys := Except.ok [outMint, walletKey] })
      else Except.error (Err.external "transaction not found"),
    writeFails := fun _ _ => none,
    now := fun _ => 1700001000000000000,
    rangeOrder := fun _ => [] }

/-- The example configuration with the dividend address set. -/
def demoLedgerConfig : Config :=
  { Demo.config 50 3 with
    Token := { (Demo.config 50 3).Token with DividendMint := dividendKey } }

/-- The transfer the example ledger records for `sigB`. -/
def demoTransfer : DividendTransfer :=
  { Signature := sigB, Amount := F64.fin 1, Timestamp := 1700000000000000000,
    PreBalance := F64.fin 5, PostBalance := F64.fin (7 / 2) }

/-- The example ledger after its first run: the one transfer, under the watermark
`sigB`. -/
def demoLedgerCache : DividendCache :=
  { LastUpdate := 1700001000000000000, LastSignature := sigB,
    Transactions := [(sigB, demoTransfer)] }

/-- The call returned a value. -/
def Result.isOk {α : Type} : Result α → Bool
  | Result.ok _ => true
  | _ => false

/-- The keys of the three extensions that are parsed at offset 82. -/
def extensionKeys : List String := ["transfer_fee", "interest_rate", "permanent_delegate"]

/-- The example token info after enrichment with the transfer fee account: the fee is
set, and both authorities, which the account leaves at zero. -/
def demoEnriched : TokenInfo × GoMap Bool :=
  ({ demoLowImpact.token solMint with
      TransferFee := some { BasisPoints := 250, MaximumFee := 1000000,
                            CollectorWallet := (List.range 32).map (fun i => i + 1) },
      FreezeAuthority := some "11111111111111111111111111111111",
      MintAuthority := some "11111111111111111111111111111111" },
   [("transfer_fee", true), ("freeze_authority", true), ("mint_authority", true)])

/-- The balance in SOL of a number of lamports, as `getTransferAmount` and the ledger
compute it: `float64(x) / 1e9`. -/
def solOf (lamports : ℕ) : F64 := F64.div (F64.ofNat lamports) (F64.fin 1000000000)

/-- A transaction with the two balance lists and the account keys given. -/
def transferTx (pre post : List ℕ) (keys : List String) (blockTime : Option ℤ) :
    GetTransactionResult :=
  { Meta := some { PreBalances := some pre, PostBalances := some post },
    BlockTime := blockTime, AccountKeys := Except.ok keys }

/-- The sum of a list of `float64`, accumulated from zero in the order of the list. -/
def floatSum (l : List F64) : F64 := l.foldl F64.add (F64.fin 0)

/-- The amounts of the records whose age at `now` is at most `d` nanoseconds, in the
order of the list; the age is the difference of the two instants. -/
def amountsWithin (now d : ℤ) (m : GoMap DividendTransfer) : List F64 :=
  (m.filter (fun p => decide (now - p.2.Timestamp ≤ d))).map (fun p => p.2.Amount)

/-- Three transfers of 0.1, 0.2 and 0.3 SOL. -/
def demoThreeTransfers : GoMap DividendTransfer :=
  [("a", { Signature := "a", Amount := solOf 100000000, Timestamp := 1700000000000000000,
           PreBalance := F64.fin 0, PostBalance := solOf 100000000 }),
   ("b", { Signature := "b", Amount := solOf 200000000, Timestamp := 1700000000000000000,
           PreBalance := F64.fin 0, PostBalance := solOf 200000000 }),
   ("c", { Signature := "c", Amount := solOf 300000000, Timestamp := 1700000000000000000,
           PreBalance := F64.fin 0, PostBalance := solOf 300000000 })]

/-- The transaction of `sigB` in the example ledger: the payer is key 0 and goes from 5
to 3.5 SOL, the wallet is key 1 and goes from 1 to 2 SOL. -/
def demoDividendTx : GetTransactionResult :=
  { Meta := some { PreBalances := some [5000000000, 1000000000],
                   PostBalances := some [3500000000, 2000000000] },
    BlockTime := some 1700000000,
    AccountKeys := Except.ok [dividendKey, walletKey] }

/-- The state of the example bot before the sample: three swaps done, the last one of
1.5 SOL, no error so far. -/
def demoState : State :=
  { CurrentBalance := F64.fin (5 / 2), LastSwapAmount := F64.fin (3 / 2),
    LastSwapTime := 1700000000000000000, TotalSwaps := 3, Errors := 0,
    Status := Status.StatusIdle }

/-- The example bot, running, with an empty error channel of capacity 10. -/
def demoBot : Bot :=
  { isRunning := true, stateChan := some demoState, errorChan := { buf := [], cap := 10 } }

/-- The newest signature of the ledger of three dividends, the greatest of the three in
the order of strings. -/
def sigX : String := "4xThirdDividendOfThreeQm8Zc2Lr7Tn5Vb9Hs3Kd6Wg"

/-- The second signature of the ledger of three dividends. -/
def sigY : String := "3ySecondDividendOfThreeJp4Xe8Nu2Fa6Rt9Cm5Bq7"

/-- The oldest signature of the ledger of three dividends. -/
def sigZ : String := "2zFirstDividendOfThreeGk7Wd3Mv5Ys8Pb4Hn6Tc9"

/-- An example world with three dividends, of 0.1, 0.2 and 0.3 SOL, newest first.  Its
answers do not depend on the moment of the call and its clock stands still; the loop over
the ledger goes through the map in the order of insertion in a run from scratch and
starts from the second entry in a later run. -/
def demoThreeLedgerEnv : LedgerEnv :=
  { publicKeyFromBase58 := fun _ => none,
    mkdirAll := fun _ => none,
    readFails := fun _ _ => none,
    getSignaturesForAddress := fun _ _ => Except.ok [sigX, sigY, sigZ],
    getTransaction := fun _ sig =>
      Except.ok (some
        { Meta := some { PreBalances := some [5000000000, 0],
                         PostBalances := some
                           [4000000000,
                            if sig = sigX then 100000000
                            else if sig = sigY then 200000000 else 300000000] },
          BlockTime := some 1700000000,
          AccountKeys := Except.ok [dividendKey, walletKey] }),
    writeFails := fun _ _ => none,
    now := fun _ => 1700001000000000000,
    rangeOrder := fun log => if log.length ≤ 6 then [] else [1, 1] }

/-- The world after the first run of the example ledger. -/
def demoFirstRunWorld : LedgerWorld :=
  { files := [(cacheFile walletKey, demoLedgerCache)],
    log := [LedgerEvent.readFile (cacheFile walletKey), LedgerEvent.getSignatures walletKey,
      LedgerEvent.getTransaction sigA, LedgerEvent.getTransaction sigB,
      LedgerEvent.getTransaction sigC,
      LedgerEvent.writeFile (cacheFile walletKey) demoLedgerCache] }

/-- The totals of the example ledger: the one dividend of 1 SOL. -/
def demoLedgerInfo : DividendInfo :=
  { TotalAmount := F64.fin 1, LastReceived := 1700000000000000000, TransferCount := 1,
    USDValue := F64.fin 0, Last24hAmount := F64.fin 1, Last7dAmount := F64.fin 1,
    Last30dAmount := F64.fin 1 }

/-- The totals of three records of one time of receipt whose four sums are all `total`. -/
def demoThreeInfo (total : F64) : DividendInfo :=
  { TotalAmount := total, LastReceived := 1700000000000000000, TransferCount := 3,
    USDValue := F64.fin 0, Last24hAmount := total, Last7dAmount := total,
    Last30dAmount := total }

/-- The event is a call of `GetTransaction`. -/
def LedgerEvent.isGetTransaction : LedgerEvent → Bool
  | LedgerEvent.getTransaction _ => true
  | _ => false

/-- An example world whose swap endpoint cannot be reached: the first submission ends in
a reset connection, every later one in a timeout. -/
def demoChangingError : Env :=
  { demoLowImpact.env with
    httpPost := fun log _ _ =>
      Except.error (Err.external
        (if (log.filter Event.isExecuteSwap).length ≤ 1 then "connection reset by peer"
         else "i/o timeout")) }

/-! ## Theorems: the retry wrapper -/

theorem worldAt_shift {σ α : Type} (fn : σ → Result α × σ) (sleep : σ → σ) (s : σ) (k : ℕ) :
    worldAt fn sleep (worldAt fn sleep s 1) k = worldAt fn sleep s (k + 1) := by
  induction k with
  | zero => rfl
  | succ k ih =>
    show sleep (fn (worldAt fn sleep (worldAt fn sleep s 1) k)).2 = _
    rw [ih]
    rfl

theorem loop_step_err {σ α : Type} (fn : σ → Result α × σ) (sleep : σ → σ)
    (rem i : ℕ) (lastErr : Option Err) (s s2 : σ) (e : Err)
    (h : fn (if i > 0 then sleep s else s) = (Result.err e, s2)) :
    WithRetry.loop fn sleep (rem + 1) i lastErr s =
      WithRetry.loop fn sleep rem (i + 1) (some e) s2 := by
  rw [WithRetry.loop]
  simp only [h]

theorem loop_step_ok {σ α : Type} (fn : σ → Result α × σ) (sleep : σ → σ)
    (rem i : ℕ) (lastErr : Option Err) (s s2 : σ) (v : α)
    (h : fn (if i > 0 then sleep s else s) = (Result.ok v, s2)) :
    WithRetry.loop fn sleep (rem + 1) i lastErr s = (Sum.inl (Result.ok v), s2) := by
  rw [WithRetry.loop]
  simp only [h]

theorem loop_step_panic {σ α : Type} (fn : σ → Result α × σ) (sleep : σ → σ)
    (rem i : ℕ) (lastErr : Option Err) (s s2 : σ) (p : Panic)
    (h : fn (if i > 0 then sleep s else s) = (Result.panic p, s2)) :
    WithRetry.loop fn sleep (rem + 1) i lastErr s = (Sum.inl (Result.panic p), s2) := by
  rw [WithRetry.loop]
  simp only [h]

theorem worldAt_one {σ α : Type} (fn : σ → Result α × σ) (sleep : σ → σ) (s : σ) :
    worldAt fn sleep s 1 = sleep (fn s).2 := rfl

theorem loop_all_fail {σ α : Type} (fn : σ → Result α × σ) (sleep : σ → σ) :
    ∀ (rem i : ℕ) (lastErr : Option Err) (s : σ),
      (∀ k, k < rem + 1 →
        ∃ e, (fn (worldAt fn sleep (if i > 0 then sleep s else s) k)).1 = Result.err e) →
      WithRetry.loop fn sleep (rem + 1) i lastErr s =
        (Sum.inr (fn (worldAt fn sleep (if i > 0 then sleep s else s) rem)).1.getErr?,
          (fn (worldAt fn sleep (if i > 0 then sleep s else s) rem)).2) := by
  intro rem
  induction rem with
  | zero =>
    intro i lastErr s h
    obtain ⟨e, he⟩ := h 0 (by omega)
    simp only [worldAt] at he ⊢
    have hfn : fn (if i > 0 then sleep s else s) =
        (Result.err e, (fn (if i > 0 then sleep s else s)).2) := by
      rw [← he]
    rw [loop_step_err fn sleep 0 i lastErr s _ e hfn, he]
    rfl
  | succ rem ih =>
    intro i lastErr s h
    obtain ⟨e, he⟩ := h 0 (by omega)
    simp only [worldAt] at he
    have hfn : fn (if i > 0 then sleep s else s) =
        (Result.err e, (fn (if i > 0 then sleep s else s)).2) := by
      rw [← he]
    rw [loop_step_err fn sleep (rem + 1) i lastErr s _ e hfn]
    have hpos : (if i + 1 > 0 then sleep (fn (if i > 0 then sleep s else s)).2
        else (fn (if i > 0 then sleep s else s)).2) =
        worldAt fn sleep (if i > 0 then sleep s else s) 1 := by
      simp [worldAt]
    rw [ih (i + 1) (some e) _ (by
      intro k hk
      rw [hpos, worldAt_shift]
      exact h (k + 1) (by omega))]
    rw [hpos, worldAt_shift]

theorem loop_first_ok {σ α : Type} (fn : σ → Result α × σ) (sleep : σ → σ) (v : α) :
    ∀ (k rem i : ℕ) (lastErr : Option Err) (s : σ), k < rem →
      (∀ j, j < k →
        ∃ e, (fn (worldAt fn sleep (if i > 0 then sleep s else s) j)).1 = Result.err e) →
      (fn (worldAt fn sleep (if i > 0 then sleep s else s) k)).1 = Result.ok v →
      WithRetry.loop fn sleep rem i lastErr s =
        (Sum.inl (Result.ok v), (fn (worldAt fn sleep (if i > 0 then sleep s else s) k)).2) := by
  intro k
  induction k with
  | zero =>
    intro rem i lastErr s hk _ hok
    obtain ⟨rem, rfl⟩ : ∃ r, rem = r + 1 := ⟨rem - 1, by omega⟩
    simp only [worldAt] at hok ⊢
    have hfn : fn (if i > 0 then sleep s else s) =
        (Result.ok v, (fn (if i > 0 then sleep s else s)).2) := by
      rw [← hok]
    exact loop_step_ok fn sleep rem i lastErr s _ v hfn
  | succ k ih =>
    intro rem i lastErr s hk hfail hok
    obtain ⟨rem, rfl⟩ : ∃ r, rem = r + 1 := ⟨rem - 1, by omega⟩
    obtain ⟨e, he⟩ := hfail 0 (by omega)
    simp only [worldAt] at he
    have hfn : fn (if i > 0 then sleep s else s) =
        (Result.err e, (fn (if i > 0 then sleep s else s)).2) := by
      rw [← he]
    rw [loop_step_err fn sleep rem i lastErr s _ e hfn]
    have hpos : (if i + 1 > 0 then sleep (fn (if i > 0 then sleep s else s)).2
        else (fn (if i > 0 then sleep s else s)).2) =
        worldAt fn sleep (if i > 0 then sleep s else s) 1 := by
      simp [worldAt]
    rw [ih rem (i + 1) (some e) _ (by omega)
      (by
        intro j hj
        rw [hpos, worldAt_shift]
        exact hfail (j + 1) (by omega))
      (by
        rw [hpos, worldAt_shift]
        exact hok)]
    rw [hpos, worldAt_shift]

theorem worldAt_counting {σ α : Type} (fn : σ → Result α × σ) (sleep : σ → σ) (s : σ)
    (c k : ℕ) :
    worldAt (counting fn) (countingSleep sleep) (s, c) k = (worldAt fn sleep s k, c + k) := by
  induction k with
  | zero => rfl
  | succ k ih =>
    show countingSleep sleep (counting fn (worldAt (counting fn) (countingSleep sleep) (s, c) k)).2
      = _
    rw [ih]
    rfl

/-- C5. An operation that returns an error on each of its calls is called exactly
`maxRetries + 1` times by `WithRetry` (for `maxRetries ≥ 0`), and the error returned wraps
the error of the last of these calls. -/
theorem WithRetry_all_fail {σ α : Type} (fn : σ → Result α × σ) (sleep : σ → σ)
    (maxRetries : ℤ) (hN : 0 ≤ maxRetries) (s : σ)
    (hfail : ∀ k, k ≤ maxRetries.toNat →
      ∃ e, (fn (worldAt fn sleep s k)).1 = Result.err e) :
    ∃ e, (fn (worldAt fn sleep s maxRetries.toNat)).1 = Result.err e ∧
      WithRetry (counting fn) (countingSleep sleep) maxRetries (s, 0) =
        (Result.err (Err.retriesExhausted maxRetries e),
          ((fn (worldAt fn sleep s maxRetries.toNat)).2, maxRetries.toNat + 1)) := by
  obtain ⟨e, he⟩ := hfail maxRetries.toNat le_rfl
  refine ⟨e, he, ?_⟩
  have hrem : (maxRetries + 1).toNat = maxRetries.toNat + 1 := by omega
  have hloop := loop_all_fail (counting fn) (countingSleep sleep) maxRetries.toNat 0 none (s, 0)
    (by
      intro k hk
      obtain ⟨e1, he1⟩ := hfail k (by omega)
      refine ⟨e1, ?_⟩
      simp only [gt_iff_lt, lt_self_iff_false, if_false]
      rw [worldAt_counting]
      exact he1)
  simp only [gt_iff_lt, lt_self_iff_false, if_false, worldAt_counting] at hloop
  unfold WithRetry
  rw [hrem, hloop]
  simp only [counting, he, Result.getErr?, zero_add]

/-- C6. When the first success of the operation is on its `k`-th call and
`k ≤ maxRetries + 1`, `WithRetry` calls it exactly `k` times and returns that call's
value without an error. -/
theorem WithRetry_first_success {σ α : Type} (fn : σ → Result α × σ) (sleep : σ → σ)
    (maxRetries : ℤ) (hN : 0 ≤ maxRetries) (s : σ) (k : ℕ) (v : α)
    (hk1 : 1 ≤ k) (hk : (k : ℤ) ≤ maxRetries + 1)
    (hfail : ∀ j, j + 1 < k → ∃ e, (fn (worldAt fn sleep s j)).1 = Result.err e)
    (hok : (fn (worldAt fn sleep s (k - 1))).1 = Result.ok v) :
    WithRetry (counting fn) (countingSleep sleep) maxRetries (s, 0) =
      (Result.ok v, ((fn (worldAt fn sleep s (k - 1))).2, k)) := by
  have hloop := loop_first_ok (counting fn) (countingSleep sleep) v (k - 1)
    (maxRetries + 1).toNat 0 none (s, 0) (by omega)
    (by
      intro j hj
      obtain ⟨e1, he1⟩ := hfail j (by omega)
      refine ⟨e1, ?_⟩
      simp only [gt_iff_lt, lt_self_iff_false, if_false]
      rw [worldAt_counting]
      exact he1)
    (by
      simp only [gt_iff_lt, lt_self_iff_false, if_false]
      rw [worldAt_counting]
      exact hok)
  simp only [gt_iff_lt, lt_self_iff_false, if_false, worldAt_counting] at hloop
  unfold WithRetry
  rw [hloop]
  simp only [counting, zero_add]
  have : k - 1 + 1 = k := by omega
  rw [this]


/-- With `maxRetries = 2`, three failing calls are made and the third error is returned. -/
theorem WithRetry_all_fail_witness :
    WithRetry (counting (scripted (α := ℕ))) (countingSleep id) 2
        ([Result.err (Err.external "first"), Result.err (Err.external "second"),
          Result.err (Err.external "third")], 0) =
      (Result.err (Err.retriesExhausted 2 (Err.external "third")), ([], 3)) := by
  obtain ⟨e, he, h⟩ := WithRetry_all_fail (scripted (α := ℕ)) id 2 (by decide)
    [Result.err (Err.external "first"), Result.err (Err.external "second"),
      Result.err (Err.external "third")]
    (by
      intro k hk
      have hk2 : k ≤ 2 := hk
      interval_cases k
      · exact ⟨_, rfl⟩
      · exact ⟨_, rfl⟩
      · exact ⟨_, rfl⟩)
  have he2 : e = Err.external "third" := by
    have h3 : (scripted (α := ℕ) (worldAt scripted id
        [Result.err (Err.external "first"), Result.err (Err.external "second"),
          Result.err (Err.external "third")] 2)).1 = Result.err (Err.external "third") := rfl
    have := he.symm.trans h3
    exact Result.err.inj this
  rw [he2] at h
  exact h

/-- Failing twice and succeeding on the third call, with `maxRetries = 3`: three calls, and
the fourth answer of the script is left unused. -/
theorem WithRetry_first_success_witness :
    WithRetry (counting (scripted (α := ℕ))) (countingSleep id) 3
        ([Result.err (Err.external "first"), Result.err (Err.external "second"),
          Result.ok 7, Result.ok 8], 0) =
      (Result.ok 7, ([Result.ok 8], 3)) :=
  WithRetry_first_success (scripted (α := ℕ)) id 3 (by decide)
    [Result.err (Err.external "first"), Result.err (Err.external "second"),
      Result.ok 7, Result.ok 8] 3 7 (by decide) (by decide)
    (by
      intro j hj
      have hj2 : j < 2 := by omega
      interval_cases j
      · exact ⟨_, rfl⟩
      · exact ⟨_, rfl⟩)
    rfl


/-! ## Theorems: what a run appends to the log -/

theorem Appends.refl (P : Event → Prop) (log : List Event) : Appends P log log :=
  ⟨[], by simp, by simp⟩

theorem Appends.trans {P : Event → Prop} {l1 l2 l3 : List Event}
    (h1 : Appends P l1 l2) (h2 : Appends P l2 l3) : Appends P l1 l3 := by
  obtain ⟨e1, rfl, p1⟩ := h1
  obtain ⟨e2, rfl, p2⟩ := h2
  refine ⟨e1 ++ e2, by simp, ?_⟩
  intro x hx
  rcases List.mem_append.mp hx with h | h
  · exact p1 x h
  · exact p2 x h

theorem Appends.one {P : Event → Prop} (log : List Event) (e : Event) (h : P e) :
    Appends P log (log ++ [e]) :=
  ⟨[e], rfl, by simpa using h⟩

theorem Appends.mono {P Q : Event → Prop} {l1 l2 : List Event} (h : Appends P l1 l2)
    (hPQ : ∀ x, P x → Q x) : Appends Q l1 l2 := by
  obtain ⟨ev, rfl, p⟩ := h
  exact ⟨ev, rfl, fun x hx => hPQ x (p x hx)⟩

theorem GetTokenInfo_appends (P : Event → Prop) (env : Env) (address : String)
    (log : List Event) (h : P (Event.tokenInfo address)) :
    Appends P log (GetTokenInfo env address log).2 :=
  Appends.one log _ h

theorem loop_appends {α : Type} (P : Event → Prop) (fn : List Event → Result α × List Event)
    (sleep : List Event → List Event)
    (hfn : ∀ l, Appends P l (fn l).2) (hsleep : ∀ l, Appends P l (sleep l)) :
    ∀ (rem i : ℕ) (lastErr : Option Err) (l : List Event),
      Appends P l (WithRetry.loop fn sleep rem i lastErr l).2 := by
  intro rem
  induction rem with
  | zero =>
    intro i lastErr l
    exact Appends.refl P l
  | succ rem ih =>
    intro i lastErr l
    have h1 : Appends P l (if i > 0 then sleep l else l) := by
      split
      · exact hsleep l
      · exact Appends.refl P l
    have h2 := hfn (if i > 0 then sleep l else l)
    rw [WithRetry.loop]
    generalize fn (if i > 0 then sleep l else l) = r at h2 ⊢
    obtain ⟨r1, r2⟩ := r
    cases r1 with
    | ok v => exact h1.trans h2
    | panic p => exact h1.trans h2
    | err e => exact (h1.trans h2).trans (ih (i + 1) (some e) r2)

theorem WithRetry_appends {α : Type} (P : Event → Prop)
    (fn : List Event → Result α × List Event) (sleep : List Event → List Event)
    (hfn : ∀ l, Appends P l (fn l).2) (hsleep : ∀ l, Appends P l (sleep l))
    (maxRetries : ℤ) (l : List Event) :
    Appends P l (WithRetry fn sleep maxRetries l).2 := by
  have h := loop_appends P fn sleep hfn hsleep (maxRetries + 1).toNat 0 none l
  unfold WithRetry
  generalize WithRetry.loop fn sleep (maxRetries + 1).toNat 0 none l = r at h ⊢
  obtain ⟨r1, r2⟩ := r
  cases r1 with
  | inl v => exact h
  | inr o =>
    cases o with
    | none => exact h
    | some e => exact h

theorem sleepFor_appends (P : Event → Prop) (seconds : ℤ) (h : P (Event.sleep seconds))
    (l : List Event) : Appends P l (sleepFor seconds l) :=
  Appends.one l _ h

/-- Everything `Client.GetQuote` appends after its own entry event. -/
theorem GetQuote_appends_after_entry (P : Event → Prop) (env : Env) (jcfg : JupiterConfig)
    (inputMint outputMint : String) (amount : ℕ) (slippageBps : ℤ) (dexes : String)
    (hw : P Event.rateWait) (ht : ∀ a, P (Event.tokenInfo a)) (hg : ∀ u, P (Event.httpGet u))
    (log : List Event) :
    Appends P (log ++ [Event.jupiterGetQuote inputMint outputMint amount slippageBps dexes])
      (Client.GetQuote env jcfg inputMint outputMint amount slippageBps dexes log).2 := by
  have a2 := Appends.one (P := P)
    (log ++ [Event.jupiterGetQuote inputMint outputMint amount slippageBps dexes])
    Event.rateWait hw
  have a3 := a2.trans (Appends.one (P := P) _ (Event.tokenInfo inputMint) (ht _))
  have a4 := a3.trans (Appends.one (P := P) _ (Event.tokenInfo outputMint) (ht _))
  unfold Client.GetQuote GetTokenInfo
  simp only []
  repeat' split
  all_goals simp only [Prod.mk.injEq] at *
  all_goals try cases_type* And
  all_goals subst_vars
  all_goals first
    | exact a2
    | exact a3
    | exact a4
    | exact a4.trans (Appends.one _ _ (hg _))

theorem GetQuote_appends (P : Event → Prop) (env : Env) (jcfg : JupiterConfig)
    (inputMint outputMint : String) (amount : ℕ) (slippageBps : ℤ) (dexes : String)
    (hq : P (Event.jupiterGetQuote inputMint outputMint amount slippageBps dexes))
    (hw : P Event.rateWait) (ht : ∀ a, P (Event.tokenInfo a)) (hg : ∀ u, P (Event.httpGet u))
    (log : List Event) :
    Appends P log
      (Client.GetQuote env jcfg inputMint outputMint amount slippageBps dexes log).2 :=
  (Appends.one log _ hq).trans
    (GetQuote_appends_after_entry P env jcfg inputMint outputMint amount slippageBps dexes
      hw ht hg log)

theorem submitSwapRequest_appends (P : Event → Prop) (env : Env) (jcfg : JupiterConfig)
    (req : SwapRequest) (hp : ∀ ep r, P (Event.httpPost ep r)) (log : List Event) :
    Appends P log (Client.submitSwapRequest env jcfg req log).2 := by
  unfold Client.submitSwapRequest
  simp only []
  repeat' split
  all_goals first
    | exact Appends.refl P log
    | exact Appends.one _ _ (hp _ _)

theorem processSwapTransaction_appends (P : Event → Prop) (env : Env)
    (swapResp : SwapResponse) (wallet : Wallet) (hs : ∀ tx, P (Event.sendTransaction tx))
    (log : List Event) :
    Appends P log (Client.processSwapTransaction env swapResp wallet log).2 := by
  unfold Client.processSwapTransaction
  simp only []
  repeat' split
  all_goals first
    | exact Appends.refl P log
    | exact Appends.one _ _ (hs _)

/-- Everything `Client.ExecuteSwap` appends after its own entry event. -/
theorem ExecuteSwap_appends (P : Event → Prop) (env : Env) (jcfg : JupiterConfig)
    (wallet : Wallet) (quote : Quote) (priorityFee : ℤ)
    (ht : ∀ a, P (Event.tokenInfo a)) (hp : ∀ ep r, P (Event.httpPost ep r))
    (hs : ∀ tx, P (Event.sendTransaction tx)) (log : List Event) :
    Appends P (log ++ [Event.jupiterExecuteSwap quote priorityFee])
      (Client.ExecuteSwap env jcfg wallet quote priorityFee log).2 := by
  have a1 := Appends.one (P := P) (log ++ [Event.jupiterExecuteSwap quote priorityFee])
    (Event.tokenInfo quote.OutputMint) (ht _)
  unfold Client.ExecuteSwap GetTokenInfo
  simp only []
  split
  · exact Appends.refl P _
  · split
    · rename_i h
      simp only [Prod.mk.injEq] at h
      obtain ⟨_, rfl⟩ := h
      exact a1
    · rename_i h
      simp only [Prod.mk.injEq] at h
      obtain ⟨_, rfl⟩ := h
      exact a1
    · rename_i outputToken log1 h
      simp only [Prod.mk.injEq] at h
      obtain ⟨_, rfl⟩ := h
      have a2 : ∀ req r l2,
          Client.submitSwapRequest env jcfg req
            (log ++ [Event.jupiterExecuteSwap quote priorityFee] ++
              [Event.tokenInfo quote.OutputMint]) = (r, l2) →
          Appends P (log ++ [Event.jupiterExecuteSwap quote priorityFee]) l2 := by
        intro req r l2 h
        have := a1.trans (submitSwapRequest_appends P env jcfg req hp _)
        rw [h] at this
        exact this
      split
      · rename_i h2
        exact a2 _ _ _ h2
      · rename_i h2
        exact a2 _ _ _ h2
      · rename_i swapResp log2 h2
        exact (a2 _ _ _ h2).trans
          (processSwapTransaction_appends P env swapResp wallet hs log2)

/-! ## Theorems: the swap execution pipeline -/

/-- C4. `Trader.ExecuteSwap` fails with the insufficient-balance error when
`balance < SwapAmount + ReserveAmount` (the `float64` sum and comparison of the code), and
then returns with the log unchanged: no token-metadata fetch, no quote request, no
submission, no sleep of a retry.  When the comparison is false this error is not raised. -/
theorem ExecuteSwap_insufficient_balance (env : Env) (cfg : Config) (wallet : Wallet)
    (balance : F64) (log : List Event) :
    if F64.lt balance (F64.add cfg.Token.SwapAmount cfg.Wallet.ReserveAmount) = true then
      Trader.ExecuteSwap env cfg wallet balance log = (Result.err Err.insufficientBalance, log)
    else
      (Trader.ExecuteSwap env cfg wallet balance log).1 ≠ Result.err Err.insufficientBalance := by
  split
  · rename_i h
    unfold Trader.ExecuteSwap
    simp only [h, if_true]
  · rename_i h
    unfold Trader.ExecuteSwap
    simp only [h]
    repeat' split
    all_goals simp_all

/-- C1. Once the quote is obtained and its price-impact string scans to `p`, the swap is
aborted with the price-impact-too-high error exactly when `|p|` exceeds
`float64(effectiveSlippage) / 100.0` (equality passes), and when it aborts the log is the
one left by the quote phase and holds no new entry into `jupiterClient.ExecuteSwap`. -/
theorem ExecuteSwap_price_impact_guard (env : Env) (cfg : Config) (wallet : Wallet)
    (balance : F64) (log log3 : List Event) (inputToken outputToken : TokenInfo)
    (rawAmount : ℕ) (quote : Quote) (p : F64)
    (hbal : F64.lt balance (F64.add cfg.Token.SwapAmount cfg.Wallet.ReserveAmount) = false)
    (hin : env.getTokenInfo log cfg.Token.InputMint = Result.ok inputToken)
    (hout : env.getTokenInfo (log ++ [Event.tokenInfo cfg.Token.InputMint])
      cfg.Token.OutputMint = Result.ok outputToken)
    (hraw : Trader.toRawAmount cfg.Token.SwapAmount inputToken.Decimals = Except.ok rawAmount)
    (hquote : WithRetry
      (Client.GetQuote env cfg.Jupiter cfg.Token.InputMint cfg.Token.OutputMint rawAmount
        (Trader.effectiveSlippage cfg.Token.SlippageBPS outputToken.GetTransferFeeBps) "")
      (sleepFor cfg.Monitor.RetryDelaySeconds) cfg.Monitor.MaxRetries
      (log ++ [Event.tokenInfo cfg.Token.InputMint] ++ [Event.tokenInfo cfg.Token.OutputMint])
        = (Result.ok quote, log3))
    (hp : env.sscanFloat quote.PriceImpactPct = Except.ok p) :
    if F64.gt (F64.abs p)
        (F64.div
          (F64.ofNat (Trader.effectiveSlippage cfg.Token.SlippageBPS
            outputToken.GetTransferFeeBps))
          (F64.fin 100)) = true then
      Trader.ExecuteSwap env cfg wallet balance log = (Result.err Err.priceImpactTooHigh, log3) ∧
        log3.filter Event.isExecuteSwap = log.filter Event.isExecuteSwap
    else
      (Trader.ExecuteSwap env cfg wallet balance log).1 ≠ Result.err Err.priceImpactTooHigh := by
  have hrun : ∀ b : Bool,
      F64.gt (F64.abs p)
        (F64.div
          (F64.ofNat (Trader.effectiveSlippage cfg.Token.SlippageBPS
            outputToken.GetTransferFeeBps))
          (F64.fin 100)) = b →
      Trader.ExecuteSwap env cfg wallet balance log =
        if b = true then (Result.err Err.priceImpactTooHigh, log3)
        else
          match WithRetry (Client.ExecuteSwap env cfg.Jupiter wallet quote 36699)
              (sleepFor cfg.Monitor.RetryDelaySeconds) cfg.Monitor.MaxRetries log3 with
          | (Result.panic p, log4) => (Result.panic p, log4)
          | (Result.err e, log4) => (Result.err (Err.executeSwap e), log4)
          | (Result.ok _, log4) =>
            match Trader.fromRawAmount env quote.InAmount inputToken.Decimals with
            | Except.error p => (Result.panic p, log4)
            | Except.ok _ =>
              match Trader.fromRawAmount env quote.OutAmount outputToken.Decimals with
              | Except.error p => (Result.panic p, log4)
              | Except.ok _ => (Result.ok (), log4) := by
    intro b hb
    unfold Trader.ExecuteSwap
    simp only [hbal, GetTokenInfo, hin, hout, hraw, hquote, Trader.calculatePriceImpact, hp, hb]
    rfl
  split
  · rename_i h
    refine ⟨by rw [hrun true h]; rfl, ?_⟩
    have hq := WithRetry_appends (fun e => e.isExecuteSwap = false)
      (Client.GetQuote env cfg.Jupiter cfg.Token.InputMint cfg.Token.OutputMint rawAmount
        (Trader.effectiveSlippage cfg.Token.SlippageBPS outputToken.GetTransferFeeBps) "")
      (sleepFor cfg.Monitor.RetryDelaySeconds)
      (fun l => GetQuote_appends (fun e => e.isExecuteSwap = false) env cfg.Jupiter _ _ _ _ _
        rfl rfl (fun _ => rfl) (fun _ => rfl) l)
      (fun l => sleepFor_appends (fun e => e.isExecuteSwap = false) _ rfl l)
      cfg.Monitor.MaxRetries
      (log ++ [Event.tokenInfo cfg.Token.InputMint] ++ [Event.tokenInfo cfg.Token.OutputMint])
    rw [hquote] at hq
    obtain ⟨ev, hev, hP⟩ := hq
    simp only at hev
    rw [hev]
    simp only [List.filter_append, List.filter_cons, List.filter_nil, Event.isExecuteSwap]
    have : List.filter Event.isExecuteSwap ev = [] := by
      rw [List.filter_eq_nil_iff]
      intro x hx
      simp [hP x hx]
    simp [this]
  · rename_i h
    have hb : F64.gt (F64.abs p)
        (F64.div
          (F64.ofNat (Trader.effectiveSlippage cfg.Token.SlippageBPS
            outputToken.GetTransferFeeBps))
          (F64.fin 100)) = false := by
      simpa using h
    rw [hrun false hb]
    simp only [Bool.false_eq_true, if_false]
    repeat' split
    all_goals simp

/-- At an effective slippage of 250 bps, `"3.00"` aborts after the quote request and
`"1.50"` does not abort. -/
theorem ExecuteSwap_price_impact_guard_witness :
    (Trader.ExecuteSwap demoHighImpact.env (Demo.config 50 3) demoWallet (F64.fin 3) [] =
        (Result.err Err.priceImpactTooHigh, demoQuoteLog) ∧
      demoQuoteLog.filter Event.isExecuteSwap = []) ∧
    (Trader.ExecuteSwap demoLowImpact.env (Demo.config 50 3) demoWallet (F64.fin 3) []).1 ≠
      Result.err Err.priceImpactTooHigh := by
  have hHigh := ExecuteSwap_price_impact_guard demoHighImpact.env (Demo.config 50 3) demoWallet
    (F64.fin 3) [] demoQuoteLog (demoHighImpact.token solMint) (demoHighImpact.token outMint)
    1500000000 demoHighImpact.quote (F64.fin 3) (by decide!) rfl rfl (by decide!) (by decide!)
    (by decide!)
  have hLow := ExecuteSwap_price_impact_guard demoLowImpact.env (Demo.config 50 3) demoWallet
    (F64.fin 3) [] demoQuoteLog (demoLowImpact.token solMint) (demoLowImpact.token outMint)
    1500000000 demoLowImpact.quote (F64.fin (3 / 2)) (by decide!) rfl rfl (by decide!)
    (by decide!) (by decide!)
  rw [if_pos (by decide!)] at hHigh
  rw [if_neg (by decide!)] at hLow
  exact ⟨hHigh, hLow⟩

/-- The examples of the price-impact guard: with an effective slippage of 250 bps,
`"1.50"` passes and the swap goes through, so does `"2.50"`, which equals the cap, and
`"3.00"` aborts. -/
theorem price_impact_examples :
    Trader.effectiveSlippage 50 200 = 250 ∧
    (Trader.ExecuteSwap demoLowImpact.env (Demo.config 50 3) demoWallet (F64.fin 3) []).1 =
      Result.ok () ∧
    (Trader.ExecuteSwap demoCapImpact.env (Demo.config 50 3) demoWallet (F64.fin 3) []).1 =
      Result.ok () ∧
    (Trader.ExecuteSwap demoHighImpact.env (Demo.config 50 3) demoWallet (F64.fin 3) []).1 =
      Result.err Err.priceImpactTooHigh := by
  decide!

/-- The examples of the balance check, with a swap amount of 1.5 and a reserve of 0.5: a
balance of 1.75 fails without any call, a balance of exactly 2 passes the check. -/
theorem insufficient_balance_examples :
    Trader.ExecuteSwap demoLowImpact.env (Demo.config 50 3) demoWallet (F64.fin (7 / 4)) [] =
      (Result.err Err.insufficientBalance, []) ∧
    (Trader.ExecuteSwap demoLowImpact.env (Demo.config 50 3) demoWallet (F64.fin 2) []).1 =
      Result.ok () := by
  decide!

theorem swap_retry_appends (env : Env) (jcfg : JupiterConfig) (wallet : Wallet)
    (quote : Quote) (priorityFee seconds maxRetries : ℤ) (l : List Event) :
    Appends
      (fun x => x.isGetQuote = false ∧ ∀ q fee, x = Event.jupiterExecuteSwap q fee → q = quote)
      l
      (WithRetry (Client.ExecuteSwap env jcfg wallet quote priorityFee) (sleepFor seconds)
        maxRetries l).2 := by
  apply WithRetry_appends
  · intro l1
    refine (Appends.one l1 (Event.jupiterExecuteSwap quote priorityFee) ?_).trans
      (ExecuteSwap_appends _ env jcfg wallet quote priorityFee ?_ ?_ ?_ l1)
    · refine ⟨rfl, ?_⟩
      intro q fee h
      injection h with h1 h2
      exact h1.symm
    · intro a
      exact ⟨rfl, fun q fee h => by cases h⟩
    · intro ep r
      exact ⟨rfl, fun q fee h => by cases h⟩
    · intro tx
      exact ⟨rfl, fun q fee h => by cases h⟩
  · intro l1
    exact sleepFor_appends _ _ ⟨rfl, fun q fee h => by cases h⟩ l1

theorem quote_retry_appends (env : Env) (jcfg : JupiterConfig) (inputMint outputMint : String)
    (amount : ℕ) (slippageBps : ℤ) (dexes : String) (seconds maxRetries : ℤ)
    (l : List Event) :
    Appends (fun x => x.isExecuteSwap = false) l
      (WithRetry (Client.GetQuote env jcfg inputMint outputMint amount slippageBps dexes)
        (sleepFor seconds) maxRetries l).2 := by
  apply WithRetry_appends
  · intro l1
    exact GetQuote_appends (fun e => e.isExecuteSwap = false) env jcfg _ _ _ _ _
      rfl rfl (fun _ => rfl) (fun _ => rfl) l1
  · intro l1
    exact sleepFor_appends (fun e => e.isExecuteSwap = false) _ rfl l1

theorem shape_early {Q : Event → Prop} {log l : List Event}
    (h : Appends (fun x => x.isExecuteSwap = false) log l) :
    ∃ pre post, l = log ++ pre ++ post ∧ (∀ x ∈ pre, x.isExecuteSwap = false) ∧
      ∀ x ∈ post, Q x := by
  obtain ⟨ev, rfl, hP⟩ := h
  exact ⟨ev, [], by simp, hP, by simp⟩

theorem shape_late {Q : Event → Prop} {log l3 l4 : List Event}
    (h : Appends (fun x => x.isExecuteSwap = false) log l3) (h2 : Appends Q l3 l4) :
    ∃ pre post, l4 = log ++ pre ++ post ∧ (∀ x ∈ pre, x.isExecuteSwap = false) ∧
      ∀ x ∈ post, Q x := by
  obtain ⟨ev, rfl, hP⟩ := h
  obtain ⟨ev2, rfl, hQ⟩ := h2
  exact ⟨ev, ev2, rfl, hP, hQ⟩

/-- C7 (amended). In `Trader.ExecuteSwap` the quote request and the swap submission are
retried separately: the new events of a run split into a first part without any entry into
`jupiterClient.ExecuteSwap` and a second part without any entry into
`jupiterClient.GetQuote`, and every submission attempt in the second part is given one and
the same quote. -/
theorem ExecuteSwap_submissions_share_quote (env : Env) (cfg : Config) (wallet : Wallet)
    (balance : F64) (log : List Event) :
    ∃ quote pre post,
      (Trader.ExecuteSwap env cfg wallet balance log).2 = log ++ pre ++ post ∧
      (∀ x ∈ pre, x.isExecuteSwap = false) ∧
      ∀ x ∈ post,
        x.isGetQuote = false ∧ ∀ q fee, x = Event.jupiterExecuteSwap q fee → q = quote := by
  have someQuote : Quote :=
    { InputMint := "", OutputMint := "", InAmount := "", OutAmount := "",
      OtherAmountThreshold := "", SwapMode := "", SlippageBps := 0, PriceImpactPct := "",
      RoutePlan := [] }
  have hTok : ∀ a (l : List Event),
      Appends (fun x => x.isExecuteSwap = false) l (l ++ [Event.tokenInfo a]) :=
    fun a l => Appends.one _ _ rfl
  have hQ := quote_retry_appends env cfg.Jupiter cfg.Token.InputMint cfg.Token.OutputMint
  have hS := swap_retry_appends env cfg.Jupiter wallet
  unfold Trader.ExecuteSwap GetTokenInfo
  simp only []
  split
  · exact ⟨someQuote, shape_early (Appends.refl _ _)⟩
  · split
    · rename_i h
      simp only [Prod.mk.injEq] at h
      obtain ⟨_, rfl⟩ := h
      exact ⟨someQuote, shape_early (hTok _ _)⟩
    · rename_i h
      simp only [Prod.mk.injEq] at h
      obtain ⟨_, rfl⟩ := h
      exact ⟨someQuote, shape_early (hTok _ _)⟩
    · rename_i inputToken log1 h
      simp only [Prod.mk.injEq] at h
      obtain ⟨_, rfl⟩ := h
      have h2 := (hTok cfg.Token.InputMint log).trans (hTok cfg.Token.OutputMint _)
      split
      · rename_i h
        simp only [Prod.mk.injEq] at h
        obtain ⟨_, rfl⟩ := h
        exact ⟨someQuote, shape_early h2⟩
      · rename_i h
        simp only [Prod.mk.injEq] at h
        obtain ⟨_, rfl⟩ := h
        exact ⟨someQuote, shape_early h2⟩
      · rename_i outputToken log2 h
        simp only [Prod.mk.injEq] at h
        obtain ⟨_, rfl⟩ := h
        split
        · exact ⟨someQuote, shape_early h2⟩
        · rename_i rawAmount hraw
          have h3 : ∀ r l3,
              WithRetry
                (Client.GetQuote env cfg.Jupiter cfg.Token.InputMint cfg.Token.OutputMint
                  rawAmount
                  (Trader.effectiveSlippage cfg.Token.SlippageBPS outputToken.GetTransferFeeBps)
                  "")
                (sleepFor cfg.Monitor.RetryDelaySeconds) cfg.Monitor.MaxRetries
                (log ++ [Event.tokenInfo cfg.Token.InputMint] ++
                  [Event.tokenInfo cfg.Token.OutputMint]) = (r, l3) →
              Appends (fun x => x.isExecuteSwap = false) log l3 := by
            intro r l3 h
            have := hQ rawAmount
              (Trader.effectiveSlippage cfg.Token.SlippageBPS outputToken.GetTransferFeeBps)
              "" cfg.Monitor.RetryDelaySeconds cfg.Monitor.MaxRetries
              (log ++ [Event.tokenInfo cfg.Token.InputMint] ++
                [Event.tokenInfo cfg.Token.OutputMint])
            rw [h] at this
            exact h2.trans this
          split
          · rename_i hq
            exact ⟨someQuote, shape_early (h3 _ _ hq)⟩
          · rename_i hq
            exact ⟨someQuote, shape_early (h3 _ _ hq)⟩
          · rename_i quote log3 hq
            have h4 : ∀ r l4,
                WithRetry (Client.ExecuteSwap env cfg.Jupiter wallet quote 36699)
                  (sleepFor cfg.Monitor.RetryDelaySeconds) cfg.Monitor.MaxRetries log3
                  = (r, l4) →
                Appends
                  (fun x => x.isGetQuote = false ∧
                    ∀ q fee, x = Event.jupiterExecuteSwap q fee → q = quote) log3 l4 := by
              intro r l4 h
              have := hS quote 36699 cfg.Monitor.RetryDelaySeconds cfg.Monitor.MaxRetries log3
              rw [h] at this
              exact this
            refine ⟨quote, ?_⟩
            split
            · exact shape_early (h3 _ _ hq)
            · split
              · exact shape_early (h3 _ _ hq)
              · split
                · rename_i hs
                  exact shape_late (h3 _ _ hq) (h4 _ _ hs)
                · rename_i hs
                  exact shape_late (h3 _ _ hq) (h4 _ _ hs)
                · rename_i hs
                  split
                  · exact shape_late (h3 _ _ hq) (h4 _ _ hs)
                  · split
                    · exact shape_late (h3 _ _ hq) (h4 _ _ hs)
                    · exact shape_late (h3 _ _ hq) (h4 _ _ hs)

/-- C7, as stated, fails: when the first submission fails in transit and the second
succeeds, the run requests one quote and enters `jupiterClient.ExecuteSwap` twice with
that same quote; no quote request precedes the second attempt. -/
theorem ExecuteSwap_reuses_quote_counterexample :
    (Trader.ExecuteSwap demoSendFailsOnce.env (Demo.config 50 3) demoWallet (F64.fin 3) []).1
      = Result.ok () ∧
    (Trader.ExecuteSwap demoSendFailsOnce.env (Demo.config 50 3) demoWallet (F64.fin 3) []).2.filter
        (fun e => e.isGetQuote || e.isExecuteSwap || e.isSend) =
      [Event.jupiterGetQuote solMint outMint 1500000000 250 "",
       Event.jupiterExecuteSwap demoSendFailsOnce.quote 36699,
       Event.sendTransaction { signerKeys := [walletKey], message := [1, 2, 3] },
       Event.jupiterExecuteSwap demoSendFailsOnce.quote 36699,
       Event.sendTransaction { signerKeys := [walletKey], message := [1, 2, 3] }] := by
  decide!

theorem filter_of_appends (mark : Event → Bool) {l l1 : List Event}
    (h : Appends (fun x => mark x = false) l l1) : l1.filter mark = l.filter mark := by
  obtain ⟨ev, rfl, hP⟩ := h
  have : List.filter mark ev = [] := by
    rw [List.filter_eq_nil_iff]
    intro x hx
    simp [hP x hx]
  simp [this]

theorem ExecuteSwap_count (env : Env) (jcfg : JupiterConfig) (wallet : Wallet) (quote : Quote)
    (priorityFee : ℤ) (l : List Event) :
    ((Client.ExecuteSwap env jcfg wallet quote priorityFee l).2.filter
      Event.isExecuteSwap).length = (l.filter Event.isExecuteSwap).length + 1 := by
  rw [filter_of_appends Event.isExecuteSwap
    (ExecuteSwap_appends (fun x => x.isExecuteSwap = false) env jcfg wallet quote priorityFee
      (fun _ => rfl) (fun _ _ => rfl) (fun _ => rfl) l)]
  simp [Event.isExecuteSwap]

theorem GetQuote_count (env : Env) (jcfg : JupiterConfig) (inputMint outputMint : String)
    (amount : ℕ) (slippageBps : ℤ) (dexes : String) (l : List Event) :
    ((Client.GetQuote env jcfg inputMint outputMint amount slippageBps dexes l).2.filter
      Event.isGetQuote).length = (l.filter Event.isGetQuote).length + 1 := by
  rw [filter_of_appends Event.isGetQuote
    (GetQuote_appends_after_entry (fun x => x.isGetQuote = false) env jcfg inputMint outputMint
      amount slippageBps dexes rfl (fun _ => rfl) (fun _ => rfl) l)]
  simp [Event.isGetQuote]

theorem worldAt_count {α : Type} (mark : Event → Bool)
    (fn : List Event → Result α × List Event) (seconds : ℤ)
    (hfn : ∀ l, ((fn l).2.filter mark).length = (l.filter mark).length + 1)
    (hmark : mark (Event.sleep seconds) = false) (l : List Event) (k : ℕ) :
    ((worldAt fn (sleepFor seconds) l k).filter mark).length = (l.filter mark).length + k := by
  induction k with
  | zero => rfl
  | succ k ih =>
    show ((sleepFor seconds (fn (worldAt fn (sleepFor seconds) l k)).2).filter mark).length = _
    have hs : ∀ l1, sleepFor seconds l1 = l1 ++ [Event.sleep seconds] := fun _ => rfl
    rw [hs, List.filter_append, List.length_append, hfn, ih]
    simp [hmark]
    omega

theorem WithRetry_all_fail_world {σ α : Type} (fn : σ → Result α × σ) (sleep : σ → σ)
    (maxRetries : ℤ) (hN : 0 ≤ maxRetries) (s : σ)
    (hfail : ∀ k, k ≤ maxRetries.toNat →
      ∃ e, (fn (worldAt fn sleep s k)).1 = Result.err e) :
    ∃ e, (fn (worldAt fn sleep s maxRetries.toNat)).1 = Result.err e ∧
      WithRetry fn sleep maxRetries s =
        (Result.err (Err.retriesExhausted maxRetries e),
          (fn (worldAt fn sleep s maxRetries.toNat)).2) := by
  obtain ⟨e, he⟩ := hfail maxRetries.toNat le_rfl
  refine ⟨e, he, ?_⟩
  have hrem : (maxRetries + 1).toNat = maxRetries.toNat + 1 := by omega
  have hloop := loop_all_fail fn sleep maxRetries.toNat 0 none s
    (by
      intro k hk
      simp only [gt_iff_lt, lt_self_iff_false, if_false]
      exact hfail k (by omega))
  simp only [gt_iff_lt, lt_self_iff_false, if_false] at hloop
  unfold WithRetry
  rw [hrem, hloop]
  simp only [he, Result.getErr?]

/-- C8 (amended). `WithRetry` retries every error alike.  When the operation wrapped in
`Trader.ExecuteSwap` returns an error on every attempt, whichever errors these are (a
malformed quote body, an undecodable swap transaction and a signing-key mismatch
included), it is entered `maxRetries + 1` times (for `maxRetries ≥ 0`) and `WithRetry`
then returns the error of the last attempt, the one made in the world after
`maxRetries` failed attempts and sleeps, wrapped with the retry count.  This holds for
the quote request and for the swap submission. -/
theorem WithRetry_retries_every_error (env : Env) (jcfg : JupiterConfig) (wallet : Wallet)
    (inputMint outputMint : String) (amount : ℕ) (slippageBps : ℤ) (quote : Quote)
    (seconds maxRetries : ℤ) (hN : 0 ≤ maxRetries) (log : List Event) :
    ((∀ l, ∃ e, (Client.GetQuote env jcfg inputMint outputMint amount slippageBps "" l).1
        = Result.err e) →
      ∃ e,
        (Client.GetQuote env jcfg inputMint outputMint amount slippageBps ""
          (worldAt (Client.GetQuote env jcfg inputMint outputMint amount slippageBps "")
            (sleepFor seconds) log maxRetries.toNat)).1 = Result.err e ∧
        (WithRetry (Client.GetQuote env jcfg inputMint outputMint amount slippageBps "")
          (sleepFor seconds) maxRetries log).1 = Result.err (Err.retriesExhausted maxRetries e) ∧
        ((WithRetry (Client.GetQuote env jcfg inputMint outputMint amount slippageBps "")
          (sleepFor seconds) maxRetries log).2.filter Event.isGetQuote).length =
          (log.filter Event.isGetQuote).length + (maxRetries.toNat + 1)) ∧
    ((∀ l, ∃ e, (Client.ExecuteSwap env jcfg wallet quote 36699 l).1 = Result.err e) →
      ∃ e,
        (Client.ExecuteSwap env jcfg wallet quote 36699
          (worldAt (Client.ExecuteSwap env jcfg wallet quote 36699) (sleepFor seconds) log
            maxRetries.toNat)).1 = Result.err e ∧
        (WithRetry (Client.ExecuteSwap env jcfg wallet quote 36699)
          (sleepFor seconds) maxRetries log).1 = Result.err (Err.retriesExhausted maxRetries e) ∧
        ((WithRetry (Client.ExecuteSwap env jcfg wallet quote 36699)
          (sleepFor seconds) maxRetries log).2.filter Event.isExecuteSwap).length =
          (log.filter Event.isExecuteSwap).length + (maxRetries.toNat + 1)) := by
  constructor
  · intro hfail
    obtain ⟨e, he, hres⟩ := WithRetry_all_fail_world
      (Client.GetQuote env jcfg inputMint outputMint amount slippageBps "") (sleepFor seconds)
      maxRetries hN log (fun k _ => hfail _)
    refine ⟨e, he, by rw [hres], ?_⟩
    rw [hres]
    simp only []
    rw [GetQuote_count, worldAt_count Event.isGetQuote _ seconds
      (fun l => GetQuote_count env jcfg inputMint outputMint amount slippageBps "" l) rfl]
    omega
  · intro hfail
    obtain ⟨e, he, hres⟩ := WithRetry_all_fail_world
      (Client.ExecuteSwap env jcfg wallet quote 36699) (sleepFor seconds)
      maxRetries hN log (fun k _ => hfail _)
    refine ⟨e, he, by rw [hres], ?_⟩
    rw [hres]
    simp only []
    rw [ExecuteSwap_count, worldAt_count Event.isExecuteSwap _ seconds
      (fun l => ExecuteSwap_count env jcfg wallet quote 36699 l) rfl]
    omega

/-- With `maxRetries = 1` the submission is entered twice and the error of the second
attempt comes back wrapped: for a swap transaction that is not valid base64 the decode
error, and for a swap endpoint whose first answer is a reset connection and whose second
is a timeout, the timeout. -/
theorem WithRetry_retries_every_error_witness :
    ((WithRetry
        (Client.ExecuteSwap demoBadBase64.env (Demo.config 50 1).Jupiter demoWallet
          demoBadBase64.quote 36699) (sleepFor 5) 1 []).1 =
      Result.err (Err.retriesExhausted 1
        (Err.decodeSwapTransaction (Err.external "illegal base64 data"))) ∧
    ((WithRetry
        (Client.ExecuteSwap demoBadBase64.env (Demo.config 50 1).Jupiter demoWallet
          demoBadBase64.quote 36699) (sleepFor 5) 1 []).2.filter
      Event.isExecuteSwap).length = 2) ∧
    (Client.ExecuteSwap demoChangingError (Demo.config 50 1).Jupiter demoWallet
      demoLowImpact.quote 36699 []).1 =
      Result.err (Err.submitSwapRequest (Err.external "connection reset by peer")) ∧
    (WithRetry
        (Client.ExecuteSwap demoChangingError (Demo.config 50 1).Jupiter demoWallet
          demoLowImpact.quote 36699) (sleepFor 5) 1 []).1 =
      Result.err (Err.retriesExhausted 1
        (Err.submitSwapRequest (Err.external "i/o timeout"))) ∧
    ((WithRetry
        (Client.ExecuteSwap demoChangingError (Demo.config 50 1).Jupiter demoWallet
          demoLowImpact.quote 36699) (sleepFor 5) 1 []).2.filter
      Event.isExecuteSwap).length = 2 := by
  have hcall : ∀ l,
      (Client.ExecuteSwap demoBadBase64.env (Demo.config 50 1).Jupiter demoWallet
        demoBadBase64.quote 36699 l).1 =
      Result.err (Err.decodeSwapTransaction (Err.external "illegal base64 data")) := by
    intro l
    rfl
  obtain ⟨e, he, hres, hcount⟩ :=
    (WithRetry_retries_every_error demoBadBase64.env (Demo.config 50 1).Jupiter demoWallet
      solMint outMint 1500000000 250 demoBadBase64.quote 5 1 (by decide) []).2
      (fun l => ⟨_, hcall l⟩)
  have he2 : e = Err.decodeSwapTransaction (Err.external "illegal base64 data") :=
    Result.err.inj (he.symm.trans (hcall _))
  rw [he2] at hres
  obtain ⟨e1, he1, hres1, hcount1⟩ :=
    (WithRetry_retries_every_error demoChangingError (Demo.config 50 1).Jupiter demoWallet
      solMint outMint 1500000000 250 demoLowImpact.quote 5 1 (by decide) []).2
      (fun l => ⟨_, rfl⟩)
  have hlast : (Client.ExecuteSwap demoChangingError (Demo.config 50 1).Jupiter demoWallet
      demoLowImpact.quote 36699
      (worldAt (Client.ExecuteSwap demoChangingError (Demo.config 50 1).Jupiter demoWallet
        demoLowImpact.quote 36699) (sleepFor 5) [] (1 : ℤ).toNat)).1 =
      Result.err (Err.submitSwapRequest (Err.external "i/o timeout")) := by
    decide!
  have he3 : e1 = Err.submitSwapRequest (Err.external "i/o timeout") :=
    Result.err.inj (he1.symm.trans hlast)
  rw [he3] at hres1
  exact ⟨⟨hres, hcount⟩, by decide!, hres1, hcount1⟩

/-- C8, as stated, fails: a signing-key mismatch is not transient, yet with
`maxRetries = 2` the submission is entered three times before the error is returned. -/
theorem ExecuteSwap_retries_signing_mismatch_counterexample :
    (Trader.ExecuteSwap demoForeignSigner.env (Demo.config 50 2) demoWallet (F64.fin 3) []).1 =
      Result.err (Err.executeSwap (Err.retriesExhausted 2
        (Err.signTransaction
          (Err.signerKeyNotFound "9xQeWvG816bUx9EPjHmaT23yvVM2ZWbrrpZb9PusVFin")))) ∧
    ((Trader.ExecuteSwap demoForeignSigner.env (Demo.config 50 2) demoWallet (F64.fin 3)
      []).2.filter Event.isExecuteSwap).length = 3 := by
  decide!

/-! ## Theorems: slippage and amounts -/

theorem effectiveSlippage_eq_add (slippageBPS fee : ℕ) (h : slippageBPS + fee < 2 ^ 16) :
    Trader.effectiveSlippage slippageBPS fee = slippageBPS + fee := by
  unfold Trader.effectiveSlippage
  have h1 : slippageBPS % 2 ^ 16 = slippageBPS := Nat.mod_eq_of_lt (by omega)
  simp only [h1]
  split
  · rw [Nat.mod_eq_of_lt h]
  · omega

/-- C2. The effective slippage is computed in `uint16`: a base of 65500 bps and a transfer
fee of 100 bps give 64, not 65600, and 64 is what the quote request carries. -/
theorem effectiveSlippage_wraps :
    Trader.effectiveSlippage 65500 100 = 64 ∧
    (Trader.ExecuteSwap demoFee100.env (Demo.config 65500 3) demoWallet (F64.fin 3)
      []).2.filter Event.isGetQuote = [Event.jupiterGetQuote solMint outMint 1500000000 64 ""] := by
  decide!

/-- C3. The effective slippage is not monotone in the transfer fee: with a base of 65500
bps, raising the fee from 0 to 100 bps lowers it from 65500 to 64. -/
theorem effectiveSlippage_not_monotone :
    Trader.effectiveSlippage 65500 0 = 65500 ∧ Trader.effectiveSlippage 65500 100 = 64 := by
  decide

/-- C9. `toRawAmount` computes in 53-bit precision: for the `float64` amounts
`9007199254740991` with 1 decimal and `0.5 - 2^-54` with 0 decimals it returns
`90071992547409904` and `1`, where the exact product rounded half-up is
`90071992547409910` and `0`; `toRawAmount(1.5, 6)` is `1500000`. -/
theorem toRawAmount_rounds_to_53_bits :
    roundF64 9007199254740991 = F64.fin 9007199254740991 ∧
    Trader.toRawAmount (F64.fin 9007199254740991) 1 = Except.ok 90071992547409904 ∧
    ⌊(9007199254740991 : ℚ) * 10 ^ 1 + 1 / 2⌋ = 90071992547409910 ∧
    roundF64 (1 / 2 - 1 / 2 ^ 54) = F64.fin (1 / 2 - 1 / 2 ^ 54) ∧
    Trader.toRawAmount (F64.fin (1 / 2 - 1 / 2 ^ 54)) 0 = Except.ok 1 ∧
    ⌊(1 / 2 - 1 / 2 ^ 54 : ℚ) * 10 ^ 0 + 1 / 2⌋ = 0 ∧
    Trader.toRawAmount (F64.fin (3 / 2)) 6 = Except.ok 1500000 := by
  decide!

/-! ## Theorems: rounding -/

theorem pow2_eq (e : ℤ) : pow2 e = (2 : ℚ) ^ e := by
  unfold pow2
  split
  · rename_i h
    push_cast
    rw [← zpow_natCast, Int.toNat_of_nonneg h]
  · rename_i h
    push_cast
    have h1 : (0 : ℤ) ≤ -e := by omega
    rw [← zpow_natCast, Int.toNat_of_nonneg h1, zpow_neg, one_div, inv_inv]

theorem pow2_pos (e : ℤ) : 0 < pow2 e := by
  rw [pow2_eq]
  positivity

theorem bitLenAux_spec : ∀ (fuel n : ℕ), n ≤ fuel → 0 < n →
    2 ^ (bitLenAux fuel n - 1) ≤ n ∧ n < 2 ^ bitLenAux fuel n := by
  intro fuel
  induction fuel with
  | zero =>
    intro n h1 h2
    omega
  | succ fuel ih =>
    intro n h1 h2
    unfold bitLenAux
    rw [if_neg (by omega)]
    by_cases hn : n / 2 = 0
    · have h1n : n = 1 := by omega
      subst h1n
      cases fuel with
      | zero => simp [bitLenAux]
      | succ f => simp [bitLenAux]
    · have hpos : 0 < n / 2 := Nat.pos_of_ne_zero hn
      obtain ⟨l, u⟩ := ih (n / 2) (by omega) hpos
      have hb : 1 ≤ bitLenAux fuel (n / 2) := by
        by_contra hc
        have h0 : bitLenAux fuel (n / 2) = 0 := by omega
        rw [h0] at u
        omega
      constructor
      · have : bitLenAux fuel (n / 2) + 1 - 1 = (bitLenAux fuel (n / 2) - 1) + 1 := by omega
        rw [this, pow_succ]
        omega
      · rw [pow_succ]
        omega

theorem bitLen_spec (n : ℕ) (h : 0 < n) : 2 ^ (bitLen n - 1) ≤ n ∧ n < 2 ^ bitLen n :=
  bitLenAux_spec n n le_rfl h

theorem bitLen_pos (n : ℕ) (h : 0 < n) : 1 ≤ bitLen n := by
  by_contra hc
  have h0 : bitLen n = 0 := by omega
  have := (bitLen_spec n h).2
  rw [h0] at this
  omega

theorem ilog2_spec (q : ℚ) (hq : 0 < q) :
    (2 : ℚ) ^ (ilog2 q) ≤ q ∧ q < (2 : ℚ) ^ (ilog2 q + 1) := by
  have hnum : 0 < q.num := Rat.num_pos.mpr hq
  have hn : 0 < q.num.natAbs := Int.natAbs_pos.mpr (ne_of_gt hnum)
  have hd : 0 < q.den := q.den_pos
  obtain ⟨nl, nu⟩ := bitLen_spec _ hn
  obtain ⟨dl, du⟩ := bitLen_spec _ hd
  have hbn := bitLen_pos _ hn
  have hbd := bitLen_pos _ hd
  have hqeq : q = (q.num.natAbs : ℚ) / (q.den : ℚ) := by
    have h1 : ((q.num.natAbs : ℤ) : ℚ) = (q.num : ℚ) := by
      rw [Int.natAbs_of_nonneg (le_of_lt hnum)]
    have h2 : (q.num.natAbs : ℚ) = (q.num : ℚ) := by
      rw [← h1, Int.cast_natCast]
    rw [h2]
    exact (Rat.num_div_den q).symm
  have hdq : (0 : ℚ) < (q.den : ℚ) := by exact_mod_cast hd
  -- bounds on numerator and denominator as rationals
  have nlq : (2 : ℚ) ^ ((bitLen q.num.natAbs : ℤ) - 1) ≤ (q.num.natAbs : ℚ) := by
    have : ((bitLen q.num.natAbs : ℤ) - 1) = ((bitLen q.num.natAbs - 1 : ℕ) : ℤ) := by omega
    rw [this, zpow_natCast]
    exact_mod_cast nl
  have nuq : (q.num.natAbs : ℚ) < (2 : ℚ) ^ ((bitLen q.num.natAbs : ℤ)) := by
    rw [zpow_natCast]
    exact_mod_cast nu
  have dlq : (2 : ℚ) ^ ((bitLen q.den : ℤ) - 1) ≤ (q.den : ℚ) := by
    have : ((bitLen q.den : ℤ) - 1) = ((bitLen q.den - 1 : ℕ) : ℤ) := by omega
    rw [this, zpow_natCast]
    exact_mod_cast dl
  have duq : (q.den : ℚ) < (2 : ℚ) ^ ((bitLen q.den : ℤ)) := by
    rw [zpow_natCast]
    exact_mod_cast du
  set a : ℤ := (bitLen q.num.natAbs : ℤ) - (bitLen q.den : ℤ) with ha
  have two_pos : ∀ z : ℤ, (0 : ℚ) < (2 : ℚ) ^ z := fun z => by positivity
  -- q < 2 ^ (a + 1)
  have hup : q < (2 : ℚ) ^ (a + 1) := by
    rw [hqeq, div_lt_iff₀ hdq]
    calc (q.num.natAbs : ℚ) < (2 : ℚ) ^ ((bitLen q.num.natAbs : ℤ)) := nuq
      _ = (2 : ℚ) ^ (a + 1) * (2 : ℚ) ^ ((bitLen q.den : ℤ) - 1) := by
        rw [← zpow_add₀ (by norm_num : (2 : ℚ) ≠ 0)]
        congr 1
        omega
      _ ≤ (2 : ℚ) ^ (a + 1) * (q.den : ℚ) :=
        mul_le_mul_of_nonneg_left dlq (le_of_lt (two_pos _))
  -- 2 ^ (a - 1) ≤ q
  have hlow : (2 : ℚ) ^ (a - 1) ≤ q := by
    rw [hqeq, le_div_iff₀ hdq]
    calc (2 : ℚ) ^ (a - 1) * (q.den : ℚ)
        ≤ (2 : ℚ) ^ (a - 1) * (2 : ℚ) ^ ((bitLen q.den : ℤ)) :=
          mul_le_mul_of_nonneg_left (le_of_lt duq) (le_of_lt (two_pos _))
      _ = (2 : ℚ) ^ ((bitLen q.num.natAbs : ℤ) - 1) := by
        rw [← zpow_add₀ (by norm_num : (2 : ℚ) ≠ 0)]
        congr 1
        omega
      _ ≤ (q.num.natAbs : ℚ) := nlq
  unfold ilog2
  simp only []
  rw [← ha]
  split
  · rename_i h
    rw [pow2_eq] at h
    exact ⟨h, hup⟩
  · rename_i h
    rw [pow2_eq, not_le] at h
    refine ⟨hlow, ?_⟩
    have : a - 1 + 1 = a := by omega
    rw [this]
    exact h

theorem roundHalfEven_spec (m : ℚ) : |(roundHalfEven m : ℚ) - m| ≤ 1 / 2 := by
  have h1 : (⌊m⌋ : ℚ) ≤ m := Int.floor_le m
  have h2 : m < (⌊m⌋ : ℚ) + 1 := Int.lt_floor_add_one m
  unfold roundHalfEven
  simp only []
  split
  · rename_i h
    rw [abs_le]
    constructor <;> linarith
  · split
    · rename_i h3 h
      push_cast
      rw [abs_le]
      constructor <;> linarith
    · rename_i h3 h4
      have h5 : m - (⌊m⌋ : ℚ) = 1 / 2 := le_antisymm (not_lt.mp h4) (not_lt.mp h3)
      split
      · rw [abs_le]
        constructor <;> linarith
      · push_cast
        rw [abs_le]
        constructor <;> linarith

theorem roundToQuantum_spec (u q : ℚ) (hu : 0 < u) : |roundToQuantum u q - q| ≤ u / 2 := by
  unfold roundToQuantum
  have h := roundHalfEven_spec (q / u)
  have h1 : (roundHalfEven (q / u) : ℚ) * u - q = ((roundHalfEven (q / u) : ℚ) - q / u) * u := by
    field_simp
  rw [h1, abs_mul, abs_of_pos hu]
  calc |(roundHalfEven (q / u) : ℚ) - q / u| * u ≤ 1 / 2 * u :=
        mul_le_mul_of_nonneg_right h (le_of_lt hu)
    _ = u / 2 := by ring

theorem roundPrec_spec (p : ℕ) (q : ℚ) (hq : 0 < q) : |roundPrec p q - q| ≤ q / 2 ^ p := by
  unfold roundPrec
  rw [if_neg (ne_of_gt hq), abs_of_pos hq]
  have hu : 0 < pow2 (ilog2 q - p + 1) := pow2_pos _
  refine le_trans (roundToQuantum_spec _ q hu) ?_
  rw [pow2_eq]
  have hl := (ilog2_spec q hq).1
  have h2 : (2 : ℚ) ^ (ilog2 q - (p : ℤ) + 1) / 2 = (2 : ℚ) ^ (ilog2 q) / 2 ^ p := by
    rw [zpow_add₀ (by norm_num : (2 : ℚ) ≠ 0), zpow_sub₀ (by norm_num : (2 : ℚ) ≠ 0),
      zpow_natCast]
    field_simp
    ring
  rw [h2]
  exact div_le_div_of_nonneg_right hl (by positivity)

theorem roundPrec_zero (p : ℕ) : roundPrec p 0 = 0 := by
  unfold roundPrec
  simp

theorem roundF64_spec (q : ℚ) (hlo : 1 / 2 ^ 1024 ≤ q) (hhi : q ≤ 3 * 2 ^ 1022) :
    ∃ r, roundF64 q = F64.fin r ∧ |r - q| ≤ q / 2 ^ 51 := by
  have hq : 0 < q := lt_of_lt_of_le (by positivity) hlo
  have hu : 0 < pow2 (max (ilog2 |q|) (-1022) - 52) := pow2_pos _
  have hr := roundToQuantum_spec (pow2 (max (ilog2 |q|) (-1022) - 52)) q hu
  have hbound : pow2 (max (ilog2 |q|) (-1022) - 52) / 2 ≤ q / 2 ^ 51 := by
    rw [pow2_eq, abs_of_pos hq]
    rcases le_total (ilog2 q) (-1022) with h | h
    · rw [max_eq_right h]
      have : (2 : ℚ) ^ ((-1022 : ℤ) - 52) / 2 = 1 / 2 ^ 1024 / 2 ^ 51 := by
        rw [show ((-1022 : ℤ) - 52) = -((1074 : ℕ) : ℤ) by norm_num, zpow_neg, zpow_natCast]
        norm_num
      rw [this]
      exact div_le_div_of_nonneg_right hlo (by positivity)
    · rw [max_eq_left h]
      have hl := (ilog2_spec q hq).1
      have : (2 : ℚ) ^ (ilog2 q - 52) / 2 = (2 : ℚ) ^ (ilog2 q) / 2 ^ 53 := by
        rw [zpow_sub₀ (by norm_num : (2 : ℚ) ≠ 0),
          show (2 : ℚ) ^ (52 : ℤ) = 2 ^ 52 from by norm_num, div_div]
        congr 1
        norm_num
      rw [this]
      calc (2 : ℚ) ^ (ilog2 q) / 2 ^ 53 ≤ q / 2 ^ 53 :=
            div_le_div_of_nonneg_right hl (by positivity)
        _ ≤ q / 2 ^ 51 := by
            apply div_le_div_of_nonneg_left (le_of_lt hq) (by positivity)
            exact pow_le_pow_right₀ (by norm_num) (by norm_num)
  have herr := le_trans hr hbound
  refine ⟨roundToQuantum (pow2 (max (ilog2 |q|) (-1022) - 52)) q, ?_, herr⟩
  unfold roundF64
  rw [if_neg (ne_of_gt hq)]
  simp only []
  rw [if_neg]
  rw [not_le, pow2_eq 1024]
  have h1 := (abs_le.mp herr).2
  have h2 : roundToQuantum (pow2 (max (ilog2 |q|) (-1022) - 52)) q ≤ q + q / 2 ^ 51 := by
    linarith
  have h3 := (abs_le.mp herr).1
  have h4 : 0 ≤ roundToQuantum (pow2 (max (ilog2 |q|) (-1022) - 52)) q := by
    have : q / 2 ^ 51 ≤ q := div_le_self (le_of_lt hq) (by norm_num)
    linarith
  rw [abs_of_nonneg h4]
  have h5 : q / 2 ^ 51 ≤ 3 * 2 ^ 1022 / 2 ^ 51 :=
    div_le_div_of_nonneg_right hhi (by positivity)
  have h6 : (3 : ℚ) * 2 ^ 1022 + 3 * 2 ^ 1022 / 2 ^ 51 < (2 : ℚ) ^ (1024 : ℤ) := by
    rw [show ((1024 : ℤ)) = ((1024 : ℕ) : ℤ) by norm_num, zpow_natCast]
    norm_num
  linarith

/-! ## Theorems: relative error -/

theorem near_mul {x1 y1 x2 y2 δ1 δ2 : ℚ} (hy1 : 0 < y1) (hy2 : 0 < y2) (hδ1 : 0 ≤ δ1)
    (h1 : |x1 - y1| ≤ δ1 * y1) (h2 : |x2 - y2| ≤ δ2 * y2) :
    |x1 * x2 - y1 * y2| ≤ (δ1 + δ2 + δ1 * δ2) * (y1 * y2) := by
  have e : x1 * x2 - y1 * y2 = (x1 - y1) * (x2 - y2) + (x1 - y1) * y2 + y1 * (x2 - y2) := by
    ring
  rw [e]
  have a1 : |(x1 - y1) * (x2 - y2)| ≤ (δ1 * y1) * (δ2 * y2) := by
    rw [abs_mul]
    exact mul_le_mul h1 h2 (abs_nonneg _) (by positivity)
  have a2 : |(x1 - y1) * y2| ≤ (δ1 * y1) * y2 := by
    rw [abs_mul, abs_of_pos hy2]
    exact mul_le_mul_of_nonneg_right h1 (le_of_lt hy2)
  have a3 : |y1 * (x2 - y2)| ≤ y1 * (δ2 * y2) := by
    rw [abs_mul, abs_of_pos hy1]
    exact mul_le_mul_of_nonneg_left h2 (le_of_lt hy1)
  calc |(x1 - y1) * (x2 - y2) + (x1 - y1) * y2 + y1 * (x2 - y2)|
      ≤ |(x1 - y1) * (x2 - y2) + (x1 - y1) * y2| + |y1 * (x2 - y2)| := abs_add _ _
    _ ≤ |(x1 - y1) * (x2 - y2)| + |(x1 - y1) * y2| + |y1 * (x2 - y2)| := by
        linarith [abs_add ((x1 - y1) * (x2 - y2)) ((x1 - y1) * y2)]
    _ ≤ (δ1 * y1) * (δ2 * y2) + (δ1 * y1) * y2 + y1 * (δ2 * y2) := by linarith
    _ = (δ1 + δ2 + δ1 * δ2) * (y1 * y2) := by ring

theorem near_trans {x y z δ1 δ2 : ℚ} (hδ1 : 0 ≤ δ1)
    (h1 : |x - y| ≤ δ1 * y) (h2 : |y - z| ≤ δ2 * z) :
    |x - z| ≤ (δ1 + δ2 + δ1 * δ2) * z := by
  have hy : y ≤ z + δ2 * z := by
    have := (abs_le.mp h2).2
    linarith
  have h3 : δ1 * y ≤ δ1 * (z + δ2 * z) := mul_le_mul_of_nonneg_left hy hδ1
  calc |x - z| = |(x - y) + (y - z)| := by ring_nf
    _ ≤ |x - y| + |y - z| := abs_add _ _
    _ ≤ δ1 * (z + δ2 * z) + δ2 * z := by linarith
    _ = (δ1 + δ2 + δ1 * δ2) * z := by ring

theorem near_pos {x y δ : ℚ} (hy : 0 < y) (hδ : δ < 1) (h : |x - y| ≤ δ * y) : 0 < x := by
  have := (abs_le.mp h).1
  nlinarith

theorem near_weaken {x y δ δ1 : ℚ} (hy : 0 < y) (hδ : δ ≤ δ1) (h : |x - y| ≤ δ * y) :
    |x - y| ≤ δ1 * y :=
  le_trans h (mul_le_mul_of_nonneg_right hδ (le_of_lt hy))

theorem near_inv {x y δ : ℚ} (hy : 0 < y) (hδ0 : 0 ≤ δ) (hδ : δ ≤ 1 / 2)
    (h : |x - y| ≤ δ * y) : |1 / x - 1 / y| ≤ (2 * δ) * (1 / y) := by
  have hx : 0 < x := near_pos hy (by linarith) h
  have hxl : y / 2 ≤ x := by
    have := (abs_le.mp h).1
    nlinarith
  have e : 1 / x - 1 / y = (y - x) / (x * y) := by
    field_simp
  rw [e, abs_div, abs_of_pos (mul_pos hx hy), abs_sub_comm]
  rw [div_le_iff₀ (mul_pos hx hy)]
  have e2 : 2 * δ * (1 / y) * (x * y) = 2 * δ * x := by
    field_simp
    ring
  rw [e2]
  nlinarith

theorem roundPrec_near (p : ℕ) (hp : 51 ≤ p) (q : ℚ) (hq : 0 < q) :
    |roundPrec p q - q| ≤ (1 / 2 ^ 51) * q := by
  refine le_trans (roundPrec_spec p q hq) ?_
  rw [div_eq_mul_one_div, mul_comm]
  apply mul_le_mul_of_nonneg_right _ (le_of_lt hq)
  apply one_div_le_one_div_of_le (by positivity)
  exact pow_le_pow_right₀ (by norm_num) hp

theorem roundF64_near (q : ℚ) (hlo : 1 / 2 ^ 1024 ≤ q) (hhi : q ≤ 3 * 2 ^ 1022) :
    ∃ r, roundF64 q = F64.fin r ∧ |r - q| ≤ (1 / 2 ^ 51) * q := by
  obtain ⟨r, h1, h2⟩ := roundF64_spec q hlo hhi
  refine ⟨r, h1, ?_⟩
  rw [div_eq_mul_one_div, mul_comm] at h2
  exact h2

set_option exponentiation.threshold 2000 in
theorem pow10_le (n : ℕ) (h : n ≤ 308) : ((10 ^ n : ℕ) : ℚ) ≤ 10 ^ 308 := by
  push_cast
  exact pow_le_pow_right₀ (by norm_num) h

theorem pow10_ge (n : ℕ) : (1 : ℚ) ≤ ((10 ^ n : ℕ) : ℚ) := by
  push_cast
  exact one_le_pow₀ (by norm_num)

/-- For `0 ≤ d ≤ 308`, `math.Pow10(d)` is finite and within `10 ^ d / 2 ^ 49` of `10 ^ d`. -/
theorem Pow10_spec (d : ℕ) (hd : d ≤ 308) :
    ∃ P, Pow10 (d : ℤ) = F64.fin P ∧ |P - (10 : ℚ) ^ d| ≤ (1 / 2 ^ 49) * (10 : ℚ) ^ d := by
  have hbig : (10 : ℚ) ^ 308 ≤ 3 * 2 ^ 1022 := by norm_num
  have hsmall : (1 : ℚ) / 2 ^ 1024 ≤ 1 := by
    rw [div_le_one (by positivity)]
    exact one_le_pow₀ (by norm_num)
  obtain ⟨s, hs, hs1⟩ := roundF64_near ((10 ^ (32 * (d / 32)) : ℕ) : ℚ)
    (le_trans hsmall (pow10_ge _)) (le_trans (pow10_le _ (by omega)) hbig)
  obtain ⟨t, ht, ht1⟩ := roundF64_near ((10 ^ (d % 32) : ℕ) : ℚ)
    (le_trans hsmall (pow10_ge _)) (le_trans (pow10_le _ (by omega)) hbig)
  have hX : (0 : ℚ) < ((10 ^ (32 * (d / 32)) : ℕ) : ℚ) := lt_of_lt_of_le one_pos (pow10_ge _)
  have hY : (0 : ℚ) < ((10 ^ (d % 32) : ℕ) : ℚ) := lt_of_lt_of_le one_pos (pow10_ge _)
  have hXY : ((10 ^ (32 * (d / 32)) : ℕ) : ℚ) * ((10 ^ (d % 32) : ℕ) : ℚ) = (10 : ℚ) ^ d := by
    push_cast
    rw [← pow_add, Nat.div_add_mod]
  have hD : (0 : ℚ) < (10 : ℚ) ^ d := by positivity
  have hD1 : (1 : ℚ) ≤ (10 : ℚ) ^ d := one_le_pow₀ (by norm_num)
  have hD2 : (10 : ℚ) ^ d ≤ 10 ^ 308 := pow_le_pow_right₀ (by norm_num) hd
  have hst := near_mul hX hY (by norm_num) hs1 ht1
  rw [hXY] at hst
  have hst2 : |s * t - (10 : ℚ) ^ d| ≤ (1 / 2 ^ 49) * (10 : ℚ) ^ d :=
    near_weaken hD (by norm_num) hst
  have hstl := (abs_le.mp hst2).1
  have hstu := (abs_le.mp hst2).2
  have hlo : (1 : ℚ) / 2 ^ 1024 ≤ s * t := by
    have : (1 : ℚ) / 2 ^ 1024 ≤ 1 / 2 := by norm_num
    have h3 : (1 / 2 ^ 49 : ℚ) * (10 : ℚ) ^ d ≤ (1 / 2) * (10 : ℚ) ^ d :=
      mul_le_mul_of_nonneg_right (by norm_num) (le_of_lt hD)
    linarith
  have hhi : s * t ≤ 3 * 2 ^ 1022 := by
    have h3 : (1 / 2 ^ 49 : ℚ) * (10 : ℚ) ^ d ≤ (1 / 2 ^ 49) * 10 ^ 308 :=
      mul_le_mul_of_nonneg_left hD2 (by norm_num)
    have h4 : (10 : ℚ) ^ 308 + (1 / 2 ^ 49) * 10 ^ 308 ≤ 3 * 2 ^ 1022 := by norm_num
    linarith
  obtain ⟨P, hP, hP1⟩ := roundF64_near (s * t) hlo hhi
  refine ⟨P, ?_, ?_⟩
  · unfold Pow10
    rw [if_pos ⟨by positivity, by exact_mod_cast hd⟩]
    simp only [Int.toNat_ofNat]
    unfold pow10postab32 pow10tab
    rw [hs, ht]
    exact hP
  · exact near_weaken hD (by norm_num) (near_trans (by norm_num) hP1 hst)

/-! ## Theorems: the round trip of amounts -/

theorem toRawAmount_eq (a P : ℚ) (d : ℤ) (hP : Pow10 d = F64.fin P) :
    Trader.toRawAmount (F64.fin a) d =
      Except.ok (BigFloat.Uint64 (BigFloat.fin 53
        (roundPrec 53 (roundPrec 53 (roundPrec 53 a * roundPrec 53 P) + 1 / 2)))) := by
  unfold Trader.toRawAmount
  simp [hP, BigFloat.SetFloat64, BigFloat.Mul, BigFloat.Add, BigFloat.prec]

theorem fromRawAmount_eq (env : Env) (s : String) (x P : ℚ) (d : ℤ)
    (hP : Pow10 d = F64.fin P) (hPm : roundPrec 53 P ≠ 0)
    (hs : env.setString s = BigFloat.fin 64 x) :
    Trader.fromRawAmount env s d =
      Except.ok (roundF64 (roundPrec 64 (x / roundPrec 53 P))) := by
  unfold Trader.fromRawAmount
  simp [hP, hs, BigFloat.SetFloat64, BigFloat.Quo, BigFloat.prec, hPm, BigFloat.Float64]

/-- Truncating a value within `k / 2 ^ 44` of `k + 1/2` to a `uint64` gives `k` up to a
relative error of `2 ^ -38`. -/
theorem Uint64_near (k : ℕ) (hk1 : 1 ≤ k) (hk : k < 2 ^ 64) (m : ℚ)
    (h : |m - ((k : ℚ) + 1 / 2)| ≤ (1 / 2 ^ 44) * (k : ℚ)) :
    |((BigFloat.Uint64 (BigFloat.fin 53 m) : ℕ) : ℚ) - (k : ℚ)| ≤ (1 / 2 ^ 38) * (k : ℚ) := by
  have hkq : (1 : ℚ) ≤ (k : ℚ) := by exact_mod_cast hk1
  have hku : (k : ℚ) ≤ 2 ^ 64 - 1 := by
    have h1 : k ≤ 18446744073709551615 := by omega
    have h2 : (k : ℚ) ≤ 18446744073709551615 := by exact_mod_cast h1
    have h3 : (2 : ℚ) ^ 64 - 1 = 18446744073709551615 := by norm_num
    linarith
  have hl := (abs_le.mp h).1
  have hu := (abs_le.mp h).2
  have hm0 : ¬ m < 0 := by
    rw [not_lt]
    have : (1 / 2 ^ 44 : ℚ) * (k : ℚ) ≤ (k : ℚ) := by
      have : (1 / 2 ^ 44 : ℚ) ≤ 1 := by norm_num
      nlinarith
    linarith
  unfold BigFloat.Uint64
  simp only []
  rw [if_neg hm0]
  have hcast : (((2 ^ 64 - 1 : ℕ)) : ℚ) = 2 ^ 64 - 1 := by norm_num
  by_cases hsmall : k < 2 ^ 40
  · -- the truncation is exact
    have hkq2 : (k : ℚ) < 2 ^ 40 := by exact_mod_cast hsmall
    have hb : (1 / 2 ^ 44 : ℚ) * (k : ℚ) < 1 / 4 := by
      have : (1 / 2 ^ 44 : ℚ) * (k : ℚ) < (1 / 2 ^ 44 : ℚ) * 2 ^ 40 :=
        mul_lt_mul_of_pos_left hkq2 (by norm_num)
      have h3 : (1 / 2 ^ 44 : ℚ) * 2 ^ 40 ≤ 1 / 4 := by norm_num
      linarith
    have hnot : ¬ (((2 ^ 64 - 1 : ℕ)) : ℚ) < m := by
      rw [not_lt, hcast]
      have : (2 : ℚ) ^ 40 + 1 ≤ 2 ^ 64 - 1 := by norm_num
      linarith
    rw [if_neg hnot]
    have hfloor : ⌊m⌋ = (k : ℤ) := by
      rw [Int.floor_eq_iff]
      constructor
      · push_cast
        linarith
      · push_cast
        linarith
    rw [hfloor]
    simp only [Int.toNat_ofNat, sub_self, abs_zero]
    positivity
  · have hkq2 : (2 : ℚ) ^ 40 ≤ (k : ℚ) := by
      have : 2 ^ 40 ≤ k := by omega
      exact_mod_cast this
    have hslack : (3 : ℚ) / 2 + (1 / 2 ^ 44) * (k : ℚ) ≤ (1 / 2 ^ 38) * (k : ℚ) := by
      have : (3 : ℚ) / 2 ≤ (1 / 2 ^ 38 - 1 / 2 ^ 44) * (k : ℚ) := by
        have h3 : (1 / 2 ^ 38 - 1 / 2 ^ 44 : ℚ) * 2 ^ 40 ≤ (1 / 2 ^ 38 - 1 / 2 ^ 44) * (k : ℚ) :=
          mul_le_mul_of_nonneg_left hkq2 (by norm_num)
        have h4 : (3 : ℚ) / 2 ≤ (1 / 2 ^ 38 - 1 / 2 ^ 44 : ℚ) * 2 ^ 40 := by norm_num
        linarith
      linarith
    split
    · rename_i hbig
      rw [hcast] at hbig ⊢
      rw [abs_le]
      constructor <;> linarith
    · have h1 : (⌊m⌋ : ℚ) ≤ m := Int.floor_le m
      have h2 : m < (⌊m⌋ : ℚ) + 1 := Int.lt_floor_add_one m
      have hnn : 0 ≤ ⌊m⌋ := Int.floor_nonneg.mpr (not_lt.mp hm0)
      have hc : ((⌊m⌋.toNat : ℕ) : ℚ) = (⌊m⌋ : ℚ) := by
        have h3 : ((⌊m⌋.toNat : ℕ) : ℤ) = ⌊m⌋ := Int.toNat_of_nonneg hnn
        have h4 : (((⌊m⌋.toNat : ℕ) : ℤ) : ℚ) = (⌊m⌋ : ℚ) := by rw [h3]
        rw [← h4, Int.cast_natCast]
      rw [hc, abs_le]
      constructor <;> linarith

/-- The numeric core of the round trip: from the rounding bounds of each step to the
relative error of the result. -/
theorem roundtrip_chain (k : ℕ) (hk1 : 1 ≤ k) (T x0 a A Pm m1 m2 q : ℚ)
    (raw : ℕ)
    (hT : 0 < T) (hx0 : x0 * T = (k : ℚ))
    (ha : |a - x0| ≤ (1 / 2 ^ 51) * x0)
    (hA : 0 < a → |A - a| ≤ (1 / 2 ^ 51) * a)
    (hPm : |Pm - T| ≤ (1 / 2 ^ 48) * T)
    (hm1 : 0 < A * Pm → |m1 - A * Pm| ≤ (1 / 2 ^ 51) * (A * Pm))
    (hm2 : 0 < m1 + 1 / 2 → |m2 - (m1 + 1 / 2)| ≤ (1 / 2 ^ 51) * (m1 + 1 / 2))
    (hraw : |m2 - ((k : ℚ) + 1 / 2)| ≤ (1 / 2 ^ 44) * (k : ℚ) →
      |(raw : ℚ) - (k : ℚ)| ≤ (1 / 2 ^ 38) * (k : ℚ))
    (hq : 0 < (raw : ℚ) / Pm → |q - (raw : ℚ) / Pm| ≤ (1 / 2 ^ 51) * ((raw : ℚ) / Pm)) :
    |q - x0| ≤ (1 / 2 ^ 36) * x0 ∧
      ∀ r : ℚ, |r - q| ≤ (1 / 2 ^ 51) * q → |r - a| ≤ a / 10 ^ 9 := by
  have hkq : (1 : ℚ) ≤ (k : ℚ) := by exact_mod_cast hk1
  have hk0 : (0 : ℚ) < (k : ℚ) := by linarith
  have hx0pos : 0 < x0 := by
    by_contra hc
    have : x0 * T ≤ 0 := mul_nonpos_of_nonpos_of_nonneg (not_lt.mp hc) (le_of_lt hT)
    linarith
  have hapos : 0 < a := near_pos hx0pos (by norm_num) ha
  -- A against x0
  have hA0 := near_trans (by norm_num) (hA hapos) ha
  have hA1 : |A - x0| ≤ (1 / 2 ^ 49) * x0 := near_weaken hx0pos (by norm_num) hA0
  -- the product against k
  have hprod0 := near_mul hx0pos hT (by norm_num) hA1 hPm
  rw [hx0] at hprod0
  have hprod : |A * Pm - (k : ℚ)| ≤ (1 / 2 ^ 47) * (k : ℚ) :=
    near_weaken hk0 (by norm_num) hprod0
  have hprodpos : 0 < A * Pm := near_pos hk0 (by norm_num) hprod
  have hm1k0 := near_trans (by norm_num) (hm1 hprodpos) hprod
  have hm1k : |m1 - (k : ℚ)| ≤ (1 / 2 ^ 46) * (k : ℚ) := near_weaken hk0 (by norm_num) hm1k0
  have hm1pos : 0 < m1 := near_pos hk0 (by norm_num) hm1k
  have hm1u : m1 ≤ (k : ℚ) + (1 / 2 ^ 46) * (k : ℚ) := by
    have := (abs_le.mp hm1k).2
    linarith
  have hm2a := hm2 (by linarith)
  have hm2k : |m2 - ((k : ℚ) + 1 / 2)| ≤ (1 / 2 ^ 44) * (k : ℚ) := by
    have e : m2 - ((k : ℚ) + 1 / 2) = (m2 - (m1 + 1 / 2)) + (m1 - (k : ℚ)) := by ring
    rw [e]
    have h3 : (1 / 2 ^ 51 : ℚ) * (m1 + 1 / 2) ≤
        (1 / 2 ^ 51) * ((k : ℚ) + (1 / 2 ^ 46) * (k : ℚ) + 1 / 2) :=
      mul_le_mul_of_nonneg_left (by linarith) (by norm_num)
    calc |(m2 - (m1 + 1 / 2)) + (m1 - (k : ℚ))|
        ≤ |m2 - (m1 + 1 / 2)| + |m1 - (k : ℚ)| := abs_add _ _
      _ ≤ (1 / 2 ^ 51) * ((k : ℚ) + (1 / 2 ^ 46) * (k : ℚ) + 1 / 2) + (1 / 2 ^ 46) * (k : ℚ) := by
          linarith
      _ ≤ (1 / 2 ^ 44) * (k : ℚ) := by linarith
  have hrawk := hraw hm2k
  have hrawpos : 0 < (raw : ℚ) := near_pos hk0 (by norm_num) hrawk
  -- the divisor
  have hPmpos : 0 < Pm := near_pos hT (by norm_num) hPm
  have hinv := near_inv hT (by norm_num) (by norm_num) hPm
  have hT1 : (0 : ℚ) < 1 / T := by positivity
  have hquo0 := near_mul hk0 hT1 (by norm_num) hrawk hinv
  have e1 : (k : ℚ) * (1 / T) = x0 := by
    rw [← hx0]
    field_simp
  have e2 : (raw : ℚ) * (1 / Pm) = (raw : ℚ) / Pm := by ring
  rw [e1, e2] at hquo0
  have hquo : |(raw : ℚ) / Pm - x0| ≤ (1 / 2 ^ 37) * x0 :=
    near_weaken hx0pos (by norm_num) hquo0
  have hquopos : 0 < (raw : ℚ) / Pm := div_pos hrawpos hPmpos
  have hq0 := near_trans (by norm_num) (hq hquopos) hquo
  have hqx : |q - x0| ≤ (1 / 2 ^ 36) * x0 := near_weaken hx0pos (by norm_num) hq0
  refine ⟨hqx, ?_⟩
  intro r hr
  have hr0 := near_trans (by norm_num) hr hqx
  have hrx : |r - x0| ≤ (1 / 2 ^ 35) * x0 := near_weaken hx0pos (by norm_num) hr0
  -- back to a
  have hx0a : x0 ≤ 2 * a := by
    have := (abs_le.mp ha).1
    have h3 : (1 / 2 ^ 51 : ℚ) * x0 ≤ (1 / 2) * x0 :=
      mul_le_mul_of_nonneg_right (by norm_num) (le_of_lt hx0pos)
    linarith
  have e : r - a = (r - x0) - (a - x0) := by ring
  rw [e]
  calc |(r - x0) - (a - x0)| ≤ |r - x0| + |a - x0| := abs_sub _ _
    _ ≤ (1 / 2 ^ 35) * x0 + (1 / 2 ^ 51) * x0 := by linarith
    _ ≤ (1 / 2 ^ 34) * x0 := by linarith
    _ ≤ (1 / 2 ^ 34) * (2 * a) := mul_le_mul_of_nonneg_left hx0a (by norm_num)
    _ ≤ a / 10 ^ 9 := by
        rw [div_eq_mul_one_div a]
        linarith


/-- C10 (amended). For `0 ≤ d ≤ 308` and every amount that is the `float64` of a
decimal `k / 10 ^ d` with `k < 2 ^ 64` (at most `d` fractional digits, scaled value in 64
bits), `toRawAmount` returns a value, and `fromRawAmount` of its decimal string, with the
same `d`, is within a relative error of `1e-9` of the amount; `setString` is any reading
of strings that reads that decimal string exactly.  And `fromRawAmount("2500000", 6)` is
`2.5`. -/
theorem fromRawAmount_toRawAmount (env : Env) (d k : ℕ) (a : ℚ) (hd : d ≤ 308)
    (hk : k < 2 ^ 64) (ha : roundF64 ((k : ℚ) / 10 ^ d) = F64.fin a)
    (hparse : ∀ raw, Trader.toRawAmount (F64.fin a) d = Except.ok raw →
      env.setString (toString raw) = BigFloat.fin 64 raw) :
    (∃ raw r, Trader.toRawAmount (F64.fin a) d = Except.ok raw ∧
      Trader.fromRawAmount env (toString raw) d = Except.ok (F64.fin r) ∧
      |r - a| ≤ a / 10 ^ 9) ∧
    Trader.fromRawAmount demoLowImpact.env "2500000" 6 = Except.ok (F64.fin (5 / 2)) := by
  refine ⟨?_, by decide!⟩
  obtain ⟨P, hP, hPn⟩ := Pow10_spec d hd
  have hT : (0 : ℚ) < (10 : ℚ) ^ d := by positivity
  have hPpos : 0 < P := near_pos hT (by norm_num) hPn
  have hPm0 := roundPrec_near 53 (by norm_num) P hPpos
  have hPm : |roundPrec 53 P - (10 : ℚ) ^ d| ≤ (1 / 2 ^ 48) * (10 : ℚ) ^ d :=
    near_weaken hT (by norm_num) (near_trans (by norm_num) hPm0 hPn)
  have hPmpos : 0 < roundPrec 53 P := near_pos hT (by norm_num) hPm
  have htoRaw := toRawAmount_eq a P d hP
  have hs := hparse _ htoRaw
  have hfrom := fromRawAmount_eq env _ _ P d hP (ne_of_gt hPmpos) hs
  rcases Nat.eq_zero_or_pos k with hk0 | hk1
  · -- the amount is zero
    subst hk0
    have ha0 : a = 0 := by
      have h0 : roundF64 (((0 : ℕ) : ℚ) / 10 ^ d) = F64.fin 0 := by
        simp [roundF64]
      exact (F64.fin.inj (ha.symm.trans h0))
    subst ha0
    have hraw0 : BigFloat.Uint64 (BigFloat.fin 53
        (roundPrec 53 (roundPrec 53 (roundPrec 53 0 * roundPrec 53 P) + 1 / 2))) = 0 := by
      rw [roundPrec_zero, zero_mul, roundPrec_zero, zero_add]
      decide!
    rw [hraw0] at hfrom htoRaw
    refine ⟨0, 0, htoRaw, ?_, by simp⟩
    rw [hfrom]
    simp [roundPrec_zero, roundF64]
  · -- a positive amount
    have hk1q : (1 : ℚ) ≤ (k : ℚ) := by exact_mod_cast hk1
    have hT1 : (1 : ℚ) ≤ (10 : ℚ) ^ d := one_le_pow₀ (by norm_num)
    have hT2 : (10 : ℚ) ^ d ≤ 10 ^ 308 := pow_le_pow_right₀ (by norm_num) hd
    have hkq : (k : ℚ) < 2 ^ 64 := by exact_mod_cast hk
    have hx0T : (k : ℚ) / 10 ^ d * 10 ^ d = (k : ℚ) := by field_simp
    have hx0lo : (1 : ℚ) / 10 ^ 308 ≤ (k : ℚ) / 10 ^ d := by
      rw [div_le_div_iff₀ (by positivity) hT]
      nlinarith
    have hx0hi : (k : ℚ) / 10 ^ d ≤ 2 ^ 64 := by
      rw [div_le_iff₀ hT]
      nlinarith
    have hx0pos : (0 : ℚ) < (k : ℚ) / 10 ^ d := by positivity
    obtain ⟨a1, ha1, hnear⟩ := roundF64_near ((k : ℚ) / 10 ^ d)
      (le_trans (by norm_num) hx0lo) (le_trans hx0hi (by norm_num))
    have haa : a1 = a := F64.fin.inj (ha1.symm.trans ha)
    subst haa
    obtain ⟨hqx, hfin⟩ := roundtrip_chain k hk1 ((10 : ℚ) ^ d) ((k : ℚ) / 10 ^ d) a1
      (roundPrec 53 a1) (roundPrec 53 P) (roundPrec 53 (roundPrec 53 a1 * roundPrec 53 P))
      (roundPrec 53 (roundPrec 53 (roundPrec 53 a1 * roundPrec 53 P) + 1 / 2))
      (roundPrec 64
        ((BigFloat.Uint64 (BigFloat.fin 53
          (roundPrec 53 (roundPrec 53 (roundPrec 53 a1 * roundPrec 53 P) + 1 / 2))) : ℕ)
          / roundPrec 53 P))
      (BigFloat.Uint64 (BigFloat.fin 53
        (roundPrec 53 (roundPrec 53 (roundPrec 53 a1 * roundPrec 53 P) + 1 / 2))))
      hT hx0T hnear
      (fun h => roundPrec_near 53 (by norm_num) _ h)
      hPm
      (fun h => roundPrec_near 53 (by norm_num) _ h)
      (fun h => roundPrec_near 53 (by norm_num) _ h)
      (fun h => Uint64_near k hk1 hk _ h)
      (fun h => roundPrec_near 64 (by norm_num) _ h)
    have hql := (abs_le.mp hqx).1
    have hqu := (abs_le.mp hqx).2
    have hqlo : (1 : ℚ) / 2 ^ 1024 ≤ roundPrec 64
        ((BigFloat.Uint64 (BigFloat.fin 53
          (roundPrec 53 (roundPrec 53 (roundPrec 53 a1 * roundPrec 53 P) + 1 / 2))) : ℕ)
          / roundPrec 53 P) := by
      have h1 : (1 / 2 ^ 36 : ℚ) * ((k : ℚ) / 10 ^ d) ≤ (1 / 4) * ((k : ℚ) / 10 ^ d) :=
        mul_le_mul_of_nonneg_right (by norm_num) (le_of_lt hx0pos)
      have h2 : (1 : ℚ) / 2 ^ 1024 ≤ (3 / 4) * (1 / 10 ^ 308) := by norm_num
      linarith
    have hqhi : roundPrec 64
        ((BigFloat.Uint64 (BigFloat.fin 53
          (roundPrec 53 (roundPrec 53 (roundPrec 53 a1 * roundPrec 53 P) + 1 / 2))) : ℕ)
          / roundPrec 53 P) ≤ 3 * 2 ^ 1022 := by
      have h1 : (1 / 2 ^ 36 : ℚ) * ((k : ℚ) / 10 ^ d) ≤ 1 * ((k : ℚ) / 10 ^ d) :=
        mul_le_mul_of_nonneg_right (by norm_num) (le_of_lt hx0pos)
      have h2 : (2 : ℚ) ^ 64 + 2 ^ 64 ≤ 3 * 2 ^ 1022 := by norm_num
      linarith
    obtain ⟨r, hr, hrnear⟩ := roundF64_near _ hqlo hqhi
    refine ⟨_, r, htoRaw, ?_, hfin r hrnear⟩
    rw [hfrom, hr]


/-- The round trip of 1.5 with 6 decimals. -/
theorem fromRawAmount_toRawAmount_witness :
    ∃ raw r, Trader.toRawAmount (F64.fin (3 / 2)) ((6 : ℕ) : ℤ) = Except.ok raw ∧
      Trader.fromRawAmount demoLowImpact.env (toString raw) ((6 : ℕ) : ℤ) =
        Except.ok (F64.fin r) ∧
      |r - 3 / 2| ≤ (3 / 2) / 10 ^ 9 :=
  (fromRawAmount_toRawAmount demoLowImpact.env 6 1500000 (3 / 2) (by decide) (by decide)
    (by decide!)
    (by
      intro raw h
      have h1 : Trader.toRawAmount (F64.fin (3 / 2)) ((6 : ℕ) : ℤ) = Except.ok 1500000 := by
        decide!
      have h2 : raw = 1500000 := (Except.ok.inj (h.symm.trans h1))
      subst h2
      decide!)).1

/-- C10, as stated, fails beyond 308 decimals, where `math.Pow10` is `+Inf`: for the
amount 0 and 309 decimals `toRawAmount` panics (`0 * Inf` in `math/big`), and for the
smallest positive `float64`, the one nearest to `5 / 10 ^ 324`, and 324 decimals the round
trip returns 0. -/
theorem fromRawAmount_toRawAmount_counterexample :
    roundF64 ((0 : ℚ) / 10 ^ 309) = F64.fin 0 ∧
    Trader.toRawAmount (F64.fin 0) 309 = Except.error Panic.errNaN ∧
    roundF64 ((5 : ℚ) / ((10 ^ 324 : ℕ) : ℚ)) = F64.fin (1 / ((2 ^ 1074 : ℕ) : ℚ)) ∧
    Trader.toRawAmount (F64.fin (1 / ((2 ^ 1074 : ℕ) : ℚ))) 324 =
      Except.ok 18446744073709551615 ∧
    Trader.fromRawAmount demoLowImpact.env "18446744073709551615" 324 =
      Except.ok (F64.fin 0) := by
  decide!

/-! ## Theorems: the extension parsers -/

theorem Uint16_eq (b : Bytes) (h : 2 ≤ b.len) :
    LittleEndian.Uint16 b = Except.ok (leValue (b.data.take 2)) := by
  obtain ⟨d, s⟩ := b
  match d, h with
  | x0 :: x1 :: rest, _ => rfl

theorem Uint64_eq (b : Bytes) (h : 8 ≤ b.len) :
    LittleEndian.Uint64 b = Except.ok (leValue (b.data.take 8)) := by
  obtain ⟨d, s⟩ := b
  match d, h with
  | x0 :: x1 :: x2 :: x3 :: x4 :: x5 :: x6 :: x7 :: rest, _ =>
    simp [LittleEndian.Uint64, Bytes.index, leValue, bind, Except.bind, pure, Except.pure]
    ring

theorem sliceFrom_eq (b : Bytes) (lo : ℕ) (h : lo ≤ b.len) :
    b.sliceFrom lo = Except.ok { data := b.data.drop lo, spare := b.spare } := by
  simp [Bytes.sliceFrom, h]

theorem slice_within (b : Bytes) (lo hi : ℕ) (h1 : lo ≤ hi) (h2 : hi ≤ b.len) :
    ∃ s, b.slice lo hi = Except.ok { data := (b.data.drop lo).take (hi - lo), spare := s } := by
  have h3 : hi ≤ b.cap := by unfold Bytes.cap; unfold Bytes.len at h2; omega
  unfold Bytes.len at h2
  refine ⟨(b.data ++ b.spare).drop hi, ?_⟩
  simp only [Bytes.slice, h1, h3, and_self, if_true]
  rw [List.take_append_of_le_length h2, List.drop_take]

theorem PublicKeyFromBytes_of_length (d s : List Byte) (h : d.length = 32) :
    PublicKeyFromBytes { data := d, spare := s } = d := by
  simp [PublicKeyFromBytes, Bytes.len, h, List.take_of_length_le]

/-- The tag, and the reads of the transfer fee parser after it, on a buffer of at least
98 bytes. -/
theorem parseTransferFee_of_len (data : Bytes) (hlen : 98 ≤ data.len) :
    parseTransferFee data =
      if leValue (data.range 82 84) ≠ 1 then Result.err Err.notTransferFee
      else Result.ofPanic
        ((Bytes.slice { data := data.data.drop 82, spare := data.spare } 12 44).map
          fun collector =>
            { BasisPoints := leValue (data.range 84 86),
              MaximumFee := leValue (data.range 86 94),
              CollectorWallet := (PublicKeyFromBytes collector).map Fin.val }) := by
  have h0 : ¬ data.len < MintAccountSize + 16 := by simp only [MintAccountSize]; omega
  have hl : 98 ≤ data.data.length := hlen
  unfold parseTransferFee
  rw [if_neg h0, sliceFrom_eq data MintAccountSize (by simp only [MintAccountSize]; omega)]
  simp only []
  rw [Uint16_eq _ (by simp only [Bytes.len, List.length_drop, MintAccountSize]; omega)]
  simp only [Bytes.range, MintAccountSize, ExtensionTransferFee]
  split
  · rfl
  · rw [sliceFrom_eq _ 2 (by simp only [Bytes.len, List.length_drop]; omega),
      sliceFrom_eq _ 4 (by simp only [Bytes.len, List.length_drop]; omega)]
    simp only [bind, Except.bind]
    rw [Uint16_eq _ (by simp only [Bytes.len, List.length_drop]; omega),
      Uint64_eq _ (by simp only [Bytes.len, List.length_drop]; omega)]
    simp only [List.drop_drop]
    cases Bytes.slice { data := List.drop 82 data.data, spare := data.spare } 12 44 <;> rfl

/-- C11: for every buffer of at least 126 bytes whose bytes 82 and 83 hold the
little-endian tag 1, `parseTransferFee` succeeds and returns the little-endian value of
bytes 84..85 as basis points, that of bytes 86..93 as maximum fee and bytes 94..125 as
the collector key. -/
theorem parseTransferFee_decodes (data : Bytes) (hlen : 126 ≤ data.len)
    (htag : leValue (data.range 82 84) = 1) :
    parseTransferFee data =
      Result.ok { BasisPoints := leValue (data.range 84 86),
                  MaximumFee := leValue (data.range 86 94),
                  CollectorWallet := (data.range 94 126).map Fin.val } := by
  rw [parseTransferFee_of_len data (by omega), if_neg (by simp [htag])]
  have hl : 126 ≤ data.data.length := hlen
  obtain ⟨s, hs⟩ := slice_within { data := data.data.drop 82, spare := data.spare } 12 44
    (by omega) (by simp only [Bytes.len, List.length_drop]; omega)
  rw [hs]
  simp only [Except.map, Result.ofPanic, List.drop_drop]
  rw [PublicKeyFromBytes_of_length _ _ (by simp only [List.length_take, List.length_drop]; omega)]
  rfl

/-- The account with 250 basis points, maximum fee 1000000 and the collector key
`1, 2, .., 32` decodes to exactly these values. -/
theorem parseTransferFee_decodes_witness :
    126 ≤ demoTransferFeeAccount.len ∧ leValue (demoTransferFeeAccount.range 82 84) = 1 ∧
    leValue (demoTransferFeeAccount.range 84 86) = 250 ∧
    leValue (demoTransferFeeAccount.range 86 94) = 1000000 ∧
    (demoTransferFeeAccount.range 94 126).map Fin.val = (List.range 32).map (fun i => i + 1) ∧
    parseTransferFee demoTransferFeeAccount =
      Result.ok { BasisPoints := leValue (demoTransferFeeAccount.range 84 86),
                  MaximumFee := leValue (demoTransferFeeAccount.range 86 94),
                  CollectorWallet := (demoTransferFeeAccount.range 94 126).map Fin.val } :=
  ⟨by decide!, by decide!, by decide!, by decide!, by decide!,
    parseTransferFee_decodes demoTransferFeeAccount (by decide!) (by decide!)⟩

/-- The interest rate parser on a buffer of at least 106 bytes: it returns, and what it
returns is read below the length. -/
theorem parseInterestRate_of_len (data : Bytes) (hlen : 106 ≤ data.len) :
    parseInterestRate data =
      if leValue (data.range 82 84) ≠ 2 then Result.err Err.notInterestBearing
      else Result.ok
        { CurrentRate := leValue (data.range 84 86),
          APY := F64.div (F64.ofNat (leValue (data.range 84 86))) (F64.fin 100),
          LastUpdateSlot := leValue (data.range 98 106) } := by
  have h0 : ¬ data.len < MintAccountSize + 24 := by simp only [MintAccountSize]; omega
  have hl : 106 ≤ data.data.length := hlen
  unfold parseInterestRate
  rw [if_neg h0, sliceFrom_eq data MintAccountSize (by simp only [MintAccountSize]; omega)]
  simp only []
  rw [Uint16_eq _ (by simp only [Bytes.len, List.length_drop, MintAccountSize]; omega)]
  simp only [Bytes.range, MintAccountSize, ExtensionInterestBearing]
  split
  · rfl
  · rw [sliceFrom_eq _ 2 (by simp only [Bytes.len, List.length_drop]; omega),
      sliceFrom_eq _ 16 (by simp only [Bytes.len, List.length_drop]; omega)]
    simp only [bind, Except.bind]
    rw [Uint16_eq _ (by simp only [Bytes.len, List.length_drop]; omega),
      Uint64_eq _ (by simp only [Bytes.len, List.length_drop]; omega)]
    simp only [List.drop_drop]
    rfl

/-- The permanent delegate parser on a buffer of at least 116 bytes. -/
theorem parsePermanentDelegate_of_len (data : Bytes) (hlen : 116 ≤ data.len) :
    parsePermanentDelegate data =
      if leValue (data.range 82 84) ≠ 3 then Result.err Err.notPermanentDelegate
      else Result.ok (PublicKey.String (data.range 84 116)) := by
  have h0 : ¬ data.len < MintAccountSize + 34 := by simp only [MintAccountSize]; omega
  have hl : 116 ≤ data.data.length := hlen
  unfold parsePermanentDelegate
  rw [if_neg h0, sliceFrom_eq data MintAccountSize (by simp only [MintAccountSize]; omega)]
  simp only []
  rw [Uint16_eq _ (by simp only [Bytes.len, List.length_drop, MintAccountSize]; omega)]
  simp only [Bytes.range, MintAccountSize, ExtensionPermanentDelegate]
  split
  · rfl
  · obtain ⟨s, hs⟩ := slice_within { data := data.data.drop 82, spare := data.spare } 2 34
      (by omega) (by simp only [Bytes.len, List.length_drop]; omega)
    rw [hs]
    simp only [bind, Except.bind, Result.ofPanic, List.drop_drop, pure, Except.pure]
    rw [PublicKeyFromBytes_of_length _ _
      (by simp only [List.length_take, List.length_drop]; omega)]

/-- The authorities parser on a buffer of at least 82 bytes. -/
theorem parseAuthorities_of_len (data : Bytes) (hlen : 82 ≤ data.len) :
    parseAuthorities data =
      Result.ok { MintAuthority := PublicKey.String (data.range 0 32),
                  FreezeAuthority := PublicKey.String (data.range 36 68) } := by
  have h0 : ¬ data.len < MintAccountSize := by simp only [MintAccountSize]; omega
  have hl : 82 ≤ data.data.length := hlen
  unfold parseAuthorities
  rw [if_neg h0]
  obtain ⟨s, hs⟩ := slice_within data 0 32 (by omega) (by omega)
  obtain ⟨t, ht⟩ := slice_within data 36 68 (by omega) (by omega)
  rw [hs, ht]
  simp only [bind, Except.bind, Result.ofPanic, pure, Except.pure, Bytes.range]
  rw [PublicKeyFromBytes_of_length _ _
      (by simp only [List.length_take, List.length_drop]; omega),
    PublicKeyFromBytes_of_length _ _
      (by simp only [List.length_take, List.length_drop]; omega)]

/-- C12: each extension parser answers a buffer below its minimum length with its
too-short error and a buffer of at least that length whose tag (little-endian, bytes 82
and 83) is not its own with its not-this-extension error; the minimum lengths are 98 for
the transfer fee (tag 1), 106 for the interest rate (tag 2) and 116 for the permanent
delegate (tag 3). -/
theorem parsers_classify_failures (data : Bytes) :
    (data.len < 82 + 16 → parseTransferFee data = Result.err Err.tooShortTransferFee) ∧
    (82 + 16 ≤ data.len → leValue (data.range 82 84) ≠ 1 →
      parseTransferFee data = Result.err Err.notTransferFee) ∧
    (data.len < 82 + 24 → parseInterestRate data = Result.err Err.tooShortInterestRate) ∧
    (82 + 24 ≤ data.len → leValue (data.range 82 84) ≠ 2 →
      parseInterestRate data = Result.err Err.notInterestBearing) ∧
    (data.len < 82 + 34 →
      parsePermanentDelegate data = Result.err Err.tooShortPermanentDelegate) ∧
    (82 + 34 ≤ data.len → leValue (data.range 82 84) ≠ 3 →
      parsePermanentDelegate data = Result.err Err.notPermanentDelegate) := by
  refine ⟨fun h => ?_, fun h ht => ?_, fun h => ?_, fun h ht => ?_, fun h => ?_,
    fun h ht => ?_⟩
  · unfold parseTransferFee; rw [if_pos h]
  · rw [parseTransferFee_of_len data h, if_pos ht]
  · unfold parseInterestRate; rw [if_pos h]
  · rw [parseInterestRate_of_len data h, if_pos ht]
  · unfold parsePermanentDelegate; rw [if_pos h]
  · rw [parsePermanentDelegate_of_len data h, if_pos ht]

/-- The transfer fee account of 126 bytes carries tag 1: the interest rate and the
permanent delegate parsers reject it as not theirs, and cut to 97 bytes every parser of
an extension finds it too short; with tag 2 the transfer fee parser rejects it. -/
theorem parsers_classify_failures_witness :
    parseInterestRate demoTransferFeeAccount = Result.err Err.notInterestBearing ∧
    parsePermanentDelegate demoTransferFeeAccount = Result.err Err.notPermanentDelegate ∧
    parseTransferFee { data := demoTransferFeeAccount.data.take 97, spare := [] } =
      Result.err Err.tooShortTransferFee ∧
    parseInterestRate { data := demoTransferFeeAccount.data.take 97, spare := [] } =
      Result.err Err.tooShortInterestRate ∧
    parsePermanentDelegate { data := demoTransferFeeAccount.data.take 97, spare := [] } =
      Result.err Err.tooShortPermanentDelegate ∧
    parseTransferFee { data := List.replicate 82 0 ++ [2, 0] ++ List.replicate 14 0,
                       spare := [] } = Result.err Err.notTransferFee :=
  ⟨(parsers_classify_failures demoTransferFeeAccount).2.2.2.1 (by decide!) (by decide!),
   (parsers_classify_failures demoTransferFeeAccount).2.2.2.2.2 (by decide!) (by decide!),
   (parsers_classify_failures _).1 (by decide!),
   (parsers_classify_failures _).2.2.1 (by decide!),
   (parsers_classify_failures _).2.2.2.2.1 (by decide!),
   (parsers_classify_failures _).2.1 (by decide!) (by decide!)⟩

/-- C13 fails for `parseTransferFee`: on a buffer of 98 to 125 bytes with tag 1 the length
guard passes and the slice expression `data[12:44]` reaches past the length.  With a
capacity below 126 the parser panics; with a larger capacity it returns a collector key
made of bytes of the backing array past the length. -/
theorem parseTransferFee_reads_past_length (data : Bytes) (hlo : 98 ≤ data.len)
    (hhi : data.len < 126) (htag : leValue (data.range 82 84) = 1) :
    (data.cap < 126 → parseTransferFee data = Result.panic Panic.sliceBounds) ∧
    (126 ≤ data.cap → parseTransferFee data =
      Result.ok { BasisPoints := leValue (data.range 84 86),
                  MaximumFee := leValue (data.range 86 94),
                  CollectorWallet :=
                    (((data.data ++ data.spare).drop 94).take 32).map Fin.val }) := by
  have hl : 98 ≤ data.data.length := hlo
  have hh : data.data.length < 126 := hhi
  rw [parseTransferFee_of_len data hlo, if_neg (by simp [htag])]
  constructor
  · intro hc
    have hc1 : data.data.length + data.spare.length < 126 := hc
    have : ¬ (44 ≤ (Bytes.mk (data.data.drop 82) data.spare).cap ∧ 12 ≤ 44) := by
      simp only [Bytes.cap, List.length_drop]; omega
    simp only [Bytes.slice, if_neg this]
    rfl
  · intro hc
    have hc1 : 126 ≤ data.data.length + data.spare.length := hc
    have : (44 ≤ (Bytes.mk (data.data.drop 82) data.spare).cap ∧ 12 ≤ 44) := by
      simp only [Bytes.cap, List.length_drop]; omega
    simp only [Bytes.slice, if_pos this, Except.map, Result.ofPanic]
    have e : List.drop 12 (List.take 44 (List.drop 82 data.data ++ data.spare)) =
        List.take 32 (List.drop 94 (data.data ++ data.spare)) := by
      rw [← List.drop_append_of_le_length (by omega : 82 ≤ data.data.length),
        List.drop_take, List.drop_drop]
    rw [e, PublicKeyFromBytes_of_length _ _
      (by simp only [List.length_take, List.length_drop, List.length_append]; omega)]

/-- The 98-byte account with tag 1 makes `parseTransferFee` panic; the same 98 bytes in a
backing array with 28 more bytes, all 9, give a collector key ending in twenty-eight
nines. -/
theorem parseTransferFee_reads_past_length_witness :
    parseTransferFee demoShortTransferFeeAccount = Result.panic Panic.sliceBounds ∧
    parseTransferFee { demoShortTransferFeeAccount with spare := List.replicate 28 9 } =
      Result.ok { BasisPoints := 250, MaximumFee := 1000000,
                  CollectorWallet := [1, 2, 3, 4] ++ List.replicate 28 9 } :=
  ⟨(parseTransferFee_reads_past_length demoShortTransferFeeAccount (by decide!) (by decide!)
      (by decide!)).1 (by decide!),
   ((parseTransferFee_reads_past_length
      { demoShortTransferFeeAccount with spare := List.replicate 28 9 } (by decide!)
      (by decide!) (by decide!)).2 (by decide!)).trans (by decide!)⟩

/-- C14: for every buffer of at least 82 bytes `parseAuthorities` succeeds, with the mint
authority encoded from bytes 0..31 and the freeze authority from bytes 36..67; two such
buffers that agree on their first 68 bytes give the same authorities. -/
theorem parseAuthorities_reads_first_68 (data other : Bytes) (hlen : 82 ≤ data.len)
    (hother : 82 ≤ other.len) (hagree : data.data.take 68 = other.data.take 68) :
    parseAuthorities data =
      Result.ok { MintAuthority := base58Encode (data.range 0 32),
                  FreezeAuthority := base58Encode (data.range 36 68) } ∧
    parseAuthorities other = parseAuthorities data := by
  have h1 : data.range 0 32 = other.range 0 32 := by
    have := congrArg (List.take 32) hagree
    simpa [Bytes.range, List.take_take] using this
  have h2 : data.range 36 68 = other.range 36 68 := by
    have := congrArg (List.drop 36) hagree
    simpa [Bytes.range, List.drop_take] using this
  rw [parseAuthorities_of_len data hlen, parseAuthorities_of_len other hother, h1, h2]
  exact ⟨rfl, rfl⟩

/-- An account of 82 zero bytes and one of 68 zero bytes followed by 60 bytes 255 have
the same authorities, the key of 32 zero bytes for both. -/
theorem parseAuthorities_reads_first_68_witness :
    parseAuthorities { data := List.replicate 82 0, spare := [] } =
      Result.ok { MintAuthority := "11111111111111111111111111111111",
                  FreezeAuthority := "11111111111111111111111111111111" } ∧
    parseAuthorities { data := List.replicate 68 0 ++ List.replicate 60 255, spare := [] } =
      parseAuthorities { data := List.replicate 82 0, spare := [] } :=
  ⟨((parseAuthorities_reads_first_68 { data := List.replicate 82 0, spare := [] }
      { data := List.replicate 68 0 ++ List.replicate 60 255, spare := [] }
      (by decide!) (by decide!) (by decide!)).1).trans (by decide!),
   (parseAuthorities_reads_first_68 { data := List.replicate 82 0, spare := [] }
      { data := List.replicate 68 0 ++ List.replicate 60 255, spare := [] }
      (by decide!) (by decide!) (by decide!)).2⟩

/-! ## Theorems: the token cache -/

theorem GoMap.load_delete {α : Type} (m : GoMap α) (k k1 : String) :
    (m.delete k).load k1 = if k1 = k then none else m.load k1 := by
  unfold GoMap.delete GoMap.load
  rw [List.find?_filter]
  split
  · next h =>
    subst h
    have e : (fun a : String × α =>
        decide (decide (a.1 ≠ k1) = true ∧ decide (a.1 = k1) = true)) =
        fun _ => false := by
      funext a
      by_cases h : a.1 = k1 <;> simp [h]
    rw [e]
    simp
  · next h =>
    have e : (fun a : String × α =>
        decide (decide (a.1 ≠ k) = true ∧ decide (a.1 = k1) = true)) =
        fun a => decide (a.1 = k1) := by
      funext a
      by_cases h1 : a.1 = k1
      · have h2 : a.1 ≠ k := fun e => h (h1.symm.trans e)
        simp [h1, h2]
        exact fun e => h e
      · simp [h1]
    rw [e]

theorem GoMap.load_append {α : Type} (m n : GoMap α) (k : String) :
    GoMap.load (m ++ n) k = (GoMap.load m k).or (GoMap.load n k) := by
  induction m with
  | nil => simp [GoMap.load]
  | cons p rest ih =>
    by_cases h : p.1 = k
    · simp [GoMap.load, List.find?_cons, h]
    · simpa [GoMap.load, List.find?_cons, h] using ih

theorem GoMap.load_single {α : Type} (k k1 : String) (v : α) :
    GoMap.load [(k, v)] k1 = if k1 = k then some v else none := by
  by_cases h : k = k1
  · subst h
    simp [GoMap.load]
  · have h1 : ¬ k1 = k := fun e => h e.symm
    simp [GoMap.load, List.find?_cons, h, h1]

theorem GoMap.load_store {α : Type} (m : GoMap α) (k k1 : String) (v : α) :
    (m.store k v).load k1 = if k1 = k then some v else m.load k1 := by
  unfold GoMap.store
  rw [GoMap.load_append, GoMap.load_delete, GoMap.load_single]
  split
  · rfl
  · cases GoMap.load m k1 <;> rfl

theorem lastSet_snoc (calls : List CacheCall) (call : CacheCall) (address : String) :
    lastSet (calls ++ [call]) address =
      match call with
      | CacheCall.Set now a info => if a = address then some (now, info) else lastSet calls address
      | _ => lastSet calls address := by
  unfold lastSet
  rw [List.foldl_append]
  cases call <;> rfl

/-- Every entry of the cache stems from the most recent `Set` for its key. -/
theorem TokenCache_entries (ttl : ℤ) (calls : List CacheCall) :
    (TokenCache.after { cache := [], cacheTTL := ttl } calls).cacheTTL = ttl ∧
    ∀ address entry,
      (TokenCache.after { cache := [], cacheTTL := ttl } calls).cache.load address =
        some entry →
      ∃ t, lastSet calls address = some (t, entry.info) ∧ entry.expiresAt = t + ttl := by
  induction calls using List.reverseRecOn with
  | nil =>
    refine ⟨rfl, fun address entry h => ?_⟩
    simp [TokenCache.after, GoMap.load] at h
  | append_singleton calls call ih =>
    obtain ⟨ih1, ih2⟩ := ih
    have e : TokenCache.after { cache := [], cacheTTL := ttl } (calls ++ [call]) =
        (TokenCache.after { cache := [], cacheTTL := ttl } calls).call call := by
      simp [TokenCache.after, List.foldl_append]
    rw [e]
    generalize TokenCache.after { cache := [], cacheTTL := ttl } calls = c at ih1 ih2
    cases call with
    | Get now a =>
      have hc : (c.call (CacheCall.Get now a)).cacheTTL = c.cacheTTL := by
        simp only [TokenCache.call, TokenCache.Get]
        repeat' split
        all_goals rfl
      refine ⟨hc.trans ih1, fun address entry h => ?_⟩
      rw [lastSet_snoc]
      apply ih2
      simp only [TokenCache.call, TokenCache.Get] at h
      split at h
      · split at h
        · exact h
        · simp only [GoMap.load_delete] at h
          split at h
          · exact absurd h (by simp)
          · exact h
      · exact h
    | Set now a info =>
      refine ⟨ih1, fun address entry h => ?_⟩
      rw [lastSet_snoc]
      simp only [TokenCache.call, TokenCache.Set, GoMap.load_store] at h
      by_cases ha : address = a
      · subst ha
        simp only [if_true] at h
        simp only [if_true]
        refine ⟨now, ?_, ?_⟩
        · rw [← Option.some.inj h]
        · rw [← Option.some.inj h, ih1]
      · have ha1 : ¬ a = address := fun e => ha e.symm
        simp only [if_neg ha] at h
        simp only [if_neg ha1]
        exact ih2 address entry h
    | Clear =>
      refine ⟨ih1, fun address entry h => ?_⟩
      simp [TokenCache.call, TokenCache.Clear, GoMap.load] at h

/-- C15: after any sequence of calls on a fresh cache with time to live `ttl`, `Get` at
time `now` returns a value only if the key has been set, `now` is strictly before the
time of its most recent `Set` plus `ttl`, and the value is the one of that `Set`; from
that time on, and for a key never set, `Get` reports a miss. -/
theorem TokenCache_Get_fresh (ttl : ℤ) (calls : List CacheCall) (now : ℤ)
    (address : String) :
    (∀ info,
      ((TokenCache.after { cache := [], cacheTTL := ttl } calls).Get now address).1 =
        some info →
      ∃ t, lastSet calls address = some (t, info) ∧ now < t + ttl) ∧
    (∀ t info, lastSet calls address = some (t, info) → t + ttl ≤ now →
      ((TokenCache.after { cache := [], cacheTTL := ttl } calls).Get now address).1 =
        none) ∧
    (lastSet calls address = none →
      ((TokenCache.after { cache := [], cacheTTL := ttl } calls).Get now address).1 =
        none) := by
  have key : ∀ info,
      ((TokenCache.after { cache := [], cacheTTL := ttl } calls).Get now address).1 =
        some info →
      ∃ t, lastSet calls address = some (t, info) ∧ now < t + ttl := by
    intro info h
    have hinv := (TokenCache_entries ttl calls).2 address
    generalize TokenCache.after { cache := [], cacheTTL := ttl } calls = c at h hinv
    unfold TokenCache.Get at h
    split at h
    · next entry he =>
      obtain ⟨t, h1, h2⟩ := hinv entry he
      split at h
      · next hlt =>
        have hi : entry.info = info := Option.some.inj h
        rw [hi] at h1
        exact ⟨t, h1, by rw [← h2]; exact hlt⟩
      · exact absurd h (by simp)
    · exact absurd h (by simp)
  refine ⟨key, fun t info hs hexp => ?_, fun hs => ?_⟩
  · cases hg : ((TokenCache.after { cache := [], cacheTTL := ttl } calls).Get now address).1 with
    | none => rfl
    | some info1 =>
      obtain ⟨t1, h1, h2⟩ := key info1 hg
      rw [hs] at h1
      have : t = t1 := (Prod.mk.inj (Option.some.inj h1)).1
      omega
  · cases hg : ((TokenCache.after { cache := [], cacheTTL := ttl } calls).Get now address).1 with
    | none => rfl
    | some info1 =>
      obtain ⟨t1, h1, _⟩ := key info1 hg
      rw [hs] at h1
      exact absurd h1 (by simp)

/-- With a time to live of 300 seconds, the entry set at 0 and overwritten at 100 seconds
is served with the second value one nanosecond before 400 seconds and is a miss at 400
seconds, well after the first entry alone would have expired. -/
theorem TokenCache_Get_fresh_witness :
    ((TokenCache.after { cache := [], cacheTTL := 300000000000 } demoCacheCalls).Get
        399999999999 outMint).1 = some (demoFee100.token outMint) ∧
    (∃ t, lastSet demoCacheCalls outMint = some (t, demoFee100.token outMint) ∧
      399999999999 < t + 300000000000) ∧
    ((TokenCache.after { cache := [], cacheTTL := 300000000000 } demoCacheCalls).Get
        400000000000 outMint).1 = none ∧
    ((TokenCache.after { cache := [], cacheTTL := 300000000000 } demoCacheCalls).Get
        120000000000 solMint).1 = none :=
  ⟨by decide!,
   (TokenCache_Get_fresh 300000000000 demoCacheCalls 399999999999 outMint).1
      (demoFee100.token outMint) (by decide!),
   (TokenCache_Get_fresh 300000000000 demoCacheCalls 400000000000 outMint).2.1
      100000000000 (demoFee100.token outMint) (by decide!) (by decide),
   (TokenCache_Get_fresh 300000000000 demoCacheCalls 120000000000 solMint).2.2 (by decide!)⟩

/-! ## Theorems: the balance monitor -/

theorem lamports_per_sol : F64.ofNat LAMPORTS_PER_SOL = F64.fin 1000000000 := by decide!

/-- The balance in SOL of a `uint64` of lamports is a finite `float64` within a relative
error of `2 ^ -49` of `lamports / 10 ^ 9`. -/
theorem solBalance_near (lamports : ℕ) (hlam : lamports < 2 ^ 64) :
    ∃ v : ℚ, F64.div (F64.ofNat lamports) (F64.ofNat LAMPORTS_PER_SOL) = F64.fin v ∧
      |v - (lamports : ℚ) / 10 ^ 9| ≤ (1 / 2 ^ 49) * ((lamports : ℚ) / 10 ^ 9) := by
  rw [lamports_per_sol]
  rcases Nat.eq_zero_or_pos lamports with h0 | hpos
  · subst h0
    refine ⟨0, by decide!, by simp⟩
  · have hL1 : (1 : ℚ) ≤ (lamports : ℚ) := by exact_mod_cast hpos
    have hL2 : (lamports : ℚ) ≤ 2 ^ 64 := by exact_mod_cast le_of_lt hlam
    obtain ⟨r, hr, hnear⟩ := roundF64_near (lamports : ℚ)
      (le_trans (by norm_num) hL1) (le_trans hL2 (by norm_num))
    have hrpos : 0 < r := near_pos (by linarith) (by norm_num) hnear
    have hrl := (abs_le.mp hnear).1
    have hru := (abs_le.mp hnear).2
    have hrlo : (1 : ℚ) / 2 ≤ r := by
      have : (1 / 2 ^ 51 : ℚ) * (lamports : ℚ) ≤ (1 / 2) * (lamports : ℚ) :=
        mul_le_mul_of_nonneg_right (by norm_num) (by linarith)
      linarith
    have hrhi : r ≤ 2 ^ 65 := by
      have : (1 / 2 ^ 51 : ℚ) * (lamports : ℚ) ≤ 1 * (lamports : ℚ) :=
        mul_le_mul_of_nonneg_right (by norm_num) (by linarith)
      have e : (2 : ℚ) ^ 65 = 2 ^ 64 + 2 ^ 64 := by norm_num
      linarith
    obtain ⟨v, hv, hvnear⟩ := roundF64_near (r / 1000000000)
      (by
        rw [le_div_iff₀ (by norm_num)]
        have : (1 : ℚ) / 2 ^ 1024 * 1000000000 ≤ 1 / 2 := by norm_num
        linarith)
      (by
        rw [div_le_iff₀ (by norm_num)]
        have : (2 : ℚ) ^ 65 ≤ 3 * 2 ^ 1022 * 1000000000 := by norm_num
        linarith)
    refine ⟨v, ?_, ?_⟩
    · have h9 : (1000000000 : ℚ) ≠ 0 := by norm_num
      show F64.div (roundF64 (lamports : ℚ)) (F64.fin 1000000000) = F64.fin v
      rw [hr]
      simp only [F64.div, h9, if_false]
      exact hv
    · have hz : |r / 1000000000 - (lamports : ℚ) / 10 ^ 9| ≤
          (1 / 2 ^ 51) * ((lamports : ℚ) / 10 ^ 9) := by
        have e : r / 1000000000 - (lamports : ℚ) / 10 ^ 9 = (r - lamports) / 1000000000 := by
          norm_num
          ring
        rw [e, abs_div, abs_of_pos (by norm_num : (0 : ℚ) < 1000000000)]
        rw [div_le_iff₀ (by norm_num)]
        have e2 : (1 : ℚ) / 2 ^ 51 * ((lamports : ℚ) / 10 ^ 9) * 1000000000 =
            1 / 2 ^ 51 * lamports := by
          field_simp
          ring
        rw [e2]
        exact hnear
      have hz0 : 0 < (lamports : ℚ) / 10 ^ 9 := by positivity
      have := near_trans (by norm_num) hvnear hz
      exact near_weaken hz0 (by norm_num) this

/-- C16: a successful fetch of `lamports` (a `uint64`) with room in the result channel
publishes a sample whose balance is the finite `float64` of `lamports / 10 ^ 9`, within
a relative error of `2 ^ -49`, and whose flag is the comparison `balance >= minBalance`:
for a finite threshold it is true exactly if the threshold is at most the balance, so
also at equality. -/
theorem checkBalance_sample (m : Monitor) (lamports : ℕ) (now : ℤ) (hlam : lamports < 2 ^ 64)
    (hroom : m.resultChan.buf.length < m.resultChan.cap) :
    ∃ v : ℚ,
      m.checkBalance (Except.ok lamports) now =
        (none, { m with resultChan := { m.resultChan with buf := m.resultChan.buf ++
          [{ Balance := F64.fin v, Timestamp := now,
             MetTarget := F64.ge (F64.fin v) m.minBalance, Error := none }] } }) ∧
      F64.div (F64.ofNat lamports) (F64.ofNat LAMPORTS_PER_SOL) = F64.fin v ∧
      |v - (lamports : ℚ) / 10 ^ 9| ≤ (1 / 2 ^ 49) * ((lamports : ℚ) / 10 ^ 9) ∧
      (∀ t, m.minBalance = F64.fin t → (F64.ge (F64.fin v) m.minBalance = true ↔ t ≤ v)) ∧
      (m.minBalance = F64.fin v → F64.ge (F64.fin v) m.minBalance = true) := by
  obtain ⟨v, hv, hnear⟩ := solBalance_near lamports hlam
  refine ⟨v, ?_, hv, hnear, fun t ht => ?_, fun ht => ?_⟩
  · simp only [Monitor.checkBalance, Chan.trySend, hroom, if_true, hv]
  · rw [ht]
    simp [F64.ge, F64.le]
  · rw [ht]
    simp [F64.ge, F64.le]

/-- Against the threshold 1.0, a balance of 0.5 SOL does not meet the target, one of
1.2 SOL does, and one of exactly 1 SOL does. -/
theorem checkBalance_sample_witness :
    (∃ v : ℚ,
      (NewMonitor (F64.fin 1) 300000000000).checkBalance (Except.ok 500000000) 7 =
        (none, { NewMonitor (F64.fin 1) 300000000000 with
          resultChan := { (NewMonitor (F64.fin 1) 300000000000).resultChan with
            buf := (NewMonitor (F64.fin 1) 300000000000).resultChan.buf ++
              [{ Balance := F64.fin v, Timestamp := 7,
                 MetTarget := F64.ge (F64.fin v) (NewMonitor (F64.fin 1) 300000000000).minBalance,
                 Error := none }] } }) ∧
      F64.div (F64.ofNat 500000000) (F64.ofNat LAMPORTS_PER_SOL) = F64.fin v ∧
      |v - ((500000000 : ℕ) : ℚ) / 10 ^ 9| ≤ (1 / 2 ^ 49) * (((500000000 : ℕ) : ℚ) / 10 ^ 9) ∧
      (∀ t, (NewMonitor (F64.fin 1) 300000000000).minBalance = F64.fin t →
        (F64.ge (F64.fin v) (NewMonitor (F64.fin 1) 300000000000).minBalance = true ↔ t ≤ v)) ∧
      ((NewMonitor (F64.fin 1) 300000000000).minBalance = F64.fin v →
        F64.ge (F64.fin v) (NewMonitor (F64.fin 1) 300000000000).minBalance = true)) ∧
    ((NewMonitor (F64.fin 1) 300000000000).checkBalance (Except.ok 500000000) 7).2.resultChan.buf =
      [{ Balance := F64.fin (1 / 2), Timestamp := 7, MetTarget := false, Error := none }] ∧
    ((NewMonitor (F64.fin 1) 300000000000).checkBalance
        (Except.ok 1200000000) 7).2.resultChan.buf =
      [{ Balance := F64.fin (5404319552844595 / 4503599627370496), Timestamp := 7,
         MetTarget := true, Error := none }] ∧
    ((NewMonitor (F64.fin 1) 300000000000).checkBalance
        (Except.ok 1000000000) 7).2.resultChan.buf =
      [{ Balance := F64.fin 1, Timestamp := 7, MetTarget := true, Error := none }] :=
  ⟨checkBalance_sample (NewMonitor (F64.fin 1) 300000000000) 500000000 7 (by decide)
    (by decide), by decide!, by decide!, by decide!⟩

/-- C17: `checkBalance` returns without an error whatever the state of the one-slot result
channel: on a channel holding an unconsumed sample the new sample is dropped and the
monitor is left as it was, on an empty channel the new sample is stored. -/
theorem checkBalance_never_blocks (m : Monitor) (lamports : ℕ) (now : ℤ)
    (hcap : m.resultChan.cap = 1) :
    (∀ held, m.resultChan.buf = [held] →
      m.checkBalance (Except.ok lamports) now = (none, m)) ∧
    (m.resultChan.buf = [] →
      m.checkBalance (Except.ok lamports) now =
        (none, { m with resultChan :=
          { buf := [sampleOf lamports now m.minBalance], cap := 1 } })) := by
  obtain ⟨minBalance, checkInterval, ⟨buf, cap⟩⟩ := m
  simp only at hcap
  subst hcap
  constructor
  · intro held hb
    simp only at hb
    subst hb
    simp [Monitor.checkBalance, Chan.trySend]
  · intro hb
    simp only at hb
    subst hb
    simp [Monitor.checkBalance, Chan.trySend, sampleOf]

/-- A new monitor stores its first sample; a second check before the sample is consumed
leaves the monitor as it was. -/
theorem checkBalance_never_blocks_witness :
    (NewMonitor (F64.fin 1) 300000000000).checkBalance (Except.ok 500000000) 7 =
      (none, { NewMonitor (F64.fin 1) 300000000000 with
        resultChan := { buf := [sampleOf 500000000 7 (F64.fin 1)], cap := 1 } }) ∧
    ((NewMonitor (F64.fin 1) 300000000000).checkBalance (Except.ok 500000000) 7).2.checkBalance
        (Except.ok 1200000000) 8 =
      (none, ((NewMonitor (F64.fin 1) 300000000000).checkBalance (Except.ok 500000000) 7).2) :=
  ⟨(checkBalance_never_blocks (NewMonitor (F64.fin 1) 300000000000) 500000000 7 rfl).2 rfl,
   (checkBalance_never_blocks
      ((NewMonitor (F64.fin 1) 300000000000).checkBalance (Except.ok 500000000) 7).2
      1200000000 8 (by decide!)).1 (sampleOf 500000000 7 (F64.fin 1)) (by decide!)⟩

/-- C18, amended: when a second sample is published on the one-slot channel before the
first has been consumed, the second sample is dropped, and the consumer's next receive
observes the first sample and leaves the channel empty. -/
theorem checkBalance_keeps_first_sample (m : Monitor) (first second : ℕ) (now1 now2 : ℤ)
    (hcap : m.resultChan.cap = 1) (hempty : m.resultChan.buf = []) :
    ((m.checkBalance (Except.ok first) now1).2.checkBalance (Except.ok second) now2).2 =
      (m.checkBalance (Except.ok first) now1).2 ∧
    ((m.checkBalance (Except.ok first) now1).2.checkBalance
        (Except.ok second) now2).2.resultChan.recv =
      (some (sampleOf first now1 m.minBalance), { buf := [], cap := 1 }) := by
  obtain ⟨minBalance, checkInterval, ⟨buf, cap⟩⟩ := m
  simp only at hcap hempty
  subst hcap
  subst hempty
  simp [Monitor.checkBalance, Chan.trySend, Chan.recv, sampleOf]

/-- Two checks on a new monitor, of 0.5 SOL and then of 1.2 SOL, with no receive in
between: the receive yields the sample of 0.5 SOL. -/
theorem checkBalance_keeps_first_sample_witness :
    (((NewMonitor (F64.fin 1) 300000000000).checkBalance (Except.ok 500000000) 7).2.checkBalance
        (Except.ok 1200000000) 8).2.resultChan.recv =
      (some (sampleOf 500000000 7 (NewMonitor (F64.fin 1) 300000000000).minBalance),
        { buf := [], cap := 1 }) :=
  (checkBalance_keeps_first_sample (NewMonitor (F64.fin 1) 300000000000) 500000000 1200000000
    7 8 rfl rfl).2

/-- C18 fails as stated: after checks of 0.5 SOL at time 7 and of 1.2 SOL at time 8 on a
new monitor with no receive in between, the consumer receives the sample of 0.5 SOL taken
at time 7, not the second sample, and finds the channel empty afterwards. -/
theorem checkBalance_drops_first_counterexample :
    (((NewMonitor (F64.fin 1) 300000000000).checkBalance (Except.ok 500000000) 7).2.checkBalance
        (Except.ok 1200000000) 8).2.resultChan.recv =
      (some { Balance := F64.fin (1 / 2), Timestamp := 7, MetTarget := false, Error := none },
        { buf := [], cap := 1 }) ∧
    sampleOf 1200000000 8 (F64.fin 1) =
      { Balance := F64.fin (5404319552844595 / 4503599627370496), Timestamp := 8,
        MetTarget := true, Error := none } := by
  decide!

/-! ## Theorems: the dividend ledger -/

theorem lt_ne_nil {α : Type} [LT α] (l m : List α) (h : l < m) : m ≠ [] := by
  cases h <;> simp

theorem emptyString_le (s : String) : "" ≤ s := by
  rw [← not_lt]
  intro h
  rw [String.lt_iff_toList_lt] at h
  exact lt_ne_nil _ _ h rfl

theorem GoMap.mem_store {α : Type} (m : GoMap α) (k : String) (v : α) (p : String × α) :
    p ∈ m.store k v ↔ (p ∈ m ∧ p.1 ≠ k) ∨ p = (k, v) := by
  simp [GoMap.store, GoMap.delete, List.mem_filter]

/-- What one round of the loop does to the ledger: nothing, or it stores a transfer under
a key that was absent and moves the watermark to that key if it is greater. -/
theorem processSignature_cases (env : LedgerEnv) (dividendMint wallet sig : String)
    (cache cache1 : DividendCache) (w w1 : LedgerWorld)
    (h : processSignature env dividendMint wallet sig cache w = (Result.ok cache1, w1)) :
    cache1 = cache ∨
    (cache.Transactions.load sig = none ∧ ∃ transfer : DividendTransfer,
      cache1 = { cache with
        Transactions := cache.Transactions.store sig transfer,
        LastSignature :=
          if cache.LastSignature = "" ∨ cache.LastSignature < sig then sig
          else cache.LastSignature }) := by
  unfold processSignature at h
  split at h
  · left
    exact ((Result.ok.inj (Prod.mk.inj h).1)).symm
  · next hload =>
    have hnone : cache.Transactions.load sig = none := by
      cases hl : cache.Transactions.load sig with
      | none => rfl
      | some v => rw [hl] at hload; simp at hload
    have keep : ∀ {x : Result DividendCache × LedgerWorld}, x = (Result.ok cache1, w1) →
        x.1 = Result.ok cache → cache1 = cache := by
      intro x hx hx1
      rw [hx] at hx1
      exact Result.ok.inj hx1
    simp only [] at h
    split at h
    · exact Or.inl (keep h rfl)
    · exact Or.inl (keep h rfl)
    · split at h
      · exact Or.inl (keep h rfl)
      · split at h
        · exact Or.inl (keep h rfl)
        · split at h
          · exact absurd (Prod.mk.inj h).1 (by simp)
          · split at h
            · exact Or.inl (keep h rfl)
            · split at h
              · exact absurd (Prod.mk.inj h).1 (by simp)
              · exact Or.inr ⟨hnone, _, (Result.ok.inj (Prod.mk.inj h).1).symm⟩

theorem watermark_insert (cache : DividendCache) (sig : String) (transfer : DividendTransfer)
    (h : Watermark cache) :
    Watermark { cache with
      Transactions := cache.Transactions.store sig transfer,
      LastSignature :=
        if cache.LastSignature = "" ∨ cache.LastSignature < sig then sig
        else cache.LastSignature } := by
  obtain ⟨h1, h2, h3⟩ := h
  have hne : cache.Transactions.store sig transfer ≠ [] := by
    simp [GoMap.store]
  have hmem : (sig, transfer) ∈ cache.Transactions.store sig transfer :=
    (GoMap.mem_store _ _ _ _).2 (Or.inr rfl)
  by_cases hc : cache.LastSignature = "" ∨ cache.LastSignature < sig
  · simp only [if_pos hc]
    have hle : cache.LastSignature ≤ sig := by
      rcases hc with hc | hc
      · rw [hc]; exact emptyString_le sig
      · exact le_of_lt hc
    refine ⟨fun p hp => ?_, fun he => absurd he hne, fun _ => ⟨_, hmem, rfl⟩⟩
    rcases (GoMap.mem_store _ _ _ _).1 hp with ⟨hp1, _⟩ | hp1
    · exact le_trans (h1 p hp1) hle
    · rw [hp1]
  · simp only [if_neg hc]
    have hc1 : cache.LastSignature ≠ "" := fun e => hc (Or.inl e)
    have hc2 : sig ≤ cache.LastSignature := not_lt.mp (fun e => hc (Or.inr e))
    have hold : cache.Transactions ≠ [] := fun e => hc1 (h2 e)
    obtain ⟨q, hq, hqe⟩ := h3 hold
    refine ⟨fun p hp => ?_, fun he => absurd he hne, fun _ => ?_⟩
    · rcases (GoMap.mem_store _ _ _ _).1 hp with ⟨hp1, _⟩ | hp1
      · exact h1 p hp1
      · rw [hp1]; exact hc2
    · by_cases hs : q.1 = sig
      · exact ⟨_, hmem, hs.symm.trans hqe⟩
      · exact ⟨q, (GoMap.mem_store _ _ _ _).2 (Or.inl ⟨hq, hs⟩), hqe⟩

theorem processSignature_watermark (env : LedgerEnv) (dividendMint wallet sig : String)
    (cache cache1 : DividendCache) (w w1 : LedgerWorld) (hw : Watermark cache)
    (h : processSignature env dividendMint wallet sig cache w = (Result.ok cache1, w1)) :
    Watermark cache1 ∧
    ∀ k v, cache.Transactions.load k = some v → cache1.Transactions.load k = some v := by
  rcases processSignature_cases env dividendMint wallet sig cache cache1 w w1 h with
    h1 | ⟨hnone, transfer, h1⟩
  · rw [h1]
    exact ⟨hw, fun k v hk => hk⟩
  · rw [h1]
    refine ⟨watermark_insert cache sig transfer hw, fun k v hk => ?_⟩
    simp only [GoMap.load_store]
    have : k ≠ sig := by
      intro e
      rw [e, hnone] at hk
      exact absurd hk (by simp)
    rw [if_neg this]
    exact hk

theorem processSignatures_append (env : LedgerEnv) (dividendMint wallet : String)
    (done rest : List String) (cache cache1 : DividendCache) (w w1 : LedgerWorld)
    (h : processSignatures env dividendMint wallet done cache w = (Result.ok cache1, w1)) :
    processSignatures env dividendMint wallet (done ++ rest) cache w =
      processSignatures env dividendMint wallet rest cache1 w1 := by
  induction done generalizing cache w with
  | nil =>
    simp only [processSignatures] at h
    rw [← Result.ok.inj (Prod.mk.inj h).1, ← (Prod.mk.inj h).2]
    rfl
  | cons sig done ih =>
    simp only [List.cons_append, processSignatures] at h ⊢
    split at h
    · next c2 w2 hstep =>
      exact ih c2 w2 h
    · next r w2 hne hstep =>
      exact absurd (Prod.mk.inj h).1 (hne cache1)

/-- C19: if the watermark is the greatest key of the ledger before the loop (empty for an
empty ledger), then it is so after every round of the loop, hence after every insertion
and at the end: for every part `done` of the signatures that the loop gets through, the
ledger then holds all earlier entries unchanged, its watermark is its greatest key, and
the loop goes on from there over the remaining signatures. -/
theorem processSignatures_watermark (env : LedgerEnv) (dividendMint wallet : String)
    (done rest : List String) (cache cache1 : DividendCache) (w w1 : LedgerWorld)
    (hw : Watermark cache)
    (h : processSignatures env dividendMint wallet done cache w = (Result.ok cache1, w1)) :
    Watermark cache1 ∧
    (∀ k v, cache.Transactions.load k = some v → cache1.Transactions.load k = some v) ∧
    processSignatures env dividendMint wallet (done ++ rest) cache w =
      processSignatures env dividendMint wallet rest cache1 w1 := by
  have happ := processSignatures_append env dividendMint wallet done rest cache cache1 w w1 h
  have key : Watermark cache1 ∧
      (∀ k v, cache.Transactions.load k = some v → cache1.Transactions.load k = some v) := by
    clear happ
    induction done generalizing cache w with
    | nil =>
      simp only [processSignatures] at h
      rw [← Result.ok.inj (Prod.mk.inj h).1]
      exact ⟨hw, fun k v hk => hk⟩
    | cons sig done ih =>
      simp only [processSignatures] at h
      split at h
      · next c2 w2 hstep =>
        obtain ⟨hw2, hk2⟩ := processSignature_watermark env dividendMint wallet sig cache c2
          w w2 hw hstep
        obtain ⟨hw3, hk3⟩ := ih c2 w2 hw2 h
        exact ⟨hw3, fun k v hk => hk3 k v (hk2 k v hk)⟩
      · next r w2 hne hstep =>
        exact absurd (Prod.mk.inj h).1 (hne cache1)
  exact ⟨key.1, key.2, happ⟩

theorem processSignature_skipped (env : LedgerEnv) (dividendMint wallet sig : String)
    (cache : DividendCache) (w : LedgerWorld)
    (hnew : cache.Transactions.load sig = none)
    (h : Skipped (env.getTransaction w.log sig) dividendMint wallet) :
    processSignature env dividendMint wallet sig cache w =
      (Result.ok cache, { w with log := w.log ++ [LedgerEvent.getTransaction sig] }) := by
  unfold processSignature
  rw [hnew]
  unfold Skipped at h
  simp only [Option.isSome_none, Bool.false_eq_true, if_false]
  generalize env.getTransaction w.log sig = r at h ⊢
  match r, h with
  | Except.error _, _ => rfl
  | Except.ok none, _ => rfl
  | Except.ok (some tx), h =>
    simp only [] at h ⊢
    generalize hm : tx.Meta = meta at h ⊢
    match meta, h with
    | none, _ => rfl
    | some m, h =>
      simp only [] at h ⊢
      rcases h with h | h | ⟨amount, h1, h2⟩
      · rw [if_pos (Or.inl h)]
      · rw [if_pos (Or.inr h)]
      · split
        · rfl
        · rw [h1]
          simp only [h2, if_true]

theorem processSignature_qualifies (env : LedgerEnv) (dividendMint wallet sig : String)
    (cache : DividendCache) (w : LedgerWorld) (pre post : List ℕ) (amount : F64)
    (blockTime : ℤ) (hnew : cache.Transactions.load sig = none)
    (h : Qualifies (env.getTransaction w.log sig) dividendMint wallet pre post amount
      blockTime) :
    processSignature env dividendMint wallet sig cache w =
      (Result.ok
        { cache with
          Transactions := cache.Transactions.store sig
            { Signature := sig, Amount := amount, Timestamp := timeUnix blockTime,
              PreBalance := F64.div (F64.ofNat (pre.headD 0)) (F64.fin 1000000000),
              PostBalance := F64.div (F64.ofNat (post.headD 0)) (F64.fin 1000000000) },
          LastSignature :=
            if cache.LastSignature = "" ∨ cache.LastSignature < sig then sig
            else cache.LastSignature },
       { w with log := w.log ++ [LedgerEvent.getTransaction sig] }) := by
  obtain ⟨keys, hr, hpre, hpost, hamt, hle⟩ := h
  unfold processSignature
  rw [hnew, hr]
  have h1 : ¬ (sliceLen (some pre) = 0 ∨ sliceLen (some post) = 0) := by
    simp [sliceLen, hpre, hpost]
  simp only [Option.isSome_none, Bool.false_eq_true, if_false, h1, hamt, hle, sliceHead,
    Option.getD_some]

theorem skipped_not_qualifies (r : Except Err (Option GetTransactionResult))
    (dividendMint wallet : String) (pre post : List ℕ) (amount : F64) (blockTime : ℤ)
    (hs : Skipped r dividendMint wallet)
    (hq : Qualifies r dividendMint wallet pre post amount blockTime) : False := by
  obtain ⟨keys, hr, hpre, hpost, hamt, hle⟩ := hq
  rw [hr] at hs
  unfold Skipped at hs
  simp only [] at hs
  rcases hs with h | h | ⟨a, h1, h2⟩
  · exact hpre (List.length_eq_zero.mp h)
  · exact hpost (List.length_eq_zero.mp h)
  · rw [hamt] at h1
    rw [← Except.ok.inj h1, hle] at h2
    exact absurd h2 (by simp)

/-- C20, amended: a first run on an empty ledger over the signatures `A`, `B`, `C`, of
which only `B` is a qualifying transfer, fetches the three transactions and ends with the
ledger `{B}` and the watermark `B`, the only signature inserted, whatever `A`, `B` and
`C` are; the ledger is written to the cache file and the totals are those of the one
transfer. -/
theorem GetDividendHistory_first_run (env : LedgerEnv) (cfg : Config)
    (wallet A B C : String) (pre post : List ℕ) (amount : F64) (blockTime : ℤ)
    (hwallet : env.publicKeyFromBase58 wallet = none)
    (hconf : cfg.Token.DividendMint ≠ "")
    (hdiv : env.publicKeyFromBase58 cfg.Token.DividendMint = none)
    (hw8 : slicePanics wallet = false) (hd8 : slicePanics cfg.Token.DividendMint = false)
    (hmk : ∀ log, env.mkdirAll log = none)
    (hread : ∀ log path, env.readFails log path = none)
    (hwrite : ∀ log path, env.writeFails log path = none)
    (hsigs : ∀ log, env.getSignaturesForAddress log wallet = Except.ok [A, B, C])
    (hA : ∀ log, Skipped (env.getTransaction log A) cfg.Token.DividendMint wallet)
    (hB : ∀ log, Qualifies (env.getTransaction log B) cfg.Token.DividendMint wallet
      pre post amount blockTime)
    (hC : ∀ log, Skipped (env.getTransaction log C) cfg.Token.DividendMint wallet) :
    let transfer : DividendTransfer :=
      { Signature := B, Amount := amount, Timestamp := timeUnix blockTime,
        PreBalance := F64.div (F64.ofNat (pre.headD 0)) (F64.fin 1000000000),
        PostBalance := F64.div (F64.ofNat (post.headD 0)) (F64.fin 1000000000) }
    let fetched : List LedgerEvent :=
      [LedgerEvent.readFile (cacheFile wallet), LedgerEvent.getSignatures wallet,
       LedgerEvent.getTransaction A, LedgerEvent.getTransaction B,
       LedgerEvent.getTransaction C]
    let cache : DividendCache :=
      { LastUpdate := env.now fetched, LastSignature := B, Transactions := [(B, transfer)] }
    GetDividendHistory env cfg wallet { files := [], log := [] } =
      (Result.ok (totals
          (env.rangeOrder (fetched ++ [LedgerEvent.writeFile (cacheFile wallet) cache]))
          (env.now (fetched ++ [LedgerEvent.writeFile (cacheFile wallet) cache]))
          [(B, transfer)]),
       { files := [(cacheFile wallet, cache)],
         log := fetched ++ [LedgerEvent.writeFile (cacheFile wallet) cache] }) := by
  intro transfer fetched cache
  have hCB : C ≠ B := fun e =>
    skipped_not_qualifies _ _ _ _ _ _ _ (hC []) (e ▸ hB [])
  have hl : loadDividendCache env wallet { files := [], log := [] } =
      (Result.ok { LastUpdate := zeroTime, LastSignature := "", Transactions := [] },
       { files := [], log := [LedgerEvent.readFile (cacheFile wallet)] }) := by
    simp [loadDividendCache, hmk, hw8, hread, GoMap.load]
  have h1 : processSignature env cfg.Token.DividendMint wallet A
      { LastUpdate := zeroTime, LastSignature := "", Transactions := [] }
      { files := [], log := [LedgerEvent.readFile (cacheFile wallet),
        LedgerEvent.getSignatures wallet] } =
      (Result.ok { LastUpdate := zeroTime, LastSignature := "", Transactions := [] },
       { files := [], log := [LedgerEvent.readFile (cacheFile wallet),
        LedgerEvent.getSignatures wallet, LedgerEvent.getTransaction A] }) :=
    processSignature_skipped env cfg.Token.DividendMint wallet A _ _ rfl (hA _)
  have h2 : processSignature env cfg.Token.DividendMint wallet B
      { LastUpdate := zeroTime, LastSignature := "", Transactions := [] }
      { files := [], log := [LedgerEvent.readFile (cacheFile wallet),
        LedgerEvent.getSignatures wallet, LedgerEvent.getTransaction A] } =
      (Result.ok { LastUpdate := zeroTime, LastSignature := B, Transactions := [(B, transfer)] },
       { files := [], log := [LedgerEvent.readFile (cacheFile wallet),
        LedgerEvent.getSignatures wallet, LedgerEvent.getTransaction A,
        LedgerEvent.getTransaction B] }) := by
    rw [processSignature_qualifies env cfg.Token.DividendMint wallet B
      { LastUpdate := zeroTime, LastSignature := "", Transactions := [] } _
      pre post amount blockTime rfl (hB _)]
    simp [GoMap.store, GoMap.delete, transfer]
  have h3 : processSignature env cfg.Token.DividendMint wallet C
      { LastUpdate := zeroTime, LastSignature := B, Transactions := [(B, transfer)] }
      { files := [], log := [LedgerEvent.readFile (cacheFile wallet),
        LedgerEvent.getSignatures wallet, LedgerEvent.getTransaction A,
        LedgerEvent.getTransaction B] } =
      (Result.ok { LastUpdate := zeroTime, LastSignature := B, Transactions := [(B, transfer)] },
       { files := [], log := fetched }) :=
    processSignature_skipped env cfg.Token.DividendMint wallet C _ _
      (by simp [GoMap.load, hCB.symm]) (hC _)
  have hp : processSignatures env cfg.Token.DividendMint wallet [A, B, C]
      { LastUpdate := zeroTime, LastSignature := "", Transactions := [] }
      { files := [], log := [LedgerEvent.readFile (cacheFile wallet),
        LedgerEvent.getSignatures wallet] } =
      (Result.ok { LastUpdate := zeroTime, LastSignature := B, Transactions := [(B, transfer)] },
       { files := [], log := fetched }) := by
    simp only [processSignatures, h1, h2, h3]
  unfold GetDividendHistory
  simp only [hwallet, hconf, hdiv, hw8, hd8, hl, hsigs, newSignatures, if_false,
    Bool.or_self, Bool.false_eq_true, ne_eq, not_true_eq_false, false_and,
    List.nil_append, List.singleton_append]
  rw [hp]
  simp only [saveDividendCache, hwrite, GoMap.store, GoMap.delete, List.filter_nil,
    List.nil_append]

/-- The first run of the example ledger: `sigA` and `sigC` are passed over, `sigB` is
recorded as a transfer of 1 SOL and becomes the watermark. -/
theorem GetDividendHistory_first_run_witness :
    GetDividendHistory demoLedgerEnv demoLedgerConfig walletKey { files := [], log := [] } =
      (Result.ok
        { TotalAmount := F64.fin 1, LastReceived := 1700000000000000000, TransferCount := 1,
          USDValue := F64.fin 0, Last24hAmount := F64.fin 1, Last7dAmount := F64.fin 1,
          Last30dAmount := F64.fin 1 },
       { files := [(cacheFile walletKey, demoLedgerCache)],
         log := [LedgerEvent.readFile (cacheFile walletKey), LedgerEvent.getSignatures walletKey,
           LedgerEvent.getTransaction sigA, LedgerEvent.getTransaction sigB,
           LedgerEvent.getTransaction sigC,
           LedgerEvent.writeFile (cacheFile walletKey) demoLedgerCache] }) :=
  (GetDividendHistory_first_run demoLedgerEnv demoLedgerConfig walletKey sigA sigB sigC
    [5000000000, 1000000000] [3500000000, 2000000000] (F64.fin 1) 1700000000
    (by decide!) (by decide!) (by decide!) (by decide!) (by decide!)
    (fun _ => rfl) (fun _ _ => rfl) (fun _ _ => rfl) (fun _ => rfl)
    (fun _ => Or.inr (Or.inr ⟨F64.fin 0, by decide!, by decide!⟩))
    (fun _ => ⟨Except.ok [dividendKey, walletKey], rfl, by decide!, by decide!,
      by decide!, by decide!⟩)
    (fun _ => True.intro)).trans (by decide!)

/-- C20 fails as stated: in the example ledger the first run over `sigA`, `sigB`, `sigC`
ends with the transactions `{sigB}` and the watermark `sigB`, although `sigA`, which was
seen and passed over, is the greatest of the three. -/
theorem GetDividendHistory_watermark_counterexample :
    (GetDividendHistory demoLedgerEnv demoLedgerConfig walletKey
        { files := [], log := [] }).2.files =
      [(cacheFile walletKey,
        { LastUpdate := 1700001000000000000, LastSignature := sigB,
          Transactions := [(sigB, demoTransfer)] })] ∧
    sigB < sigA ∧ sigC < sigA := by
  decide!

/-- The loop of the example ledger, started from the empty ledger, gets through `sigA` and
`sigB` with `sigB` as the watermark and the greatest key, and goes on to `sigC` from
there. -/
theorem processSignatures_watermark_witness :
    Watermark demoLedgerCache ∧
    (∀ k v, GoMap.load ([] : GoMap DividendTransfer) k = some v →
      demoLedgerCache.Transactions.load k = some v) ∧
    processSignatures demoLedgerEnv dividendKey walletKey ([sigA, sigB] ++ [sigC])
        { LastUpdate := 1700001000000000000, LastSignature := "", Transactions := [] }
        { files := [], log := [] } =
      processSignatures demoLedgerEnv dividendKey walletKey [sigC] demoLedgerCache
        { files := [], log := [LedgerEvent.getTransaction sigA,
            LedgerEvent.getTransaction sigB] } :=
  processSignatures_watermark demoLedgerEnv dividendKey walletKey [sigA, sigB] [sigC]
    { LastUpdate := 1700001000000000000, LastSignature := "", Transactions := [] }
    demoLedgerCache { files := [], log := [] }
    { files := [], log := [LedgerEvent.getTransaction sigA, LedgerEvent.getTransaction sigB] }
    (by decide!) (by decide!)

/-! ## Theorems: the enrichment -/

theorem parseTransferFee_ok_tag (data : Bytes) (h : (parseTransferFee data).isOk = true) :
    98 ≤ data.len ∧ leValue (data.range 82 84) = 1 := by
  by_cases hl : data.len < MintAccountSize + 16
  · unfold parseTransferFee at h
    rw [if_pos hl] at h
    exact absurd h (by simp [Result.isOk])
  · have hl1 : 98 ≤ data.len := by simp only [MintAccountSize] at hl; omega
    refine ⟨hl1, ?_⟩
    by_contra ht
    rw [parseTransferFee_of_len data hl1, if_pos ht] at h
    exact absurd h (by simp [Result.isOk])

theorem parseInterestRate_ok_tag (data : Bytes) (h : (parseInterestRate data).isOk = true) :
    106 ≤ data.len ∧ leValue (data.range 82 84) = 2 := by
  by_cases hl : data.len < MintAccountSize + 24
  · unfold parseInterestRate at h
    rw [if_pos hl] at h
    exact absurd h (by simp [Result.isOk])
  · have hl1 : 106 ≤ data.len := by simp only [MintAccountSize] at hl; omega
    refine ⟨hl1, ?_⟩
    by_contra ht
    rw [parseInterestRate_of_len data hl1, if_pos ht] at h
    exact absurd h (by simp [Result.isOk])

theorem parsePermanentDelegate_ok_tag (data : Bytes)
    (h : (parsePermanentDelegate data).isOk = true) :
    116 ≤ data.len ∧ leValue (data.range 82 84) = 3 := by
  by_cases hl : data.len < MintAccountSize + 34
  · unfold parsePermanentDelegate at h
    rw [if_pos hl] at h
    exact absurd h (by simp [Result.isOk])
  · have hl1 : 116 ≤ data.len := by simp only [MintAccountSize] at hl; omega
    refine ⟨hl1, ?_⟩
    by_contra ht
    rw [parsePermanentDelegate_of_len data hl1, if_pos ht] at h
    exact absurd h (by simp [Result.isOk])

/-- The interest rate and permanent delegate parsers never panic. -/
theorem parseInterestRate_no_panic (data : Bytes) (p : Panic) :
    parseInterestRate data ≠ Result.panic p := by
  by_cases hl : data.len < MintAccountSize + 24
  · unfold parseInterestRate
    rw [if_pos hl]
    simp
  · rw [parseInterestRate_of_len data (by simp only [MintAccountSize] at hl; omega)]
    split <;> simp

theorem parsePermanentDelegate_no_panic (data : Bytes) (p : Panic) :
    parsePermanentDelegate data ≠ Result.panic p := by
  by_cases hl : data.len < MintAccountSize + 34
  · unfold parsePermanentDelegate
    rw [if_pos hl]
    simp
  · rw [parsePermanentDelegate_of_len data (by simp only [MintAccountSize] at hl; omega)]
    split <;> simp

/-- What an enrichment that returns has done to the three extension fields and to the
map: each block either leaves the state as it was or stores its value and its key. -/
theorem enrich_steps (data : Bytes) (info info1 : TokenInfo) (extensions : GoMap Bool)
    (key : Option Err)
    (h : enrichWithToken2022Data key (Except.ok (some data)) info =
      Result.ok (info1, extensions)) :
    ∃ st1 st2 st3 : TokenInfo × GoMap Bool,
      (st1 = (info, []) ∨ ((parseTransferFee data).isOk = true ∧
        ∃ v, st1 = ({ info with TransferFee := some v }, [("transfer_fee", true)]))) ∧
      (st2 = st1 ∨ ((parseInterestRate data).isOk = true ∧
        ∃ v, st2 = ({ st1.1 with InterestRate := some v },
          st1.2.store "interest_rate" true))) ∧
      (st3 = st2 ∨ ((parsePermanentDelegate data).isOk = true ∧
        ∃ v, st3 = ({ st2.1 with PermanentDelegate := some v },
          st2.2.store "permanent_delegate" true))) ∧
      enrichAuthorities data st3 = Result.ok (info1, extensions) := by
  unfold enrichWithToken2022Data at h
  cases key with
  | some e => simp at h
  | none =>
    simp only [] at h
    cases h1 : enrichTransferFee data (info, []) with
    | err e => rw [h1] at h; simp at h
    | panic p => rw [h1] at h; simp at h
    | ok st1 =>
      rw [h1] at h
      simp only [] at h
      cases h2 : enrichInterestRate data st1 with
      | err e => rw [h2] at h; simp at h
      | panic p => rw [h2] at h; simp at h
      | ok st2 =>
        rw [h2] at h
        simp only [] at h
        cases h3 : enrichPermanentDelegate data st2 with
        | err e => rw [h3] at h; simp at h
        | panic p => rw [h3] at h; simp at h
        | ok st3 =>
          rw [h3] at h
          simp only [] at h
          refine ⟨st1, st2, st3, ?_, ?_, ?_, h⟩
          · unfold enrichTransferFee at h1
            cases hp : parseTransferFee data with
            | ok v =>
              rw [hp] at h1
              exact Or.inr ⟨rfl, v, (Result.ok.inj h1).symm⟩
            | err e =>
              rw [hp] at h1
              exact Or.inl (Result.ok.inj h1).symm
            | panic p => rw [hp] at h1; simp at h1
          · unfold enrichInterestRate at h2
            cases hp : parseInterestRate data with
            | ok v =>
              rw [hp] at h2
              exact Or.inr ⟨rfl, v, (Result.ok.inj h2).symm⟩
            | err e =>
              rw [hp] at h2
              exact Or.inl (Result.ok.inj h2).symm
            | panic p => rw [hp] at h2; simp at h2
          · unfold enrichPermanentDelegate at h3
            cases hp : parsePermanentDelegate data with
            | ok v =>
              rw [hp] at h3
              exact Or.inr ⟨rfl, v, (Result.ok.inj h3).symm⟩
            | err e =>
              rw [hp] at h3
              exact Or.inl (Result.ok.inj h3).symm
            | panic p => rw [hp] at h3; simp at h3

/-- The block of the authorities leaves the three extension fields and the three
extension keys as they are. -/
theorem enrichAuthorities_frame (data : Bytes) (st st1 : TokenInfo × GoMap Bool)
    (h : enrichAuthorities data st = Result.ok st1) :
    st1.1.TransferFee = st.1.TransferFee ∧ st1.1.InterestRate = st.1.InterestRate ∧
    st1.1.PermanentDelegate = st.1.PermanentDelegate ∧
    st1.2.filter (fun p => p.1 ∈ extensionKeys) =
      st.2.filter (fun p => p.1 ∈ extensionKeys) := by
  have hf : ∀ (m : GoMap Bool) (k : String), k ∉ extensionKeys →
      (m.store k true).filter (fun p => p.1 ∈ extensionKeys) =
        m.filter (fun p => p.1 ∈ extensionKeys) := by
    intro m k hk
    simp only [GoMap.store, GoMap.delete, List.filter_append, List.filter_filter]
    have e1 : List.filter (fun p : String × Bool => decide (p.1 ∈ extensionKeys)) [(k, true)]
        = [] := by
      simp [hk]
    rw [e1, List.append_nil]
    apply List.filter_congr
    intro p _
    by_cases hp : p.1 ∈ extensionKeys
    · have : p.1 ≠ k := fun e => hk (e ▸ hp)
      simp [hp, this]
    · simp [hp]
  unfold enrichAuthorities at h
  cases hp : parseAuthorities data with
  | panic p => rw [hp] at h; simp at h
  | err e =>
    rw [hp] at h
    rw [← Result.ok.inj h]
    exact ⟨rfl, rfl, rfl, rfl⟩
  | ok auth =>
    rw [hp] at h
    simp only [] at h
    have r1 : ∀ s : TokenInfo × GoMap Bool,
        (if auth.FreezeAuthority ≠ "" then
          (({ s.1 with FreezeAuthority := some auth.FreezeAuthority },
            s.2.store "freeze_authority" true) : TokenInfo × GoMap Bool)
        else s).1.TransferFee = s.1.TransferFee ∧
        (if auth.FreezeAuthority ≠ "" then
          (({ s.1 with FreezeAuthority := some auth.FreezeAuthority },
            s.2.store "freeze_authority" true) : TokenInfo × GoMap Bool)
        else s).1.InterestRate = s.1.InterestRate ∧
        (if auth.FreezeAuthority ≠ "" then
          (({ s.1 with FreezeAuthority := some auth.FreezeAuthority },
            s.2.store "freeze_authority" true) : TokenInfo × GoMap Bool)
        else s).1.PermanentDelegate = s.1.PermanentDelegate ∧
        (if auth.FreezeAuthority ≠ "" then
          (({ s.1 with FreezeAuthority := some auth.FreezeAuthority },
            s.2.store "freeze_authority" true) : TokenInfo × GoMap Bool)
        else s).2.filter (fun p => p.1 ∈ extensionKeys) =
          s.2.filter (fun p => p.1 ∈ extensionKeys) := by
      intro s
      split
      · exact ⟨rfl, rfl, rfl, hf _ _ (by decide)⟩
      · exact ⟨rfl, rfl, rfl, rfl⟩
    have r2 : ∀ s : TokenInfo × GoMap Bool,
        (if auth.MintAuthority ≠ "" then
          (({ s.1 with MintAuthority := some auth.MintAuthority },
            s.2.store "mint_authority" true) : TokenInfo × GoMap Bool)
        else s).1.TransferFee = s.1.TransferFee ∧
        (if auth.MintAuthority ≠ "" then
          (({ s.1 with MintAuthority := some auth.MintAuthority },
            s.2.store "mint_authority" true) : TokenInfo × GoMap Bool)
        else s).1.InterestRate = s.1.InterestRate ∧
        (if auth.MintAuthority ≠ "" then
          (({ s.1 with MintAuthority := some auth.MintAuthority },
            s.2.store "mint_authority" true) : TokenInfo × GoMap Bool)
        else s).1.PermanentDelegate = s.1.PermanentDelegate ∧
        (if auth.MintAuthority ≠ "" then
          (({ s.1 with MintAuthority := some auth.MintAuthority },
            s.2.store "mint_authority" true) : TokenInfo × GoMap Bool)
        else s).2.filter (fun p => p.1 ∈ extensionKeys) =
          s.2.filter (fun p => p.1 ∈ extensionKeys) := by
      intro s
      split
      · exact ⟨rfl, rfl, rfl, hf _ _ (by decide)⟩
      · exact ⟨rfl, rfl, rfl, rfl⟩
    rw [← Result.ok.inj h]
    obtain ⟨a1, a2, a3, a4⟩ := r1 st
    obtain ⟨b1, b2, b3, b4⟩ := r2 (if auth.FreezeAuthority ≠ "" then
          (({ st.1 with FreezeAuthority := some auth.FreezeAuthority },
            st.2.store "freeze_authority" true) : TokenInfo × GoMap Bool)
        else st)
    exact ⟨b1.trans a1, b2.trans a2, b3.trans a3, b4.trans a4⟩

/-- C27: for every account buffer at most one of `parseTransferFee`, `parseInterestRate`
and `parsePermanentDelegate` returns a value, since a value needs the tag at bytes 82 and
83 to be 1, 2 and 3; so an enrichment that returns has changed at most one of the fields
`TransferFee`, `InterestRate`, `PermanentDelegate` and its `Extensions` map holds at most
one of the three keys. -/
theorem parsers_exclusive (data : Bytes) :
    ¬ ((parseTransferFee data).isOk = true ∧ (parseInterestRate data).isOk = true) ∧
    ¬ ((parseTransferFee data).isOk = true ∧ (parsePermanentDelegate data).isOk = true) ∧
    ¬ ((parseInterestRate data).isOk = true ∧ (parsePermanentDelegate data).isOk = true) ∧
    ∀ key info info1 extensions,
      enrichWithToken2022Data key (Except.ok (some data)) info =
        Result.ok (info1, extensions) →
      ((info1.TransferFee = info.TransferFee ∧ info1.InterestRate = info.InterestRate) ∨
       (info1.TransferFee = info.TransferFee ∧
         info1.PermanentDelegate = info.PermanentDelegate) ∨
       (info1.InterestRate = info.InterestRate ∧
         info1.PermanentDelegate = info.PermanentDelegate)) ∧
      (extensions.filter (fun p => p.1 ∈ extensionKeys)).length ≤ 1 := by
  have e12 : ¬ ((parseTransferFee data).isOk = true ∧ (parseInterestRate data).isOk = true) :=
    fun h => by
      have h1 := (parseTransferFee_ok_tag data h.1).2
      have h2 := (parseInterestRate_ok_tag data h.2).2
      omega
  have e13 : ¬ ((parseTransferFee data).isOk = true ∧
      (parsePermanentDelegate data).isOk = true) :=
    fun h => by
      have h1 := (parseTransferFee_ok_tag data h.1).2
      have h2 := (parsePermanentDelegate_ok_tag data h.2).2
      omega
  have e23 : ¬ ((parseInterestRate data).isOk = true ∧
      (parsePermanentDelegate data).isOk = true) :=
    fun h => by
      have h1 := (parseInterestRate_ok_tag data h.1).2
      have h2 := (parsePermanentDelegate_ok_tag data h.2).2
      omega
  refine ⟨e12, e13, e23, ?_⟩
  intro key info info1 extensions h
  obtain ⟨st1, st2, st3, h1, h2, h3, h4⟩ := enrich_steps data info info1 extensions key h
  obtain ⟨f1, f2, f3, f4⟩ := enrichAuthorities_frame data st3 (info1, extensions) h4
  simp only [] at f1 f2 f3 f4
  rw [f1, f2, f3, f4]
  rcases h1 with h1 | ⟨o1, v1, h1⟩ <;> rcases h2 with h2 | ⟨o2, v2, h2⟩ <;>
    rcases h3 with h3 | ⟨o3, v3, h3⟩
  · subst h3; subst h2; subst h1
    simp
  · subst h3; subst h2; subst h1
    simp [GoMap.store, GoMap.delete, extensionKeys]
  · subst h3; subst h2; subst h1
    simp [GoMap.store, GoMap.delete, extensionKeys]
  · exact absurd ⟨o2, o3⟩ e23
  · subst h3; subst h2; subst h1
    simp [GoMap.store, GoMap.delete, extensionKeys]
  · exact absurd ⟨o1, o3⟩ e13
  · exact absurd ⟨o1, o2⟩ e12
  · exact absurd ⟨o1, o2⟩ e12

/-- The transfer fee account is enriched with its transfer fee and with neither of the
other two extensions; its map holds the one key `transfer_fee` of the three. -/
theorem parsers_exclusive_witness :
    enrichWithToken2022Data none (Except.ok (some demoTransferFeeAccount))
      (demoLowImpact.token solMint) = Result.ok demoEnriched ∧
    (((demoEnriched.1.TransferFee = (demoLowImpact.token solMint).TransferFee ∧
        demoEnriched.1.InterestRate = (demoLowImpact.token solMint).InterestRate) ∨
      (demoEnriched.1.TransferFee = (demoLowImpact.token solMint).TransferFee ∧
        demoEnriched.1.PermanentDelegate = (demoLowImpact.token solMint).PermanentDelegate) ∨
      (demoEnriched.1.InterestRate = (demoLowImpact.token solMint).InterestRate ∧
        demoEnriched.1.PermanentDelegate =
          (demoLowImpact.token solMint).PermanentDelegate)) ∧
      (demoEnriched.2.filter (fun p => p.1 ∈ extensionKeys)).length ≤ 1) :=
  ⟨by decide!,
   (parsers_exclusive demoTransferFeeAccount).2.2.2 none (demoLowImpact.token solMint)
     demoEnriched.1 demoEnriched.2 (by decide!)⟩

theorem base58Digits_length (fuel n : ℕ) (acc : List Char) :
    acc.length ≤ (base58Digits fuel n acc).length := by
  induction fuel generalizing n acc with
  | zero => simp [base58Digits]
  | succ fuel ih =>
    unfold base58Digits
    split
    · exact le_refl _
    · exact le_trans (by simp) (ih _ _)

theorem bytesToNat_pos (b : Byte) (rest : List Byte) (hb : b ≠ 0) :
    0 < bytesToNat (b :: rest) := by
  have hmono : ∀ (l : List Byte) (acc : ℕ),
      acc ≤ l.foldl (fun acc b => acc * 256 + b.val) acc := by
    intro l
    induction l with
    | nil => intro acc; exact le_refl _
    | cons x xs ih =>
      intro acc
      simp only [List.foldl_cons]
      exact le_trans (by omega) (ih _)
  have hb1 : 0 < b.val := Nat.pos_of_ne_zero (fun e => hb (Fin.ext e))
  unfold bytesToNat
  simp only [List.foldl_cons]
  exact lt_of_lt_of_le (by omega) (hmono rest _)

/-- The base58 text of a non-empty byte string is not empty. -/
theorem base58Encode_ne_empty (bs : List Byte) (h : bs ≠ []) : base58Encode bs ≠ "" := by
  intro e
  have e1 := congrArg String.data e
  unfold base58Encode at e1
  simp only [List.append_eq_nil, List.replicate_eq_nil_iff] at e1
  obtain ⟨e2, e3⟩ := e1
  match bs, h with
  | b :: rest, _ =>
    by_cases hb : b = 0
    · simp [hb, List.takeWhile] at e2
    · have hpos := bytesToNat_pos b rest hb
      have hl := base58Digits_length (2 * rest.length + 1) (bytesToNat (b :: rest) / 58)
        [base58Alphabet.getD (bytesToNat (b :: rest) % 58) '1']
      have : base58Digits (2 * (b :: rest).length) (bytesToNat (b :: rest)) [] =
          base58Digits (2 * rest.length + 1) (bytesToNat (b :: rest) / 58)
            [base58Alphabet.getD (bytesToNat (b :: rest) % 58) '1'] := by
        have e4 : 2 * (b :: rest).length = (2 * rest.length + 1) + 1 := by
          simp only [List.length_cons]; omega
        rw [e4]
        conv_lhs => unfold base58Digits
        rw [if_neg (by omega)]
      rw [this] at e3
      rw [e3] at hl
      simp at hl

theorem range_length (data : Bytes) (lo hi : ℕ) (h : hi ≤ data.len) (hlo : lo ≤ hi) :
    (data.range lo hi).length = hi - lo := by
  have : hi ≤ data.data.length := h
  simp only [Bytes.range, List.length_take, List.length_drop]
  omega

theorem parseTransferFee_no_panic (data : Bytes) (p : Panic)
    (h : ¬ (98 ≤ data.len ∧ data.len < 126 ∧ leValue (data.range 82 84) = 1 ∧
      data.cap < 126)) :
    parseTransferFee data ≠ Result.panic p := by
  by_cases hl : data.len < MintAccountSize + 16
  · unfold parseTransferFee
    rw [if_pos hl]
    simp
  · have hl1 : 98 ≤ data.len := by simp only [MintAccountSize] at hl; omega
    rw [parseTransferFee_of_len data hl1]
    split
    · simp
    · next ht =>
      have ht1 : leValue (data.range 82 84) = 1 := by
        by_contra hne
        exact ht hne
      have hcap : 126 ≤ data.cap := by
        by_contra hc
        have hlen : data.len ≤ data.cap := by simp [Bytes.len, Bytes.cap]
        exact h ⟨hl1, by omega, ht1, by omega⟩
      have hl2 : 98 ≤ data.data.length := hl1
      have hc2 : 126 ≤ data.data.length + data.spare.length := hcap
      have : (44 ≤ (Bytes.mk (data.data.drop 82) data.spare).cap ∧ 12 ≤ 44) := by
        simp only [Bytes.cap, List.length_drop]; omega
      simp only [Bytes.slice, if_pos this, Except.map, Result.ofPanic]
      simp

/-- From 82 bytes on the enrichment returns a value unless `parseTransferFee` panics. -/
theorem enrich_returns (data : Bytes) (info : TokenInfo) (hlen : 82 ≤ data.len)
    (h : ¬ (98 ≤ data.len ∧ data.len < 126 ∧ leValue (data.range 82 84) = 1 ∧
      data.cap < 126)) :
    ∃ st, enrichWithToken2022Data none (Except.ok (some data)) info = Result.ok st := by
  have n1 := fun p => parseTransferFee_no_panic data p h
  have n2 := parseInterestRate_no_panic data
  have n3 := parsePermanentDelegate_no_panic data
  have h4 := parseAuthorities_of_len data hlen
  unfold enrichWithToken2022Data enrichTransferFee enrichInterestRate
    enrichPermanentDelegate enrichAuthorities
  simp only [h4]
  cases h1 : parseTransferFee data with
  | panic p => exact absurd h1 (n1 p)
  | _ =>
    cases h2 : parseInterestRate data with
    | panic p => exact absurd h2 (n2 p)
    | _ =>
      cases h3 : parsePermanentDelegate data with
      | panic p => exact absurd h3 (n3 p)
      | _ => exact ⟨_, rfl⟩

/-- C30 holds whenever the enrichment returns, and fails where `parseTransferFee` panics:
for a buffer of at least 82 bytes the texts of bytes 0..31 and 36..67 are never empty, an
enrichment that returns has set both authorities to these texts and both keys in the map,
and the enrichment returns unless the buffer has 98 to 125 bytes, tag 1 and a capacity
below 126, where it panics before it reaches the authorities. -/
theorem enrich_marks_authorities (data : Bytes) (info : TokenInfo) (hlen : 82 ≤ data.len) :
    base58Encode (data.range 0 32) ≠ "" ∧ base58Encode (data.range 36 68) ≠ "" ∧
    (∀ info1 extensions,
      enrichWithToken2022Data none (Except.ok (some data)) info =
        Result.ok (info1, extensions) →
      info1.MintAuthority = some (base58Encode (data.range 0 32)) ∧
      info1.FreezeAuthority = some (base58Encode (data.range 36 68)) ∧
      extensions.load "mint_authority" = some true ∧
      extensions.load "freeze_authority" = some true) ∧
    (¬ (98 ≤ data.len ∧ data.len < 126 ∧ leValue (data.range 82 84) = 1 ∧ data.cap < 126) →
      ∃ st, enrichWithToken2022Data none (Except.ok (some data)) info = Result.ok st) ∧
    (98 ≤ data.len → data.len < 126 → leValue (data.range 82 84) = 1 → data.cap < 126 →
      enrichWithToken2022Data none (Except.ok (some data)) info =
        Result.panic Panic.sliceBounds) := by
  have hm : base58Encode (data.range 0 32) ≠ "" := by
    apply base58Encode_ne_empty
    intro e
    have := range_length data 0 32 (by omega) (by omega)
    rw [e] at this
    simp at this
  have hf : base58Encode (data.range 36 68) ≠ "" := by
    apply base58Encode_ne_empty
    intro e
    have := range_length data 36 68 (by omega) (by omega)
    rw [e] at this
    simp at this
  refine ⟨hm, hf, ?_, enrich_returns data info hlen, ?_⟩
  · intro info1 extensions h
    obtain ⟨st1, st2, st3, _, _, _, h4⟩ := enrich_steps data info info1 extensions none h
    unfold enrichAuthorities at h4
    rw [parseAuthorities_of_len data hlen] at h4
    simp only [PublicKey.String] at h4
    rw [if_pos hf, if_pos hm] at h4
    have e := Result.ok.inj h4
    have e1 := (Prod.mk.inj e).1
    have e2 := (Prod.mk.inj e).2
    rw [← e1, ← e2]
    refine ⟨rfl, rfl, ?_, ?_⟩
    · rw [GoMap.load_store, if_pos rfl]
    · rw [GoMap.load_store, if_neg (by decide), GoMap.load_store, if_pos rfl]
  · intro h1 h2 h3 h4
    have hp : parseTransferFee data = Result.panic Panic.sliceBounds := by
      have hl : 98 ≤ data.data.length := h1
      have hh : data.data.length < 126 := h2
      have hc1 : data.data.length + data.spare.length < 126 := h4
      rw [parseTransferFee_of_len data h1, if_neg (by simp [h3])]
      have : ¬ (44 ≤ (Bytes.mk (data.data.drop 82) data.spare).cap ∧ 12 ≤ 44) := by
        simp only [Bytes.cap, List.length_drop]; omega
      simp only [Bytes.slice, if_neg this]
      rfl
    unfold enrichWithToken2022Data enrichTransferFee
    simp only [hp]

/-- The account of 82 zero bytes is enriched with both authorities, the text of 32 zero
bytes, although a zero authority stands for none; the 98-byte account with tag 1 makes
the enrichment panic. -/
theorem enrich_marks_authorities_witness :
    enrichWithToken2022Data none (Except.ok (some { data := List.replicate 82 0, spare := [] }))
        (demoLowImpact.token solMint) =
      Result.ok
        ({ demoLowImpact.token solMint with
            FreezeAuthority := some "11111111111111111111111111111111",
            MintAuthority := some "11111111111111111111111111111111" },
         [("freeze_authority", true), ("mint_authority", true)]) ∧
    enrichWithToken2022Data none (Except.ok (some demoShortTransferFeeAccount))
        (demoLowImpact.token solMint) = Result.panic Panic.sliceBounds :=
  ⟨by decide!,
   (enrich_marks_authorities demoShortTransferFeeAccount (demoLowImpact.token solMint)
     (by decide!)).2.2.2.2 (by decide!) (by decide!) (by decide!) (by decide!)⟩

/-! ## Theorems: the transfer amount -/

theorem senders_eq (pre post : List ℕ) (i : ℕ) (dividendAddress : String)
    (all : List String) :
    getTransferAmount.senders pre post i dividendAddress all =
      if dividendAddress ∈ all then
        match pre.get? i, post.get? i with
        | some a, some b =>
          if F64.gt (solOf b) (solOf a) then Except.ok (some (F64.sub (solOf b) (solOf a)))
          else Except.ok none
        | _, _ => Except.error Panic.indexOutOfRange
      else Except.ok none := by
  induction all with
  | nil => simp [getTransferAmount.senders]
  | cons sender rest ih =>
    unfold getTransferAmount.senders
    by_cases hs : sender = dividendAddress
    · rw [if_pos hs, if_pos (by rw [hs]; exact List.mem_cons_self _ _)]
      cases hpre : pre.get? i with
      | none => rfl
      | some a =>
        cases hpost : post.get? i with
        | none => rfl
        | some b =>
          simp only []
          by_cases hg : F64.gt (solOf b) (solOf a) = true
          · have hg1 : F64.gt (F64.div (F64.ofNat b) (F64.fin 1000000000))
                (F64.div (F64.ofNat a) (F64.fin 1000000000)) = true := hg
            rw [if_pos hg1, if_pos hg]
            rfl
          · have hg1 : ¬ F64.gt (F64.div (F64.ofNat b) (F64.fin 1000000000))
                (F64.div (F64.ofNat a) (F64.fin 1000000000)) = true := hg
            rw [if_neg hg1, if_neg hg, ih, hpre, hpost]
            simp only [if_neg hg]
            split <;> rfl
    · rw [if_neg hs, ih]
      have : dividendAddress ∈ sender :: rest ↔ dividendAddress ∈ rest := by
        rw [List.mem_cons]
        exact ⟨fun h => h.resolve_left (fun e => hs e.symm), Or.inr⟩
      simp only [this]

theorem accounts_absent (pre post : List ℕ) (dividendAddress wallet : String)
    (all rest : List String) (j : ℕ) (h : wallet ∉ rest) :
    getTransferAmount.accounts pre post dividendAddress wallet all j rest =
      Except.ok (F64.fin 0) := by
  induction rest generalizing j with
  | nil => rfl
  | cons x xs ih =>
    unfold getTransferAmount.accounts
    have hx : ¬ x = wallet := fun e => h (by rw [e]; exact List.mem_cons_self _ _)
    rw [if_neg hx]
    exact ih (j + 1) (fun hm => h (List.mem_cons_of_mem _ hm))

theorem accounts_at (pre post : List ℕ) (dividendAddress wallet : String)
    (all before after : List String) (j : ℕ) (hb : wallet ∉ before) (ha : wallet ∉ after) :
    getTransferAmount.accounts pre post dividendAddress wallet all j
        (before ++ wallet :: after) =
      match getTransferAmount.senders pre post (j + before.length) dividendAddress all with
      | Except.error p => Except.error p
      | Except.ok (some amount) => Except.ok amount
      | Except.ok none => Except.ok (F64.fin 0) := by
  induction before generalizing j with
  | nil =>
    simp only [List.nil_append, List.length_nil, Nat.add_zero]
    unfold getTransferAmount.accounts
    rw [if_pos rfl]
    cases getTransferAmount.senders pre post j dividendAddress all with
    | error p => rfl
    | ok o =>
      cases o with
      | some amount => rfl
      | none => exact accounts_absent pre post dividendAddress wallet all after (j + 1) ha
  | cons x xs ih =>
    simp only [List.cons_append]
    unfold getTransferAmount.accounts
    have hx : ¬ x = wallet := fun e => hb (by rw [e]; exact List.mem_cons_self _ _)
    rw [if_neg hx, ih (j + 1) (fun hm => hb (List.mem_cons_of_mem _ hm))]
    have : j + 1 + xs.length = j + (x :: xs).length := by simp only [List.length_cons]; omega
    rw [this]

theorem solOf_near (lamports : ℕ) (h : lamports < 2 ^ 64) :
    ∃ v : ℚ, solOf lamports = F64.fin v ∧
      |v - (lamports : ℚ) / 10 ^ 9| ≤ (1 / 2 ^ 49) * ((lamports : ℚ) / 10 ^ 9) := by
  obtain ⟨v, hv, hn⟩ := solBalance_near lamports h
  rw [lamports_per_sol] at hv
  exact ⟨v, hv, hn⟩

/-- Below `2 ^ 47` lamports an increase of the balance is an increase in SOL, and the
difference in SOL is positive and near the difference of the balances. -/
theorem solOf_increase (a b : ℕ) (hab : a < b) (hb : b < 2 ^ 47) :
    F64.gt (solOf b) (solOf a) = true ∧
    ∃ v : ℚ, F64.sub (solOf b) (solOf a) = F64.fin v ∧ 0 < v ∧
      |v - ((b : ℚ) - a) / 10 ^ 9| ≤ (1 / 2 ^ 48) * (((a : ℚ) + b) / 10 ^ 9) := by
  obtain ⟨va, hva, hna⟩ := solOf_near a (by omega)
  obtain ⟨vb, hvb, hnb⟩ := solOf_near b (by omega)
  have ha0 : (0 : ℚ) ≤ a := Nat.cast_nonneg a
  have hb47 : (b : ℚ) ≤ 2 ^ 47 := by exact_mod_cast le_of_lt hb
  have ha47 : (a : ℚ) ≤ 2 ^ 47 := by
    have : a ≤ 2 ^ 47 := by omega
    exact_mod_cast this
  have hab1 : (a : ℚ) + 1 ≤ b := by exact_mod_cast hab
  have hal := (abs_le.mp hna).1
  have hau := (abs_le.mp hna).2
  have hbl := (abs_le.mp hnb).1
  have hbu := (abs_le.mp hnb).2
  have e9 : (10 : ℚ) ^ 9 = 1000000000 := by norm_num
  rw [e9] at hal hau hbl hbu hna hnb ⊢
  -- the two errors are at most a quarter of a lamport in SOL each
  have hea : (1 / 2 ^ 49 : ℚ) * ((a : ℚ) / 1000000000) ≤ 1 / 4000000000 := by
    rw [div_eq_mul_one_div (a : ℚ)]
    have : (1 / 2 ^ 49 : ℚ) * ((a : ℚ) * (1 / 1000000000)) =
        (a : ℚ) * (1 / 2 ^ 49 * (1 / 1000000000)) := by ring
    rw [this]
    calc (a : ℚ) * (1 / 2 ^ 49 * (1 / 1000000000))
        ≤ 2 ^ 47 * (1 / 2 ^ 49 * (1 / 1000000000)) :=
          mul_le_mul_of_nonneg_right ha47 (by positivity)
      _ = 1 / 4000000000 := by norm_num
  have heb : (1 / 2 ^ 49 : ℚ) * ((b : ℚ) / 1000000000) ≤ 1 / 4000000000 := by
    rw [div_eq_mul_one_div (b : ℚ)]
    have : (1 / 2 ^ 49 : ℚ) * ((b : ℚ) * (1 / 1000000000)) =
        (b : ℚ) * (1 / 2 ^ 49 * (1 / 1000000000)) := by ring
    rw [this]
    calc (b : ℚ) * (1 / 2 ^ 49 * (1 / 1000000000))
        ≤ 2 ^ 47 * (1 / 2 ^ 49 * (1 / 1000000000)) :=
          mul_le_mul_of_nonneg_right hb47 (by positivity)
      _ = 1 / 4000000000 := by norm_num
  have hdiff : ((b : ℚ) - a) / 1000000000 = (b : ℚ) / 1000000000 - (a : ℚ) / 1000000000 := by
    ring
  have hd1 : (1 : ℚ) / 1000000000 ≤ (b : ℚ) / 1000000000 - (a : ℚ) / 1000000000 := by
    rw [← hdiff]
    apply div_le_div_of_nonneg_right _ (by norm_num)
    linarith
  have hq : (1 : ℚ) / 2000000000 ≤ vb - va := by linarith
  have hlt : va < vb := by linarith
  have hbq : (b : ℚ) / 1000000000 ≤ 2 ^ 47 / 1000000000 :=
    div_le_div_of_nonneg_right hb47 (by norm_num)
  have hva0 : 0 ≤ va := by
    have : (1 / 2 ^ 49 : ℚ) * ((a : ℚ) / 1000000000) ≤ 1 * ((a : ℚ) / 1000000000) :=
      mul_le_mul_of_nonneg_right (by norm_num) (by positivity)
    linarith
  have hqu : vb - va ≤ 3 * 2 ^ 1022 := by
    have : (2 : ℚ) ^ 47 / 1000000000 + 1 / 4000000000 ≤ 3 * 2 ^ 1022 := by norm_num
    linarith
  obtain ⟨v, hv, hnv⟩ := roundF64_near (vb - va)
    (le_trans (by norm_num) hq) hqu
  have hvl := (abs_le.mp hnv).1
  have hvu := (abs_le.mp hnv).2
  refine ⟨?_, v, ?_, ?_, ?_⟩
  · rw [hva, hvb]
    simp [F64.gt, F64.lt, hlt]
  · rw [hva, hvb]
    exact hv
  · have : (1 / 2 ^ 51 : ℚ) * (vb - va) ≤ (1 / 2) * (vb - va) :=
      mul_le_mul_of_nonneg_right (by norm_num) (by linarith)
    linarith
  · rw [abs_le]
    have hsum : (1 / 2 ^ 49 : ℚ) * ((a : ℚ) / 1000000000) +
        (1 / 2 ^ 49 : ℚ) * ((b : ℚ) / 1000000000) =
        (1 / 2 ^ 49) * (((a : ℚ) + b) / 1000000000) := by ring
    have hs0 : 0 ≤ ((a : ℚ) + b) / 1000000000 := by positivity
    have hqle : vb - va ≤ 2 * (((a : ℚ) + b) / 1000000000) := by
      have : (b : ℚ) / 1000000000 - (a : ℚ) / 1000000000 ≤ ((a : ℚ) + b) / 1000000000 := by
        rw [← hdiff]
        apply div_le_div_of_nonneg_right _ (by norm_num)
        linarith
      have h2 : (1 / 2 ^ 49 : ℚ) * (((a : ℚ) + b) / 1000000000) ≤
          1 * (((a : ℚ) + b) / 1000000000) :=
        mul_le_mul_of_nonneg_right (by norm_num) hs0
      linarith
    have hr : (1 / 2 ^ 51 : ℚ) * (vb - va) ≤
        (1 / 2 ^ 50) * (((a : ℚ) + b) / 1000000000) := by
      calc (1 / 2 ^ 51 : ℚ) * (vb - va)
          ≤ (1 / 2 ^ 51) * (2 * (((a : ℚ) + b) / 1000000000)) :=
            mul_le_mul_of_nonneg_left hqle (by norm_num)
        _ = (1 / 2 ^ 50) * (((a : ℚ) + b) / 1000000000) := by ring
    have h48 : (1 / 2 ^ 48 : ℚ) * (((a : ℚ) + b) / 1000000000) =
        (1 / 2 ^ 50) * (((a : ℚ) + b) / 1000000000) +
        (1 / 2 ^ 49) * (((a : ℚ) + b) / 1000000000) +
        (1 / 2 ^ 50) * (((a : ℚ) + b) / 1000000000) := by ring
    have h50 : 0 ≤ (1 / 2 ^ 50 : ℚ) * (((a : ℚ) + b) / 1000000000) := by positivity
    constructor <;> linarith

theorem getTransferAmount_transferTx (pre post : List ℕ) (keys : List String)
    (blockTime : Option ℤ) (dividendAddress wallet : String) :
    getTransferAmount (some (transferTx pre post keys blockTime)) dividendAddress wallet =
      getTransferAmount.accounts pre post dividendAddress wallet keys 0 keys := rfl

/-- A transfer amount of zero leaves the ledger as it is. -/
theorem processSignature_zero (env : LedgerEnv) (dividendMint wallet sig : String)
    (cache : DividendCache) (w : LedgerWorld) (tx : GetTransactionResult)
    (hr : env.getTransaction w.log sig = Except.ok (some tx))
    (hz : getTransferAmount (some tx) dividendMint wallet = Except.ok (F64.fin 0)) :
    (processSignature env dividendMint wallet sig cache w).1 = Result.ok cache := by
  cases hl : cache.Transactions.load sig with
  | some v =>
    unfold processSignature
    rw [hl]
    rfl
  | none =>
    rw [processSignature_skipped env dividendMint wallet sig cache w hl]
    rw [hr]
    unfold Skipped
    simp only []
    cases tx.Meta with
    | none => trivial
    | some m => exact Or.inr (Or.inr ⟨F64.fin 0, hz, by decide!⟩)

/-- C22, amended: for a transaction with both balance lists whose account keys hold the
wallet once, at index `i`: without the source address among the keys the amount is 0;
with it and no balance at index `i` in one of the lists the call panics; with it and the
balances `a` before and `b` after at index `i` the amount is the `float64` difference
`b / 1e9 - a / 1e9` if that is an increase in `float64`, and else 0.  For balances below
`2 ^ 47` lamports an increase of the balance gives a positive amount near
`(b - a) / 10 ^ 9`, and no increase gives 0.  Without the wallet among the keys the amount
is 0, and an amount of 0 leaves the ledger as it is. -/
theorem getTransferAmount_spec (pre post : List ℕ) (before after : List String)
    (dividendAddress wallet : String) (blockTime : Option ℤ)
    (hbefore : wallet ∉ before) (hafter : wallet ∉ after) :
    (dividendAddress ∉ before ++ wallet :: after →
      getTransferAmount (some (transferTx pre post (before ++ wallet :: after) blockTime))
        dividendAddress wallet = Except.ok (F64.fin 0)) ∧
    (dividendAddress ∈ before ++ wallet :: after →
      (pre.get? before.length = none ∨ post.get? before.length = none) →
      getTransferAmount (some (transferTx pre post (before ++ wallet :: after) blockTime))
        dividendAddress wallet = Except.error Panic.indexOutOfRange) ∧
    (dividendAddress ∈ before ++ wallet :: after →
      ∀ a b, pre.get? before.length = some a → post.get? before.length = some b →
      getTransferAmount (some (transferTx pre post (before ++ wallet :: after) blockTime))
          dividendAddress wallet =
        Except.ok (if F64.gt (solOf b) (solOf a) then F64.sub (solOf b) (solOf a)
          else F64.fin 0) ∧
      (a < b → b < 2 ^ 47 →
        ∃ v : ℚ,
          getTransferAmount
            (some (transferTx pre post (before ++ wallet :: after) blockTime))
            dividendAddress wallet = Except.ok (F64.fin v) ∧
          0 < v ∧ |v - ((b : ℚ) - a) / 10 ^ 9| ≤ (1 / 2 ^ 48) * (((a : ℚ) + b) / 10 ^ 9)) ∧
      (b ≤ a → a < 2 ^ 47 →
        getTransferAmount (some (transferTx pre post (before ++ wallet :: after) blockTime))
          dividendAddress wallet = Except.ok (F64.fin 0))) ∧
    (∀ keys, wallet ∉ keys →
      getTransferAmount (some (transferTx pre post keys blockTime)) dividendAddress wallet =
        Except.ok (F64.fin 0)) ∧
    (∀ (env : LedgerEnv) (sig : String) (cache : DividendCache) (w : LedgerWorld)
        (tx : GetTransactionResult),
      env.getTransaction w.log sig = Except.ok (some tx) →
      getTransferAmount (some tx) dividendAddress wallet = Except.ok (F64.fin 0) →
      (processSignature env dividendAddress wallet sig cache w).1 = Result.ok cache) := by
  have hacc := accounts_at pre post dividendAddress wallet (before ++ wallet :: after)
    before after 0 hbefore hafter
  rw [Nat.zero_add, senders_eq] at hacc
  refine ⟨fun hd => ?_, fun hd hnone => ?_, fun hd a b hpa hpb => ?_, fun keys hk => ?_,
    fun env sig cache w tx hr hz =>
      processSignature_zero env dividendAddress wallet sig cache w tx hr hz⟩
  · rw [getTransferAmount_transferTx, hacc, if_neg hd]
  · rw [getTransferAmount_transferTx, hacc, if_pos hd]
    rcases hnone with h | h
    · rw [h]
    · rw [h]
      cases pre.get? before.length <;> rfl
  · have hval : getTransferAmount
        (some (transferTx pre post (before ++ wallet :: after) blockTime))
        dividendAddress wallet =
        Except.ok (if F64.gt (solOf b) (solOf a) then F64.sub (solOf b) (solOf a)
          else F64.fin 0) := by
      rw [getTransferAmount_transferTx, hacc, if_pos hd, hpa, hpb]
      simp only []
      by_cases hg : F64.gt (solOf b) (solOf a) = true
      · rw [if_pos hg, if_pos hg]
      · rw [if_neg hg, if_neg hg]
    refine ⟨hval, fun hab hb => ?_, fun hba ha => ?_⟩
    · obtain ⟨hg, v, hv, hpos, hnear⟩ := solOf_increase a b hab hb
      refine ⟨v, ?_, hpos, hnear⟩
      rw [hval, if_pos hg, hv]
    · rw [hval]
      have hg : ¬ F64.gt (solOf b) (solOf a) = true := by
        rcases Nat.lt_or_ge b a with hlt | hge
        · obtain ⟨hg1, _⟩ := solOf_increase b a hlt ha
          obtain ⟨va, hva, _⟩ := solOf_near a (by omega)
          obtain ⟨vb, hvb, _⟩ := solOf_near b (by omega)
          rw [hva, hvb] at hg1 ⊢
          simp only [F64.gt, F64.lt, decide_eq_true_eq] at hg1 ⊢
          exact not_lt.mpr (le_of_lt hg1)
        · have : a = b := le_antisymm hge hba
          subst this
          obtain ⟨va, hva, _⟩ := solOf_near a (by omega)
          rw [hva]
          simp [F64.gt, F64.lt]
      rw [if_neg hg]
  · rw [getTransferAmount_transferTx]
    exact accounts_absent pre post dividendAddress wallet keys keys 0 hk

/-- The transaction of the example ledger, with the wallet at index 1 going from 1 to 2
SOL and the payer among the keys, gives the amount 1. -/
theorem getTransferAmount_spec_witness :
    getTransferAmount
      (some (transferTx [5000000000, 1000000000] [3500000000, 2000000000]
        ([dividendKey] ++ walletKey :: []) (some 1700000000))) dividendKey walletKey =
      Except.ok (F64.fin 1) :=
  ((getTransferAmount_spec [5000000000, 1000000000] [3500000000, 2000000000] [dividendKey]
    [] dividendKey walletKey (some 1700000000) (by decide!) (by decide!)).2.2.1 (by decide!)
    1000000000 2000000000 rfl rfl).1.trans (by decide!)

/-- C22 fails as stated where `float64` runs out of digits: a wallet at `2 ^ 53` lamports
that receives one lamport has the same balance in SOL before and after, so the amount is
0 and nothing is recorded, and for two lamports the amount is `2 ^ -29` SOL, not
`2 / 10 ^ 9`; from 1 to 1.2 SOL the amount is the `float64` below that of 0.2. -/
theorem getTransferAmount_loses_increase_counterexample :
    getTransferAmount
      (some (transferTx [9007199254740992, 0] [9007199254740993, 0] [walletKey, dividendKey]
        (some 1700000000))) dividendKey walletKey = Except.ok (F64.fin 0) ∧
    getTransferAmount
      (some (transferTx [9007199254740992, 0] [9007199254740994, 0] [walletKey, dividendKey]
        (some 1700000000))) dividendKey walletKey = Except.ok (F64.fin (1 / 536870912)) ∧
    getTransferAmount
      (some (transferTx [1000000000, 0] [1200000000, 0] [walletKey, dividendKey]
        (some 1700000000))) dividendKey walletKey =
      Except.ok (F64.fin (900719925474099 / 4503599627370496)) ∧
    solOf 200000000 = F64.fin (3602879701896397 / 18014398509481984) := by
  decide!

/-! ## Theorems: the records and the totals -/

/-- A load that succeeds has read the cache file, and returns its content or the empty
ledger. -/
theorem loadDividendCache_ok (env : LedgerEnv) (wallet : String) (w w1 : LedgerWorld)
    (cache : DividendCache) (h : loadDividendCache env wallet w = (Result.ok cache, w1)) :
    env.mkdirAll w.log = none ∧ env.readFails w.log (cacheFile wallet) = none ∧
    w1 = { files := w.files, log := w.log ++ [LedgerEvent.readFile (cacheFile wallet)] } ∧
    cache = (w.files.load (cacheFile wallet)).getD
      { LastUpdate := zeroTime, LastSignature := "", Transactions := [] } := by
  unfold loadDividendCache at h
  cases hm : env.mkdirAll w.log with
  | some e => rw [hm] at h; simp at h
  | none =>
    rw [hm] at h
    simp only [] at h
    split at h
    · simp at h
    · cases hr : env.readFails w.log (cacheFile wallet) with
      | some e => rw [hr] at h; simp at h
      | none =>
        rw [hr] at h
        simp only [] at h
        cases hf : w.files.load (cacheFile wallet) with
        | none =>
          rw [hf] at h
          simp only [Prod.mk.injEq, Result.ok.injEq] at h
          exact ⟨rfl, rfl, h.2.symm, h.1.symm⟩
        | some c =>
          rw [hf] at h
          simp only [Prod.mk.injEq, Result.ok.injEq] at h
          exact ⟨rfl, rfl, h.2.symm, h.1.symm⟩

/-- The parts of a run that returns a value: both addresses are accepted, the ledger is
loaded, the signatures are listed, the loop gets through the new signatures, the ledger
is written, and the totals are taken over the ledger. -/
theorem GetDividendHistory_ok (env : LedgerEnv) (cfg : Config) (wallet : String)
    (w w1 : LedgerWorld) (info : DividendInfo)
    (h : GetDividendHistory env cfg wallet w = (Result.ok info, w1)) :
    env.publicKeyFromBase58 wallet = none ∧ cfg.Token.DividendMint ≠ "" ∧
    env.publicKeyFromBase58 cfg.Token.DividendMint = none ∧
    slicePanics wallet = false ∧ slicePanics cfg.Token.DividendMint = false ∧
    ∃ cache sigs cache1 w3,
      loadDividendCache env wallet w =
        (Result.ok cache,
          { files := w.files, log := w.log ++ [LedgerEvent.readFile (cacheFile wallet)] }) ∧
      (cache.LastSignature = "" ∨ slicePanics cache.LastSignature = false) ∧
      env.getSignaturesForAddress (w.log ++ [LedgerEvent.readFile (cacheFile wallet)]) wallet =
        Except.ok sigs ∧
      processSignatures env cfg.Token.DividendMint wallet
          (newSignatures cache.LastSignature sigs) cache
          { files := w.files,
            log := w.log ++ [LedgerEvent.readFile (cacheFile wallet)] ++
              [LedgerEvent.getSignatures wallet] } = (Result.ok cache1, w3) ∧
      w1 = (saveDividendCache env wallet { cache1 with LastUpdate := env.now w3.log } w3).2 ∧
      info = totals (env.rangeOrder w1.log) (env.now w1.log) cache1.Transactions := by
  unfold GetDividendHistory at h
  cases h1 : env.publicKeyFromBase58 wallet with
  | some e => rw [h1] at h; simp at h
  | none =>
    rw [h1] at h
    simp only [] at h
    by_cases h2 : cfg.Token.DividendMint = ""
    · rw [if_pos h2] at h; simp at h
    · rw [if_neg h2] at h
      cases h3 : env.publicKeyFromBase58 cfg.Token.DividendMint with
      | some e => rw [h3] at h; simp at h
      | none =>
        rw [h3] at h
        simp only [] at h
        by_cases h4 : (slicePanics wallet || slicePanics cfg.Token.DividendMint) = true
        · rw [if_pos h4] at h; simp at h
        · rw [if_neg h4] at h
          have h4a : slicePanics wallet = false := by
            cases hs : slicePanics wallet with
            | false => rfl
            | true => rw [hs] at h4; simp at h4
          have h4b : slicePanics cfg.Token.DividendMint = false := by
            cases hs : slicePanics cfg.Token.DividendMint with
            | false => rfl
            | true => rw [hs] at h4; simp at h4
          refine ⟨rfl, h2, rfl, h4a, h4b, ?_⟩
          rcases hl : loadDividendCache env wallet w with ⟨r, wl⟩
          rw [hl] at h
          cases r with
          | panic p => simp at h
          | err e => simp at h
          | ok cache =>
            simp only [] at h
            obtain ⟨_, _, hwl, _⟩ := loadDividendCache_ok env wallet w wl cache hl
            subst hwl
            by_cases h5 : cache.LastSignature ≠ "" ∧ slicePanics cache.LastSignature = true
            · rw [if_pos h5] at h; simp at h
            · rw [if_neg h5] at h
              simp only [] at h
              cases h6 : env.getSignaturesForAddress
                  (w.log ++ [LedgerEvent.readFile (cacheFile wallet)]) wallet with
              | error e => rw [h6] at h; simp at h
              | ok sigs =>
                rw [h6] at h
                simp only [] at h
                rcases hp : processSignatures env cfg.Token.DividendMint wallet
                  (newSignatures cache.LastSignature sigs) cache
                  { files := w.files,
                    log := w.log ++ [LedgerEvent.readFile (cacheFile wallet)] ++
                      [LedgerEvent.getSignatures wallet] } with ⟨r, w3⟩
                rw [hp] at h
                cases r with
                | panic p => simp at h
                | err e => simp at h
                | ok cache1 =>
                  simp only [Prod.mk.injEq, Result.ok.injEq] at h
                  refine ⟨cache, sigs, cache1, w3, rfl, ?_, rfl, hp, h.2.symm, ?_⟩
                  · by_cases hc : cache.LastSignature = ""
                    · exact Or.inl hc
                    · right
                      cases hs : slicePanics cache.LastSignature with
                      | false => rfl
                      | true => exact absurd ⟨hc, hs⟩ h5
                  · rw [← h.2]
                    exact h.1.symm

/-- One round of the loop leaves the files alone and adds at most the fetch of its
signature to the log. -/
theorem processSignature_log (env : LedgerEnv) (dividendMint wallet sig : String)
    (cache : DividendCache) (w : LedgerWorld) :
    (processSignature env dividendMint wallet sig cache w).2 = w ∨
    (processSignature env dividendMint wallet sig cache w).2 =
      { files := w.files, log := w.log ++ [LedgerEvent.getTransaction sig] } := by
  unfold processSignature
  split
  · exact Or.inl rfl
  · right
    simp only []
    repeat' split
    all_goals rfl

/-- The loop leaves the files alone and adds to the log the fetches of some of its
signatures, in their order. -/
theorem processSignatures_log (env : LedgerEnv) (dividendMint wallet : String)
    (sigs : List String) (cache : DividendCache) (w : LedgerWorld) :
    ∃ fetched : List String, fetched.Sublist sigs ∧
      (processSignatures env dividendMint wallet sigs cache w).2 =
        { files := w.files, log := w.log ++ fetched.map LedgerEvent.getTransaction } := by
  induction sigs generalizing cache w with
  | nil => exact ⟨[], List.Sublist.refl _, by simp [processSignatures]⟩
  | cons sig rest ih =>
    have hstep := processSignature_log env dividendMint wallet sig cache w
    unfold processSignatures
    rcases hr : processSignature env dividendMint wallet sig cache w with ⟨r, w2⟩
    rw [hr] at hstep
    simp only [] at hstep
    cases r with
    | ok cache1 =>
      simp only []
      obtain ⟨fetched, hs, hf⟩ := ih cache1 w2
      rcases hstep with hw | hw
      · refine ⟨fetched, List.Sublist.cons _ hs, ?_⟩
        rw [hf, hw]
      · refine ⟨sig :: fetched, List.Sublist.cons₂ _ hs, ?_⟩
        rw [hf, hw]
        simp
    | err e =>
      simp only []
      rcases hstep with hw | hw
      · exact ⟨[], List.nil_sublist _, by rw [hw]; simp⟩
      · exact ⟨[sig], by simp, by rw [hw]; simp⟩
    | panic p =>
      simp only []
      rcases hstep with hw | hw
      · exact ⟨[], List.nil_sublist _, by rw [hw]; simp⟩
      · exact ⟨[sig], by simp, by rw [hw]; simp⟩

/-- The log of a run that returns a value: the read of the cache file, the listing of
the signatures, fetches of some of the candidate signatures in their order, and the
write of the ledger. -/
theorem GetDividendHistory_log (env : LedgerEnv) (cfg : Config) (wallet : String)
    (w w1 : LedgerWorld) (info : DividendInfo)
    (h : GetDividendHistory env cfg wallet w = (Result.ok info, w1)) :
    ∃ (cache : DividendCache) (sigs fetched : List String) (written : DividendCache),
      (loadDividendCache env wallet w).1 = Result.ok cache ∧
      env.getSignaturesForAddress (w.log ++ [LedgerEvent.readFile (cacheFile wallet)]) wallet =
        Except.ok sigs ∧
      fetched.Sublist (newSignatures cache.LastSignature sigs) ∧
      w1.log = w.log ++ [LedgerEvent.readFile (cacheFile wallet)] ++
        [LedgerEvent.getSignatures wallet] ++ fetched.map LedgerEvent.getTransaction ++
        [LedgerEvent.writeFile (cacheFile wallet) written] := by
  obtain ⟨_, _, _, _, _, cache, sigs, cache1, w3, hl, _, hs, hp, hw, _⟩ :=
    GetDividendHistory_ok env cfg wallet w w1 info h
  obtain ⟨fetched, hsub, hf⟩ := processSignatures_log env cfg.Token.DividendMint wallet
    (newSignatures cache.LastSignature sigs) cache
    { files := w.files,
      log := w.log ++ [LedgerEvent.readFile (cacheFile wallet)] ++
        [LedgerEvent.getSignatures wallet] }
  rw [hp] at hf
  simp only [] at hf
  refine ⟨cache, sigs, fetched, { cache1 with LastUpdate := env.now w3.log }, ?_, hs, hsub, ?_⟩
  · rw [hl]
  · rw [hw, hf]
    unfold saveDividendCache
    split <;> rfl

/-- C28: with an empty watermark the candidates are all of the list, in its order; with a
watermark `w` they are the longest beginning of the list without `w`: a beginning of the
list, without `w`, that every beginning without `w` is a beginning of, all of the list if
`w` is not in it, and else followed in the list by `w`.  A run that returns has fetched
candidates only, in their order. -/
theorem newSignatures_longest_beginning (lastSignature : String) (sigs : List String) :
    (lastSignature = "" → newSignatures lastSignature sigs = sigs) ∧
    (lastSignature ≠ "" →
      newSignatures lastSignature sigs <+: sigs ∧
      lastSignature ∉ newSignatures lastSignature sigs ∧
      (∀ q, q <+: sigs → lastSignature ∉ q → q <+: newSignatures lastSignature sigs) ∧
      (lastSignature ∉ sigs → newSignatures lastSignature sigs = sigs) ∧
      (lastSignature ∈ sigs →
        ∃ rest, sigs = newSignatures lastSignature sigs ++ lastSignature :: rest)) ∧
    (∀ env cfg wallet w w1 info,
      GetDividendHistory env cfg wallet w = (Result.ok info, w1) →
      ∃ (cache : DividendCache) (listed fetched : List String) (written : DividendCache),
        (loadDividendCache env wallet w).1 = Result.ok cache ∧
        env.getSignaturesForAddress (w.log ++ [LedgerEvent.readFile (cacheFile wallet)])
          wallet = Except.ok listed ∧
        fetched.Sublist (newSignatures cache.LastSignature listed) ∧
        w1.log = w.log ++ [LedgerEvent.readFile (cacheFile wallet)] ++
          [LedgerEvent.getSignatures wallet] ++ fetched.map LedgerEvent.getTransaction ++
          [LedgerEvent.writeFile (cacheFile wallet) written]) := by
  refine ⟨fun h => by simp [newSignatures, h], fun h => ?_,
    fun env cfg wallet w w1 info hr => GetDividendHistory_log env cfg wallet w w1 info hr⟩
  have e : newSignatures lastSignature sigs =
      sigs.takeWhile (fun sig => decide (sig ≠ lastSignature)) := by
    simp [newSignatures, h]
  rw [e]
  clear e
  refine ⟨List.takeWhile_prefix _, ?_, ?_, ?_, ?_⟩
  · intro hm
    have := List.mem_takeWhile_imp hm
    simp at this
  · intro q hq hn
    induction sigs generalizing q with
    | nil =>
      have : q = [] := List.prefix_nil.mp hq
      rw [this]
      exact List.nil_prefix
    | cons x xs ih =>
      cases q with
      | nil => exact List.nil_prefix
      | cons y ys =>
        obtain ⟨hxy, hys⟩ := List.cons_prefix_cons.mp hq
        subst hxy
        have hy : y ≠ lastSignature := fun e1 => hn (by rw [e1]; exact List.mem_cons_self _ _)
        rw [List.takeWhile_cons_of_pos (by simpa using hy)]
        exact List.cons_prefix_cons.mpr
          ⟨rfl, ih ys hys (fun hm => hn (List.mem_cons_of_mem _ hm))⟩
  · intro hn
    rw [List.takeWhile_eq_self_iff]
    intro x hx
    have : x ≠ lastSignature := fun e1 => hn (e1 ▸ hx)
    simpa using this
  · intro hm
    induction sigs with
    | nil => simp at hm
    | cons x xs ih =>
      by_cases hx : x = lastSignature
      · refine ⟨xs, ?_⟩
        rw [List.takeWhile_cons_of_neg (by simp [hx]), hx]
        rfl
      · have hm1 : lastSignature ∈ xs := by
          rcases List.mem_cons.mp hm with h1 | h1
          · exact absurd h1.symm hx
          · exact h1
        obtain ⟨rest, hrest⟩ := ih hm1
        refine ⟨rest, ?_⟩
        rw [List.takeWhile_cons_of_pos (by simpa using hx), List.cons_append, ← hrest]

/-- With the watermark `sigB` the candidates of the list `sigA, sigB, sigC` are `sigA`
alone; without a watermark they are all three. -/
theorem newSignatures_longest_beginning_witness :
    newSignatures sigB [sigA, sigB, sigC] = [sigA] ∧
    newSignatures "" [sigA, sigB, sigC] = [sigA, sigB, sigC] ∧
    (newSignatures sigB [sigA, sigB, sigC] <+: [sigA, sigB, sigC] ∧
      sigB ∉ newSignatures sigB [sigA, sigB, sigC] ∧
      (∀ q, q <+: [sigA, sigB, sigC] → sigB ∉ q →
        q <+: newSignatures sigB [sigA, sigB, sigC]) ∧
      (sigB ∉ [sigA, sigB, sigC] → newSignatures sigB [sigA, sigB, sigC] =
        [sigA, sigB, sigC]) ∧
      (sigB ∈ [sigA, sigB, sigC] →
        ∃ rest, [sigA, sigB, sigC] = newSignatures sigB [sigA, sigB, sigC] ++ sigB :: rest)) :=
  ⟨by decide!, (newSignatures_longest_beginning "" [sigA, sigB, sigC]).1 rfl,
   (newSignatures_longest_beginning sigB [sigA, sigB, sigC]).2.1 (by decide!)⟩

/-- C29: a qualifying transfer is stored with the amount that `getTransferAmount` found at
the wallet's index and with the balances at index 0 of the two lists, wherever the wallet
is among the keys; in the example ledger the wallet is at index 1, the stored balances
are those of the payer, 5 and 3.5 SOL, and their difference is not the amount of 1 SOL. -/
theorem stored_balances_index_zero :
    (∀ (env : LedgerEnv) (dividendMint wallet sig : String) (cache : DividendCache)
        (w : LedgerWorld) (pre post : List ℕ) (amount : F64) (blockTime : ℤ),
      cache.Transactions.load sig = none →
      Qualifies (env.getTransaction w.log sig) dividendMint wallet pre post amount blockTime →
      ((processSignature env dividendMint wallet sig cache w).1 =
        Result.ok
          { cache with
            Transactions := cache.Transactions.store sig
              { Signature := sig, Amount := amount, Timestamp := timeUnix blockTime,
                PreBalance := solOf (pre.headD 0), PostBalance := solOf (post.headD 0) },
            LastSignature :=
              if cache.LastSignature = "" ∨ cache.LastSignature < sig then sig
              else cache.LastSignature })) ∧
    (demoLedgerEnv.getTransaction [] sigB = Except.ok (some demoDividendTx) ∧
      getTransferAmount (some demoDividendTx) dividendKey walletKey =
        Except.ok (F64.fin 1) ∧
      solOf 5000000000 = F64.fin 5 ∧ solOf 3500000000 = F64.fin (7 / 2) ∧
      F64.sub (solOf 3500000000) (solOf 5000000000) = F64.fin (-3 / 2)) := by
  refine ⟨?_, rfl, by decide!, by decide!, by decide!, by decide!⟩
  intro env dividendMint wallet sig cache w pre post amount blockTime hnew hq
  rw [processSignature_qualifies env dividendMint wallet sig cache w pre post amount
    blockTime hnew hq]
  rfl

/-- The example ledger stores for `sigB` the amount 1 SOL with the balances 5 and 3.5 SOL
of the payer at index 0. -/
theorem stored_balances_index_zero_witness :
    (processSignature demoLedgerEnv dividendKey walletKey sigB
        { LastUpdate := zeroTime, LastSignature := "", Transactions := [] }
        { files := [], log := [] }).1 =
      Result.ok
        { LastUpdate := zeroTime, LastSignature := sigB,
          Transactions := [(sigB,
            { Signature := sigB, Amount := F64.fin 1, Timestamp := 1700000000000000000,
              PreBalance := F64.fin 5, PostBalance := F64.fin (7 / 2) })] } :=
  (stored_balances_index_zero.1 demoLedgerEnv dividendKey walletKey sigB
    { LastUpdate := zeroTime, LastSignature := "", Transactions := [] }
    { files := [], log := [] } [5000000000, 1000000000] [3500000000, 2000000000]
    (F64.fin 1) 1700000000 rfl
    ⟨Except.ok [dividendKey, walletKey], rfl, by decide!, by decide!, by decide!,
      by decide!⟩).trans (by decide!)

/-- The saturation of `time.Duration` does not matter for the three windows. -/
theorem timeSub_le (now ts d : ℤ) (h1 : -(2 ^ 63) ≤ d) (h2 : d < 2 ^ 63 - 1) :
    timeSub now ts ≤ d ↔ now - ts ≤ d := by
  unfold timeSub
  constructor <;> intro h <;> omega

theorem amountsWithin_cons (now d : ℤ) (p : String × DividendTransfer)
    (rest : GoMap DividendTransfer) :
    amountsWithin now d (p :: rest) =
      if now - p.2.Timestamp ≤ d then p.2.Amount :: amountsWithin now d rest
      else amountsWithin now d rest := by
  unfold amountsWithin
  rw [List.filter_cons]
  by_cases h : now - p.2.Timestamp ≤ d
  · rw [if_pos (by simpa using h), if_pos h, List.map_cons]
  · rw [if_neg (by simpa using h), if_neg h]

theorem GoMap.range_perm {α : Type} (m : GoMap α) (picks : List ℕ) :
    (m.range picks).Perm m := by
  induction picks generalizing m with
  | nil => exact List.Perm.refl _
  | cons pick rest ih =>
    unfold GoMap.range
    cases hg : m.get? (pick % m.length) with
    | none => exact List.Perm.refl _
    | some entry =>
      simp only []
      refine ((ih (m.eraseIdx (pick % m.length))).cons entry).trans ?_
      clear ih
      generalize pick % m.length = i at hg
      induction m generalizing i with
      | nil => simp at hg
      | cons x xs ihm =>
        cases i with
        | zero =>
          simp only [List.get?_cons_zero, Option.some.injEq] at hg
          rw [hg]
          exact List.Perm.refl _
        | succ i =>
          simp only [List.get?_cons_succ] at hg
          simp only [List.eraseIdx_cons_succ]
          exact (List.Perm.swap x entry _).trans ((ihm i hg).cons x)

/-- Every order of the entries of a map is the order of some `range` loop. -/
theorem GoMap.range_any_order {α : Type} (m l : GoMap α) (h : l.Perm m) :
    ∃ picks, m.range picks = l := by
  induction l generalizing m with
  | nil =>
    rw [List.Perm.nil_eq h]
    exact ⟨[], rfl⟩
  | cons x xs ih =>
    have hx : x ∈ m := h.subset (List.mem_cons_self _ _)
    obtain ⟨i, hi, hget⟩ := List.getElem_of_mem hx
    have hg : m.get? i = some x := by
      rw [List.get?_eq_getElem?, List.getElem?_eq_getElem hi, hget]
    have hp : (x :: m.eraseIdx i).Perm m := by
      have := GoMap.range_perm m [i]
      unfold GoMap.range at this
      rw [Nat.mod_eq_of_lt hi, hg] at this
      simpa [GoMap.range] using this
    obtain ⟨picks, hpicks⟩ := ih (m.eraseIdx i) ((h.trans hp.symm).cons_inv)
    refine ⟨i :: picks, ?_⟩
    unfold GoMap.range
    rw [Nat.mod_eq_of_lt hi, hg]
    simp only [hpicks]

/-- A map of one entry has one order. -/
theorem GoMap.range_single {α : Type} (p : String × α) (picks : List ℕ) :
    GoMap.range [p] picks = [p] := by
  cases picks with
  | nil => rfl
  | cons pick rest =>
    unfold GoMap.range
    simp only [List.length_singleton, Nat.mod_one, List.get?_cons_zero, List.eraseIdx_cons_zero]
    cases rest <;> simp [GoMap.range]

/-- The loop over the ledger, from any starting totals. -/
theorem totals_fold (now : ℤ) (m : GoMap DividendTransfer) (info : DividendInfo) :
    m.foldl (fun info p => addTransfer now info p.2) info =
      { TotalAmount := (m.map (fun p => p.2.Amount)).foldl F64.add info.TotalAmount,
        LastReceived := (m.map (fun p => p.2.Timestamp)).foldl max info.LastReceived,
        TransferCount := info.TransferCount + m.length,
        USDValue := info.USDValue,
        Last24hAmount :=
          (amountsWithin now (24 * 3600 * 1000000000) m).foldl F64.add info.Last24hAmount,
        Last7dAmount :=
          (amountsWithin now (7 * (24 * 3600 * 1000000000)) m).foldl F64.add
            info.Last7dAmount,
        Last30dAmount :=
          (amountsWithin now (30 * (24 * 3600 * 1000000000)) m).foldl F64.add
            info.Last30dAmount } := by
  induction m generalizing info with
  | nil => simp [amountsWithin]
  | cons p rest ih =>
    rw [List.foldl_cons, ih]
    have e1 := timeSub_le now p.2.Timestamp (24 * 3600 * 1000000000) (by norm_num)
      (by norm_num)
    have e7 := timeSub_le now p.2.Timestamp (7 * (24 * 3600 * 1000000000)) (by norm_num)
      (by norm_num)
    have e30 := timeSub_le now p.2.Timestamp (30 * (24 * 3600 * 1000000000)) (by norm_num)
      (by norm_num)
    have hmax : (if info.LastReceived < p.2.Timestamp then p.2.Timestamp
        else info.LastReceived) = max info.LastReceived p.2.Timestamp := by
      split
      · next h => exact (max_eq_right (le_of_lt h)).symm
      · next h => exact (max_eq_left (not_lt.mp h)).symm
    simp only [addTransfer, List.map_cons, List.foldl_cons, List.length_cons,
      amountsWithin_cons, e1, e7, e30, hmax]
    congr 1
    · push_cast; ring
    · split <;> rfl
    · split <;> rfl
    · split <;> rfl

/-- The totals of one loop over the ledger: the count and the last time of receipt do not
depend on the order of the loop, the four amounts are sums in that order. -/
theorem totals_spec (picks : List ℕ) (now : ℤ) (m : GoMap DividendTransfer) :
    (totals picks now m).TransferCount = m.length ∧
    (totals picks now m).LastReceived =
      (m.map (fun p => p.2.Timestamp)).foldl max zeroTime ∧
    (totals picks now m).USDValue = F64.fin 0 ∧
    (totals picks now m).TotalAmount =
      floatSum ((m.range picks).map (fun p => p.2.Amount)) ∧
    (totals picks now m).Last24hAmount =
      floatSum (amountsWithin now (24 * 3600 * 1000000000) (m.range picks)) ∧
    (totals picks now m).Last7dAmount =
      floatSum (amountsWithin now (7 * (24 * 3600 * 1000000000)) (m.range picks)) ∧
    (totals picks now m).Last30dAmount =
      floatSum (amountsWithin now (30 * (24 * 3600 * 1000000000)) (m.range picks)) := by
  have ht : totals picks now m = _ := totals_fold now (m.range picks)
    { TotalAmount := F64.fin 0, LastReceived := zeroTime, TransferCount := 0,
      USDValue := F64.fin 0, Last24hAmount := F64.fin 0, Last7dAmount := F64.fin 0,
      Last30dAmount := F64.fin 0 }
  have hp := GoMap.range_perm m picks
  haveI : RightCommutative (max : ℤ → ℤ → ℤ) := ⟨fun a b c => by
    simp only [max_assoc, max_comm b c]⟩
  refine ⟨?_, ?_, by rw [ht], by rw [ht]; rfl, by rw [ht]; rfl, by rw [ht]; rfl,
    by rw [ht]; rfl⟩
  · rw [ht]
    simp [hp.length_eq]
  · rw [ht]
    exact List.Perm.foldl_eq (f := (max : ℤ → ℤ → ℤ)) (hp.map (fun p => p.2.Timestamp))
      zeroTime

/-- C23, amended: the totals are taken over the entire ledger and the time `now`, in the
order in which the loop goes through the map, which Go leaves open. The count is the
number of records and `LastReceived` the greatest timestamp, but not before the zero
time; the total and the three window amounts are `float64` sums, accumulated from zero
in the order of the loop, of the amounts of all records and of those whose age
`now - timestamp` is at most 24 hours, 7 days and 30 days.  In another order of the same
ledger the count, `LastReceived` and the amounts summed are the same.  A run that returns
gives the totals of the ledger it has written. -/
theorem totals_of_ledger (picks : List ℕ) (now : ℤ) (m : GoMap DividendTransfer) :
    (m.range picks).Perm m ∧
    (totals picks now m).TransferCount = m.length ∧
    (totals picks now m).LastReceived =
      (m.map (fun p => p.2.Timestamp)).foldl max zeroTime ∧
    (totals picks now m).TotalAmount =
      floatSum ((m.range picks).map (fun p => p.2.Amount)) ∧
    (totals picks now m).Last24hAmount =
      floatSum (amountsWithin now (24 * 3600 * 1000000000) (m.range picks)) ∧
    (totals picks now m).Last7dAmount =
      floatSum (amountsWithin now (7 * (24 * 3600 * 1000000000)) (m.range picks)) ∧
    (totals picks now m).Last30dAmount =
      floatSum (amountsWithin now (30 * (24 * 3600 * 1000000000)) (m.range picks)) ∧
    (∀ (picks1 : List ℕ) (m1 : GoMap DividendTransfer), m.Perm m1 →
      (totals picks1 now m1).TransferCount = (totals picks now m).TransferCount ∧
      (totals picks1 now m1).LastReceived = (totals picks now m).LastReceived ∧
      ((m1.range picks1).map (fun p => p.2.Amount)).Perm
        ((m.range picks).map (fun p => p.2.Amount)) ∧
      ∀ d, (amountsWithin now d (m1.range picks1)).Perm
        (amountsWithin now d (m.range picks))) ∧
    (∀ env cfg wallet w w1 info,
      GetDividendHistory env cfg wallet w = (Result.ok info, w1) →
      ∃ written, w1.log.getLast? = some (LedgerEvent.writeFile (cacheFile wallet) written) ∧
        info = totals (env.rangeOrder w1.log) (env.now w1.log) written.Transactions) := by
  obtain ⟨h1, h2, _, h4, h5, h6, h7⟩ := totals_spec picks now m
  refine ⟨GoMap.range_perm m picks, h1, h2, h4, h5, h6, h7, ?_, ?_⟩
  · intro picks1 m1 hp
    obtain ⟨g1, g2, _, _, _, _, _⟩ := totals_spec picks1 now m1
    have hpp : (m1.range picks1).Perm (m.range picks) :=
      ((GoMap.range_perm m1 picks1).trans hp.symm).trans (GoMap.range_perm m picks).symm
    haveI : RightCommutative (max : ℤ → ℤ → ℤ) := ⟨fun a b c => by
      simp only [max_assoc, max_comm b c]⟩
    refine ⟨?_, ?_, hpp.map _, fun d => ?_⟩
    · rw [g1, h1, hp.length_eq]
    · rw [g2, h2]
      exact (List.Perm.foldl_eq (f := (max : ℤ → ℤ → ℤ))
        (hp.map (fun p => p.2.Timestamp)) zeroTime).symm
    · unfold amountsWithin
      exact (hpp.filter _).map _
  · intro env cfg wallet w w1 info h
    obtain ⟨_, _, _, _, _, cache, sigs, cache1, w3, _, _, _, _, hw, hinfo⟩ :=
      GetDividendHistory_ok env cfg wallet w w1 info h
    refine ⟨{ cache1 with LastUpdate := env.now w3.log }, ?_, hinfo⟩
    rw [hw]
    unfold saveDividendCache
    split <;> simp

/-- The three transfers of 0.1, 0.2 and 0.3 SOL, none older than a day, gone through in
the order of the list: three records, and the total is the `float64` just above 0.6. -/
theorem totals_of_ledger_witness :
    (totals [] 1700000000000000000 demoThreeTransfers).TransferCount = 3 ∧
    (totals [] 1700000000000000000 demoThreeTransfers).LastReceived =
      1700000000000000000 ∧
    (totals [] 1700000000000000000 demoThreeTransfers).TotalAmount =
      F64.fin (5404319552844596 / 9007199254740992) ∧
    (totals [] 1700000000000000000 demoThreeTransfers).Last24hAmount =
      floatSum (amountsWithin 1700000000000000000 (24 * 3600 * 1000000000)
        (demoThreeTransfers.range [])) :=
  ⟨(totals_of_ledger [] 1700000000000000000 demoThreeTransfers).2.1.trans (by decide!),
   (totals_of_ledger [] 1700000000000000000 demoThreeTransfers).2.2.1.trans (by decide!),
   (totals_of_ledger [] 1700000000000000000 demoThreeTransfers).2.2.2.1.trans (by decide!),
   (totals_of_ledger [] 1700000000000000000 demoThreeTransfers).2.2.2.2.1⟩

/-- C23 fails as stated, since the total depends on the order in which the map is gone
through: the ledger of 0.1, 0.2 and 0.3 SOL gives the total just above 0.6 in the order
0.1, 0.2, 0.3 and the `float64` of 0.6 in the order 0.2, 0.3, 0.1 of another loop over
the same map.  And a ledger whose only record is dated before year 1 has the zero time as
`LastReceived`, not the record's timestamp. -/
theorem totals_order_counterexample :
    (demoThreeTransfers.rotate 1).Perm demoThreeTransfers ∧
    demoThreeTransfers.range [1, 1] = demoThreeTransfers.rotate 1 ∧
    (totals [] 1700000000000000000 demoThreeTransfers).TotalAmount =
      F64.fin (5404319552844596 / 9007199254740992) ∧
    (totals [1, 1] 1700000000000000000 demoThreeTransfers).TotalAmount =
      F64.fin (5404319552844595 / 9007199254740992) ∧
    (totals [] 1700000000000000000
      [("a", { Signature := "a", Amount := F64.fin 1, Timestamp := zeroTime - 1,
               PreBalance := F64.fin 0, PostBalance := F64.fin 1 })]).LastReceived =
      zeroTime := by
  refine ⟨List.rotate_perm _ _, by decide!, by decide!, by decide!, by decide!⟩

/-! ## Theorems: the second run of the ledger -/

theorem processSignature_keeps (env : LedgerEnv) (dividendMint wallet sig : String)
    (cache cache1 : DividendCache) (w w1 : LedgerWorld)
    (h : processSignature env dividendMint wallet sig cache w = (Result.ok cache1, w1)) :
    ∀ k v, cache.Transactions.load k = some v → cache1.Transactions.load k = some v := by
  rcases processSignature_cases env dividendMint wallet sig cache cache1 w w1 h with
    h1 | ⟨hnone, transfer, h1⟩
  · rw [h1]
    exact fun k v hk => hk
  · rw [h1]
    intro k v hk
    simp only [GoMap.load_store]
    have : k ≠ sig := by
      intro e
      rw [e, hnone] at hk
      exact absurd hk (by simp)
    rw [if_neg this]
    exact hk

theorem processSignatures_keeps (env : LedgerEnv) (dividendMint wallet : String)
    (sigs : List String) (cache cache1 : DividendCache) (w w1 : LedgerWorld)
    (h : processSignatures env dividendMint wallet sigs cache w = (Result.ok cache1, w1)) :
    ∀ k v, cache.Transactions.load k = some v → cache1.Transactions.load k = some v := by
  induction sigs generalizing cache w with
  | nil =>
    simp only [processSignatures] at h
    rw [← Result.ok.inj (Prod.mk.inj h).1]
    exact fun k v hk => hk
  | cons sig rest ih =>
    simp only [processSignatures] at h
    split at h
    · next c2 w2 hstep =>
      exact fun k v hk => ih c2 w2 h k v
        (processSignature_keeps env dividendMint wallet sig cache c2 w w2 hstep k v hk)
    · next r w2 hne hstep =>
      exact absurd (Prod.mk.inj h).1 (hne cache1)

/-- A round that returns without the signature in the ledger has passed it over. -/
theorem processSignature_absent_skipped (env : LedgerEnv) (dividendMint wallet sig : String)
    (cache cache1 : DividendCache) (w w1 : LedgerWorld)
    (h : processSignature env dividendMint wallet sig cache w = (Result.ok cache1, w1))
    (habs : cache1.Transactions.load sig = none) :
    Skipped (env.getTransaction w.log sig) dividendMint wallet := by
  have hnew : cache.Transactions.load sig = none := by
    cases hl : cache.Transactions.load sig with
    | none => rfl
    | some v =>
      have := processSignature_keeps env dividendMint wallet sig cache cache1 w w1 h sig v hl
      rw [habs] at this
      exact absurd this (by simp)
  unfold processSignature at h
  rw [hnew] at h
  simp only [Option.isSome_none, Bool.false_eq_true, if_false] at h
  unfold Skipped
  generalize env.getTransaction w.log sig = r at h ⊢
  match r, h with
  | Except.error _, _ => trivial
  | Except.ok none, _ => trivial
  | Except.ok (some tx), h =>
    simp only [] at h ⊢
    generalize tx.Meta = meta at h ⊢
    match meta, h with
    | none, _ => trivial
    | some m, h =>
      simp only [] at h ⊢
      by_cases hlen : sliceLen m.PreBalances = 0 ∨ sliceLen m.PostBalances = 0
      · rcases hlen with hl | hl
        · exact Or.inl hl
        · exact Or.inr (Or.inl hl)
      · rw [if_neg hlen] at h
        right; right
        cases ha : getTransferAmount (some tx) dividendMint wallet with
        | error p => rw [ha] at h; simp at h
        | ok amount =>
          rw [ha] at h
          simp only [] at h
          refine ⟨amount, rfl, ?_⟩
          by_cases hle : F64.le amount (F64.fin 0) = true
          · exact hle
          · rw [if_neg hle] at h
            cases hb : tx.BlockTime with
            | none => rw [hb] at h; simp at h
            | some bt =>
              rw [hb] at h
              simp only [Prod.mk.injEq, Result.ok.injEq] at h
              rw [← h.1] at habs
              simp only [GoMap.load_store, if_true] at habs
              exact absurd habs (by simp)

/-- After a loop that returns, with answers that do not depend on the log, every
signature of the loop is in the ledger or is passed over. -/
theorem processSignatures_settled (env : LedgerEnv) (dividendMint wallet : String)
    (hdet : ∀ l1 l2 sig, env.getTransaction l1 sig = env.getTransaction l2 sig)
    (sigs : List String) (cache cache1 : DividendCache) (w w1 : LedgerWorld)
    (h : processSignatures env dividendMint wallet sigs cache w = (Result.ok cache1, w1)) :
    ∀ c ∈ sigs, cache1.Transactions.load c = none →
      Skipped (env.getTransaction [] c) dividendMint wallet := by
  induction sigs generalizing cache w with
  | nil => intro c hc; simp at hc
  | cons sig rest ih =>
    simp only [processSignatures] at h
    split at h
    · next c2 w2 hstep =>
      intro c hc habs
      rcases List.mem_cons.mp hc with he | hm
      · subst he
        have habs2 : c2.Transactions.load c = none := by
          cases hl : c2.Transactions.load c with
          | none => rfl
          | some v =>
            have := processSignatures_keeps env dividendMint wallet rest c2 cache1 w2 w1 h c v hl
            rw [habs] at this
            exact absurd this (by simp)
        have := processSignature_absent_skipped env dividendMint wallet c cache c2 w w2 hstep
          habs2
        rw [hdet w.log [] c] at this
        exact this
      · exact ih c2 w2 h c hm habs
    · next r w2 hne hstep =>
      exact absurd (Prod.mk.inj h).1 (hne cache1)

/-- The watermark after the loop is the one before it or one of the signatures of the
loop. -/
theorem processSignatures_lastSignature (env : LedgerEnv) (dividendMint wallet : String)
    (sigs : List String) (cache cache1 : DividendCache) (w w1 : LedgerWorld)
    (h : processSignatures env dividendMint wallet sigs cache w = (Result.ok cache1, w1)) :
    cache1.LastSignature = cache.LastSignature ∨ cache1.LastSignature ∈ sigs := by
  induction sigs generalizing cache w with
  | nil =>
    simp only [processSignatures] at h
    rw [← Result.ok.inj (Prod.mk.inj h).1]
    exact Or.inl rfl
  | cons sig rest ih =>
    simp only [processSignatures] at h
    split at h
    · next c2 w2 hstep =>
      rcases ih c2 w2 h with h1 | h1
      · rcases processSignature_cases env dividendMint wallet sig cache c2 w w2 hstep with
          h2 | ⟨_, transfer, h2⟩
        · rw [h1, h2]
          exact Or.inl rfl
        · rw [h1, h2]
          simp only []
          split
          · exact Or.inr (List.mem_cons_self _ _)
          · exact Or.inl rfl
      · exact Or.inr (List.mem_cons_of_mem _ h1)
    · next r w2 hne hstep =>
      exact absurd (Prod.mk.inj h).1 (hne cache1)

/-- A loop over signatures that are all in the ledger or passed over fetches those that
are not in the ledger and leaves the ledger as it is. -/
theorem processSignatures_rerun (env : LedgerEnv) (dividendMint wallet : String)
    (hdet : ∀ l1 l2 sig, env.getTransaction l1 sig = env.getTransaction l2 sig)
    (sigs : List String) (cache : DividendCache) (w : LedgerWorld)
    (h : ∀ c ∈ sigs, cache.Transactions.load c = none →
      Skipped (env.getTransaction [] c) dividendMint wallet) :
    processSignatures env dividendMint wallet sigs cache w =
      (Result.ok cache,
        { files := w.files,
          log := w.log ++ (sigs.filter (fun c => (cache.Transactions.load c).isNone)).map
            LedgerEvent.getTransaction }) := by
  induction sigs generalizing w with
  | nil => simp [processSignatures]
  | cons sig rest ih =>
    have ihr := fun w => ih w (fun c hc => h c (List.mem_cons_of_mem _ hc))
    unfold processSignatures
    cases hl : cache.Transactions.load sig with
    | some v =>
      have hstep : processSignature env dividendMint wallet sig cache w = (Result.ok cache, w) := by
        unfold processSignature
        rw [hl]
        rfl
      rw [hstep]
      simp only []
      rw [ihr, List.filter_cons, hl]
      rfl
    | none =>
      have hsk := h sig (List.mem_cons_self _ _) hl
      rw [hdet [] w.log sig] at hsk
      rw [processSignature_skipped env dividendMint wallet sig cache w hl hsk]
      simp only []
      rw [ihr, List.filter_cons, hl]
      simp

/-- The candidates under a watermark taken from the candidates are candidates. -/
theorem newSignatures_subset (w0 w1 : String) (sigs : List String) (h1 : w1 ≠ "")
    (hw : w1 = w0 ∨ w1 ∈ newSignatures w0 sigs) :
    ∀ c ∈ newSignatures w1 sigs, c ∈ newSignatures w0 sigs := by
  rcases hw with hw | hw
  · rw [hw]
    exact fun c hc => hc
  · have e1 : newSignatures w1 sigs = sigs.takeWhile (fun sig => decide (sig ≠ w1)) := by
      simp [newSignatures, h1]
    by_cases h0 : w0 = ""
    · have e0 : newSignatures w0 sigs = sigs := by simp [newSignatures, h0]
      rw [e0, e1]
      exact fun c hc => (List.takeWhile_prefix _).subset hc
    · have e0 : newSignatures w0 sigs = sigs.takeWhile (fun sig => decide (sig ≠ w0)) := by
        simp [newSignatures, h0]
      rw [e0] at hw ⊢
      rw [e1]
      clear e0 e1
      induction sigs with
      | nil => intro c hc; simp at hc
      | cons x xs ih =>
        by_cases hx0 : x = w0
        · have t0 : List.takeWhile (fun sig => decide (sig ≠ w0)) (x :: xs) = [] := by
            simp [List.takeWhile_cons, hx0]
          rw [t0] at hw
          simp at hw
        · have t0 : List.takeWhile (fun sig => decide (sig ≠ w0)) (x :: xs) =
              x :: List.takeWhile (fun sig => decide (sig ≠ w0)) xs := by
            simp [List.takeWhile_cons, hx0]
          rw [t0] at hw ⊢
          by_cases hx1 : x = w1
          · have t1 : List.takeWhile (fun sig => decide (sig ≠ w1)) (x :: xs) = [] := by
              simp [List.takeWhile_cons, hx1]
            rw [t1]
            intro c hc
            simp at hc
          · have t1 : List.takeWhile (fun sig => decide (sig ≠ w1)) (x :: xs) =
                x :: List.takeWhile (fun sig => decide (sig ≠ w1)) xs := by
              simp [List.takeWhile_cons, hx1]
            rw [t1]
            have hw1 : w1 ∈ List.takeWhile (fun sig => decide (sig ≠ w0)) xs := by
              rcases List.mem_cons.mp hw with he | hm
              · exact absurd he.symm hx1
              · exact hm
            intro c hc
            rcases List.mem_cons.mp hc with he | hm
            · rw [he]
              exact List.mem_cons_self _ _
            · exact List.mem_cons_of_mem _ (ih hw1 c hm)

theorem GoMap.store_store {α : Type} (m : GoMap α) (k : String) (v v1 : α) :
    (m.store k v).store k v1 = m.store k v1 := by
  simp only [GoMap.store, GoMap.delete, List.filter_append, List.filter_filter]
  have e1 : List.filter (fun p : String × α => decide (p.1 ≠ k)) [(k, v)] = [] := by simp
  rw [e1, List.append_nil]
  congr 1
  apply List.filter_congr
  intro p _
  by_cases hp : p.1 = k <;> simp [hp]

/-- The run from its parts, the converse of `GetDividendHistory_ok`. -/
theorem GetDividendHistory_of (env : LedgerEnv) (cfg : Config) (wallet : String)
    (w w3 : LedgerWorld) (cache cache1 : DividendCache) (sigs : List String)
    (h1 : env.publicKeyFromBase58 wallet = none) (h2 : cfg.Token.DividendMint ≠ "")
    (h3 : env.publicKeyFromBase58 cfg.Token.DividendMint = none)
    (h4 : slicePanics wallet = false) (h5 : slicePanics cfg.Token.DividendMint = false)
    (hl : loadDividendCache env wallet w =
      (Result.ok cache,
        { files := w.files, log := w.log ++ [LedgerEvent.readFile (cacheFile wallet)] }))
    (h6 : cache.LastSignature = "" ∨ slicePanics cache.LastSignature = false)
    (hs : env.getSignaturesForAddress (w.log ++ [LedgerEvent.readFile (cacheFile wallet)])
      wallet = Except.ok sigs)
    (hp : processSignatures env cfg.Token.DividendMint wallet
      (newSignatures cache.LastSignature sigs) cache
      { files := w.files,
        log := w.log ++ [LedgerEvent.readFile (cacheFile wallet)] ++
          [LedgerEvent.getSignatures wallet] } = (Result.ok cache1, w3)) :
    GetDividendHistory env cfg wallet w =
      (Result.ok (totals
          (env.rangeOrder (saveDividendCache env wallet
            { cache1 with LastUpdate := env.now w3.log } w3).2.log)
          (env.now (saveDividendCache env wallet
            { cache1 with LastUpdate := env.now w3.log } w3).2.log) cache1.Transactions),
        (saveDividendCache env wallet { cache1 with LastUpdate := env.now w3.log } w3).2) := by
  have h7 : ¬ (cache.LastSignature ≠ "" ∧ slicePanics cache.LastSignature = true) := by
    rintro ⟨ha, hb⟩
    rcases h6 with h6 | h6
    · exact ha h6
    · rw [h6] at hb
      exact absurd hb (by simp)
  unfold GetDividendHistory
  simp only [h1, h2, h3, h4, h5, hl, hs, if_false, Bool.or_self, Bool.false_eq_true,
    if_neg h7, hp]

theorem newSignatures_mem (w0 : String) (sigs : List String) :
    ∀ c ∈ newSignatures w0 sigs, c ∈ sigs := by
  unfold newSignatures
  split
  · exact fun c hc => (List.takeWhile_prefix _).subset hc
  · exact fun c hc => hc

/-- The entries of a map with at most one entry come in one order. -/
theorem GoMap.range_short {α : Type} (m : GoMap α) (picks : List ℕ) (h : m.length ≤ 1) :
    m.range picks = m := by
  match m, h with
  | [], _ => cases picks <;> simp [GoMap.range]
  | [p], _ => exact GoMap.range_single p picks

/-- C21, amended: after a run of `GetDividendHistory` that returns, with transaction
responses and a signature list that do not depend on the moment of the call, a clock that
stands still and a file system that works, a second run from the persisted ledger fetches
again exactly the signatures listed before the ledger watermark that are not in the
ledger, each of which is passed over again; it inserts nothing and writes the same ledger
to the same file.  Its aggregates are taken over the same ledger at the same time, in
the order in which its own loop goes through the map: the count, the last time of
receipt and the records summed are those of the first run, and the aggregates are the
same when the two loops go through the map in the same order, as they must for a ledger
of at most one record. -/
theorem GetDividendHistory_second_run (env : LedgerEnv) (cfg : Config) (wallet : String)
    (sigs : List String) (w w1 : LedgerWorld) (info : DividendInfo)
    (hdet : ∀ l1 l2 sig, env.getTransaction l1 sig = env.getTransaction l2 sig)
    (hlist : ∀ l, env.getSignaturesForAddress l wallet = Except.ok sigs)
    (hclock : ∀ l1 l2, env.now l1 = env.now l2)
    (hmk : ∀ l, env.mkdirAll l = none)
    (hread : ∀ l p, env.readFails l p = none)
    (hwrite : ∀ l p, env.writeFails l p = none)
    (hsig : ∀ s ∈ sigs, slicePanics s = false)
    (h1 : GetDividendHistory env cfg wallet w = (Result.ok info, w1)) :
    ∃ (ledger : DividendCache) (info2 : DividendInfo) (w2 : LedgerWorld),
      w1.files.load (cacheFile wallet) = some ledger ∧
      (∀ c ∈ (newSignatures ledger.LastSignature sigs).filter
          (fun c => (ledger.Transactions.load c).isNone),
        Skipped (env.getTransaction [] c) cfg.Token.DividendMint wallet) ∧
      GetDividendHistory env cfg wallet w1 = (Result.ok info2, w2) ∧
      w2.files = w1.files ∧
      w2.log = w1.log ++
          [LedgerEvent.readFile (cacheFile wallet), LedgerEvent.getSignatures wallet] ++
          ((newSignatures ledger.LastSignature sigs).filter
            (fun c => (ledger.Transactions.load c).isNone)).map
              LedgerEvent.getTransaction ++
          [LedgerEvent.writeFile (cacheFile wallet) ledger] ∧
      info = totals (env.rangeOrder w1.log) (env.now w1.log) ledger.Transactions ∧
      info2 = totals (env.rangeOrder w2.log) (env.now w1.log) ledger.Transactions ∧
      info2.TransferCount = info.TransferCount ∧
      info2.LastReceived = info.LastReceived ∧
      info2.USDValue = info.USDValue ∧
      (ledger.Transactions.range (env.rangeOrder w2.log)).Perm
        (ledger.Transactions.range (env.rangeOrder w1.log)) ∧
      (ledger.Transactions.range (env.rangeOrder w2.log) =
        ledger.Transactions.range (env.rangeOrder w1.log) → info2 = info) ∧
      (ledger.Transactions.length ≤ 1 → info2 = info) := by
  obtain ⟨k1, k2, k3, k4, k5, cache, sigs1, cache1, w3, hl, h6, hs, hp, hw1, hinfo⟩ :=
    GetDividendHistory_ok env cfg wallet w w1 info h1
  have es : sigs1 = sigs := by
    have := hs.symm.trans (hlist _)
    exact Except.ok.inj this
  subst es
  have hsave : ∀ (c : DividendCache) (v : LedgerWorld),
      (saveDividendCache env wallet c v).2 =
        { files := v.files.store (cacheFile wallet) c,
          log := v.log ++ [LedgerEvent.writeFile (cacheFile wallet) c] } := by
    intro c v
    simp [saveDividendCache, hwrite]
  rw [hsave] at hw1
  have hload1 : w1.files.load (cacheFile wallet) =
      some { cache1 with LastUpdate := env.now w3.log } := by
    rw [hw1]
    simp [GoMap.load_store]
  -- the watermark of the ledger
  have hW := processSignatures_lastSignature env cfg.Token.DividendMint wallet _ cache cache1
    _ w3 hp
  have hsettled : ∀ c ∈ newSignatures cache1.LastSignature sigs1,
      cache1.Transactions.load c = none →
        Skipped (env.getTransaction [] c) cfg.Token.DividendMint wallet := by
    intro c hc
    have hc0 : c ∈ newSignatures cache.LastSignature sigs1 := by
      rcases hW with hW | hW
      · rw [hW] at hc
        exact hc
      · have hne : cache1.LastSignature ≠ "" := by
          intro e
          have := hsig _ (newSignatures_mem _ _ _ hW)
          rw [e] at this
          exact absurd this (by decide)
        exact newSignatures_subset _ _ _ hne (Or.inr hW) c hc
    exact processSignatures_settled env cfg.Token.DividendMint wallet hdet _ cache cache1 _ w3
      hp c hc0
  have hfetched : ∀ c ∈ (newSignatures cache1.LastSignature sigs1).filter
      (fun c => (cache1.Transactions.load c).isNone),
      Skipped (env.getTransaction [] c) cfg.Token.DividendMint wallet := by
    intro c hc
    rw [List.mem_filter] at hc
    exact hsettled c hc.1 (by simpa using hc.2)
  have hl2 : loadDividendCache env wallet w1 =
      (Result.ok { cache1 with LastUpdate := env.now w3.log },
        { files := w1.files, log := w1.log ++ [LedgerEvent.readFile (cacheFile wallet)] }) := by
    unfold loadDividendCache
    simp only [hmk, k4, hread, hload1, Bool.false_eq_true, if_false]
  have h62 : cache1.LastSignature = "" ∨ slicePanics cache1.LastSignature = false := by
    rcases hW with hW | hW
    · rw [hW]
      exact h6
    · exact Or.inr (hsig _ (newSignatures_mem _ _ _ hW))
  have hp2 := processSignatures_rerun env cfg.Token.DividendMint wallet hdet
    (newSignatures cache1.LastSignature sigs1) { cache1 with LastUpdate := env.now w3.log }
    { files := w1.files,
      log := w1.log ++ [LedgerEvent.readFile (cacheFile wallet)] ++
        [LedgerEvent.getSignatures wallet] } hsettled
  have hrun := GetDividendHistory_of env cfg wallet w1 _
    { cache1 with LastUpdate := env.now w3.log }
    { cache1 with LastUpdate := env.now w3.log } sigs1 k1 k2 k3 k4 k5 hl2 h62 (hlist _) hp2
  rw [hsave] at hrun
  have e1 : env.now (w1.log ++ [LedgerEvent.readFile (cacheFile wallet)] ++
        [LedgerEvent.getSignatures wallet] ++
        (List.filter (fun c => (cache1.Transactions.load c).isNone)
          (newSignatures cache1.LastSignature sigs1)).map LedgerEvent.getTransaction) =
      env.now w3.log := hclock _ _
  have e2 : w1.files.store (cacheFile wallet) { cache1 with LastUpdate := env.now w3.log } =
      w1.files := by
    rw [hw1]
    exact GoMap.store_store _ _ _ _
  have hnow : ∀ l, env.now l = env.now w1.log := fun l => hclock l w1.log
  simp only [e1] at hrun
  rw [e2] at hrun
  have hrun2 : GetDividendHistory env cfg wallet w1 =
      (Result.ok (totals
          (env.rangeOrder (w1.log ++
            [LedgerEvent.readFile (cacheFile wallet), LedgerEvent.getSignatures wallet] ++
            ((newSignatures cache1.LastSignature sigs1).filter
              (fun c => (cache1.Transactions.load c).isNone)).map
                LedgerEvent.getTransaction ++
            [LedgerEvent.writeFile (cacheFile wallet)
              { cache1 with LastUpdate := env.now w3.log }]))
          (env.now w1.log) cache1.Transactions),
        { files := w1.files,
          log := w1.log ++
            [LedgerEvent.readFile (cacheFile wallet), LedgerEvent.getSignatures wallet] ++
            ((newSignatures cache1.LastSignature sigs1).filter
              (fun c => (cache1.Transactions.load c).isNone)).map
                LedgerEvent.getTransaction ++
            [LedgerEvent.writeFile (cacheFile wallet)
              { cache1 with LastUpdate := env.now w3.log }] }) := by
    rw [hrun]
    simp only [List.append_assoc, List.singleton_append, List.cons_append, List.nil_append]
    rw [hnow (_ ++ _)]
  refine ⟨{ cache1 with LastUpdate := env.now w3.log }, _, _, hload1, hfetched, hrun2, rfl,
    rfl, hinfo, rfl, ?_, ?_, ?_, ?_, ?_, ?_⟩
  · rw [hinfo, (totals_spec _ _ _).1, (totals_spec _ _ _).1]
  · rw [hinfo, (totals_spec _ _ _).2.1, (totals_spec _ _ _).2.1]
  · rw [hinfo, (totals_spec _ _ _).2.2.1, (totals_spec _ _ _).2.2.1]
  · exact (GoMap.range_perm _ _).trans (GoMap.range_perm _ _).symm
  · intro he
    rw [hinfo]
    unfold totals
    rw [he]
  · intro hlen
    rw [hinfo]
    unfold totals
    rw [GoMap.range_short _ _ hlen, GoMap.range_short _ _ hlen]

/-- The second run of the example ledger: it starts from the ledger `{sigB}` under the
watermark `sigB`, fetches `sigA` again, passes it over again, writes the same ledger and,
the ledger having one record, returns the same totals. -/
theorem GetDividendHistory_second_run_witness :
    ∃ (ledger : DividendCache) (info2 : DividendInfo) (w2 : LedgerWorld),
      demoFirstRunWorld.files.load (cacheFile walletKey) = some ledger ∧
      (∀ c ∈ (newSignatures ledger.LastSignature [sigA, sigB, sigC]).filter
          (fun c => (ledger.Transactions.load c).isNone),
        Skipped (demoLedgerEnv.getTransaction [] c) demoLedgerConfig.Token.DividendMint
          walletKey) ∧
      GetDividendHistory demoLedgerEnv demoLedgerConfig walletKey demoFirstRunWorld =
        (Result.ok info2, w2) ∧
      w2.files = demoFirstRunWorld.files ∧
      w2.log = demoFirstRunWorld.log ++
          [LedgerEvent.readFile (cacheFile walletKey), LedgerEvent.getSignatures walletKey] ++
          ((newSignatures ledger.LastSignature [sigA, sigB, sigC]).filter
            (fun c => (ledger.Transactions.load c).isNone)).map
              LedgerEvent.getTransaction ++
          [LedgerEvent.writeFile (cacheFile walletKey) ledger] ∧
      demoLedgerInfo =
        totals (demoLedgerEnv.rangeOrder demoFirstRunWorld.log)
          (demoLedgerEnv.now demoFirstRunWorld.log) ledger.Transactions ∧
      info2 = totals (demoLedgerEnv.rangeOrder w2.log)
          (demoLedgerEnv.now demoFirstRunWorld.log) ledger.Transactions ∧
      info2.TransferCount = demoLedgerInfo.TransferCount ∧
      info2.LastReceived = demoLedgerInfo.LastReceived ∧
      info2.USDValue = demoLedgerInfo.USDValue ∧
      (ledger.Transactions.range (demoLedgerEnv.rangeOrder w2.log)).Perm
        (ledger.Transactions.range (demoLedgerEnv.rangeOrder demoFirstRunWorld.log)) ∧
      (ledger.Transactions.range (demoLedgerEnv.rangeOrder w2.log) =
        ledger.Transactions.range (demoLedgerEnv.rangeOrder demoFirstRunWorld.log) →
        info2 = demoLedgerInfo) ∧
      (ledger.Transactions.length ≤ 1 → info2 = demoLedgerInfo) :=
  GetDividendHistory_second_run demoLedgerEnv demoLedgerConfig walletKey [sigA, sigB, sigC]
    { files := [], log := [] } demoFirstRunWorld demoLedgerInfo
    (fun _ _ _ => rfl) (fun _ => rfl) (fun _ _ => rfl)
    (fun _ => rfl) (fun _ _ => rfl) (fun _ _ => rfl) (by decide!) (by decide!)

/-- C21 fails as stated, in both halves.  In the example ledger, whose responses do not
depend on the moment of the call, the first run fetches `sigA`, `sigB`, `sigC` and
persists the ledger `{sigB}`; the second run, over the same list and from that ledger,
fetches `sigA` once more.  In the world of three dividends the second run fetches
nothing, and its loop goes through the same three records in another order than the loop
of the first run: the totals of the two runs differ in the last bit. -/
theorem GetDividendHistory_refetch_counterexample :
    (GetDividendHistory demoLedgerEnv demoLedgerConfig walletKey
      (GetDividendHistory demoLedgerEnv demoLedgerConfig walletKey
        { files := [], log := [] }).2).2.log =
      [LedgerEvent.readFile (cacheFile walletKey), LedgerEvent.getSignatures walletKey,
        LedgerEvent.getTransaction sigA, LedgerEvent.getTransaction sigB,
        LedgerEvent.getTransaction sigC,
        LedgerEvent.writeFile (cacheFile walletKey) demoLedgerCache,
        LedgerEvent.readFile (cacheFile walletKey), LedgerEvent.getSignatures walletKey,
        LedgerEvent.getTransaction sigA,
        LedgerEvent.writeFile (cacheFile walletKey) demoLedgerCache] ∧
    (GetDividendHistory demoThreeLedgerEnv demoLedgerConfig walletKey
        { files := [], log := [] }).1 =
      Result.ok (demoThreeInfo (F64.fin (5404319552844596 / 9007199254740992))) ∧
    (GetDividendHistory demoThreeLedgerEnv demoLedgerConfig walletKey
      (GetDividendHistory demoThreeLedgerEnv demoLedgerConfig walletKey
        { files := [], log := [] }).2).1 =
      Result.ok (demoThreeInfo (F64.fin (5404319552844595 / 9007199254740992))) ∧
    (GetDividendHistory demoThreeLedgerEnv demoLedgerConfig walletKey
      (GetDividendHistory demoThreeLedgerEnv demoLedgerConfig walletKey
        { files := [], log := [] }).2).2.files =
      (GetDividendHistory demoThreeLedgerEnv demoLedgerConfig walletKey
        { files := [], log := [] }).2.files ∧
    ((GetDividendHistory demoThreeLedgerEnv demoLedgerConfig walletKey
      (GetDividendHistory demoThreeLedgerEnv demoLedgerConfig walletKey
        { files := [], log := [] }).2).2.log.filter LedgerEvent.isGetTransaction) =
      [LedgerEvent.getTransaction sigX, LedgerEvent.getTransaction sigY,
        LedgerEvent.getTransaction sigZ] := by
  refine ⟨by decide!, by decide!, by decide!, by decide!, by decide!⟩

/-! ## Theorems: the main loop of the bot -/

theorem int64_of_range (x : ℤ) (h0 : -2 ^ 63 ≤ x) (h1 : x < 2 ^ 63) : int64 x = x := by
  unfold int64
  omega

theorem int64_succ_succ_ne (x : ℤ) : int64 (int64 (x + 1) + 1) ≠ x + 1 := by
  unfold int64
  omega

/-- The round of the main loop on a sample that meets the target, when the swap fails
and the error channel has room: the balance and the sample time are stored, the error is
counted, and the error is queued. -/
theorem round_failed_swap (env : Env) (cfg : Config) (wallet : Wallet) (now : ℤ) (b : Bot)
    (check : BalanceCheck) (log log1 : List Event) (e : Err)
    (herr : check.Error = none) (hmet : check.MetTarget = true)
    (hswap : Trader.ExecuteSwap env cfg wallet check.Balance log = (Result.err e, log1))
    (hroom : b.errorChan.buf.length < b.errorChan.cap) :
    b.round env cfg wallet now log (Select.result check) =
      (Round.running
        { isRunning := b.isRunning,
          stateChan := some
            { CurrentBalance := check.Balance, LastSwapAmount := b.getState.LastSwapAmount,
              LastSwapTime := check.Timestamp, TotalSwaps := b.getState.TotalSwaps,
              Errors := int64 (b.getState.Errors + 1), Status := Status.StatusError },
          errorChan := { buf := b.errorChan.buf ++ [Err.swapFailed e],
                         cap := b.errorChan.cap } }, log1) := by
  simp only [Bot.round, Bot.handleBalanceCheck, herr, hmet, hswap, if_true, Bot.updateState,
    Chan.send, if_pos hroom]

/-- The round of the main loop on a queued error: the state is replaced by a fresh one
that holds the status and the error count only. -/
theorem round_error (env : Env) (cfg : Config) (wallet : Wallet) (now : ℤ) (b : Bot)
    (log : List Event) (e : Err) (rest : List Err) (h : b.errorChan.buf = e :: rest) :
    b.round env cfg wallet now log Select.errorChan =
      (Round.running
        { isRunning := b.isRunning,
          stateChan := some
            { CurrentBalance := F64.fin 0, LastSwapAmount := F64.fin 0,
              LastSwapTime := zeroTime, TotalSwaps := 0,
              Errors := int64 (b.getState.Errors + 1), Status := Status.StatusError },
          errorChan := { buf := rest, cap := b.errorChan.cap } }, log) := by
  simp only [Bot.round, Chan.recv, h, Bot.updateState, Bot.getState]

/-- The two rounds of a failed swap, from an empty error channel with room. -/
theorem rounds_failed_swap (env : Env) (cfg : Config) (wallet : Wallet) (now : ℤ) (b : Bot)
    (check : BalanceCheck) (log log1 : List Event) (e : Err)
    (herr : check.Error = none) (hmet : check.MetTarget = true)
    (hswap : Trader.ExecuteSwap env cfg wallet check.Balance log = (Result.err e, log1))
    (hempty : b.errorChan.buf = []) (hcap : 0 < b.errorChan.cap) :
    b.rounds env cfg wallet now log [Select.result check, Select.errorChan] =
      (Round.running
        { isRunning := b.isRunning,
          stateChan := some
            { CurrentBalance := F64.fin 0, LastSwapAmount := F64.fin 0,
              LastSwapTime := zeroTime, TotalSwaps := 0,
              Errors := int64 (int64 (b.getState.Errors + 1) + 1),
              Status := Status.StatusError },
          errorChan := { buf := [], cap := b.errorChan.cap } }, log1) := by
  have hroom : b.errorChan.buf.length < b.errorChan.cap := by
    rw [hempty]
    exact hcap
  have r1 := round_failed_swap env cfg wallet now b check log log1 e herr hmet hswap hroom
  rw [hempty, List.nil_append] at r1
  simp only [Bot.rounds, r1]
  rw [round_error env cfg wallet now _ log1 (Err.swapFailed e) [] rfl]
  rfl

/-- C24, as the code has it: when the swap fails on a sample that meets the target, the
round that handles the sample stores the balance and the time of the sample as the last
swap time, counts the error and leaves the swap amount and the swap count alone; the
round that handles the queued error then replaces the state by a fresh one, in which the
balance, the last swap amount and the swap count are zero and the last swap time is the
zero time, whatever they were before. -/
theorem failed_swap_resets_state (env : Env) (cfg : Config) (wallet : Wallet) (now : ℤ)
    (b : Bot) (check : BalanceCheck) (log log1 : List Event) (e : Err)
    (herr : check.Error = none) (hmet : check.MetTarget = true)
    (hswap : Trader.ExecuteSwap env cfg wallet check.Balance log = (Result.err e, log1))
    (hempty : b.errorChan.buf = []) (hcap : 0 < b.errorChan.cap) :
    (∃ b1, b.rounds env cfg wallet now log [Select.result check] = (Round.running b1, log1) ∧
      b1.getState.LastSwapAmount = b.getState.LastSwapAmount ∧
      b1.getState.TotalSwaps = b.getState.TotalSwaps ∧
      b1.getState.LastSwapTime = check.Timestamp ∧
      b1.getState.CurrentBalance = check.Balance ∧
      b1.errorChan.buf = [Err.swapFailed e]) ∧
    ∃ b2, b.rounds env cfg wallet now log [Select.result check, Select.errorChan] =
        (Round.running b2, log1) ∧
      b2.getState.LastSwapAmount = F64.fin 0 ∧
      b2.getState.TotalSwaps = 0 ∧
      b2.getState.LastSwapTime = zeroTime ∧
      b2.getState.CurrentBalance = F64.fin 0 ∧
      b2.getState.Status = Status.StatusError ∧
      b2.errorChan.buf = [] := by
  have hroom : b.errorChan.buf.length < b.errorChan.cap := by
    rw [hempty]
    exact hcap
  have r1 := round_failed_swap env cfg wallet now b check log log1 e herr hmet hswap hroom
  rw [hempty, List.nil_append] at r1
  have hr1 : b.rounds env cfg wallet now log [Select.result check] =
      (Round.running
        { isRunning := b.isRunning,
          stateChan := some
            { CurrentBalance := check.Balance, LastSwapAmount := b.getState.LastSwapAmount,
              LastSwapTime := check.Timestamp, TotalSwaps := b.getState.TotalSwaps,
              Errors := int64 (b.getState.Errors + 1), Status := Status.StatusError },
          errorChan := { buf := [Err.swapFailed e], cap := b.errorChan.cap } }, log1) := by
    simp only [Bot.rounds, r1]
  refine ⟨⟨_, hr1, rfl, rfl, rfl, rfl, rfl⟩, ?_⟩
  exact ⟨_, rounds_failed_swap env cfg wallet now b check log log1 e herr hmet hswap hempty
    hcap, rfl, rfl, rfl, rfl, rfl, rfl⟩

/-- The example bot on a sample of 1.2 SOL against the threshold 1: the swap of 1.5 SOL
with 0.5 in reserve fails for lack of balance, and after the two rounds the three swaps
done before, the last swap amount and the last swap time are gone. -/
theorem failed_swap_resets_state_witness :
    (∃ b1, demoBot.rounds demoLowImpact.env (Demo.config 50 3) demoWallet
        1700000600000000000 []
        [Select.result (sampleOf 1200000000 1700000300000000000 (F64.fin 1))] =
        (Round.running b1, []) ∧
      b1.getState.LastSwapAmount = demoBot.getState.LastSwapAmount ∧
      b1.getState.TotalSwaps = demoBot.getState.TotalSwaps ∧
      b1.getState.LastSwapTime =
        (sampleOf 1200000000 1700000300000000000 (F64.fin 1)).Timestamp ∧
      b1.getState.CurrentBalance =
        (sampleOf 1200000000 1700000300000000000 (F64.fin 1)).Balance ∧
      b1.errorChan.buf = [Err.swapFailed Err.insufficientBalance]) ∧
    ∃ b2, demoBot.rounds demoLowImpact.env (Demo.config 50 3) demoWallet
        1700000600000000000 []
        [Select.result (sampleOf 1200000000 1700000300000000000 (F64.fin 1)),
         Select.errorChan] = (Round.running b2, []) ∧
      b2.getState.LastSwapAmount = F64.fin 0 ∧
      b2.getState.TotalSwaps = 0 ∧
      b2.getState.LastSwapTime = zeroTime ∧
      b2.getState.CurrentBalance = F64.fin 0 ∧
      b2.getState.Status = Status.StatusError ∧
      b2.errorChan.buf = [] :=
  failed_swap_resets_state demoLowImpact.env (Demo.config 50 3) demoWallet
    1700000600000000000 demoBot (sampleOf 1200000000 1700000300000000000 (F64.fin 1)) [] []
    Err.insufficientBalance rfl (by decide!) (by decide!) rfl (by decide)

/-- C26, as the code has it: when the swap fails on a sample that meets the target and
the error channel is empty and has room, the two rounds of the main loop, the one that
handles the sample and the one that handles the queued error, leave the loop running
with the status Error and an error count raised twice, once in each round: it is never
the count before plus one, and it is the count before plus two below the top of
`int64`.  `GetStats` reports it as the number of failed swaps. -/
theorem failed_swap_counts_twice (env : Env) (cfg : Config) (wallet : Wallet) (now : ℤ)
    (b : Bot) (check : BalanceCheck) (log log1 : List Event) (e : Err)
    (herr : check.Error = none) (hmet : check.MetTarget = true)
    (hswap : Trader.ExecuteSwap env cfg wallet check.Balance log = (Result.err e, log1))
    (hempty : b.errorChan.buf = []) (hcap : 0 < b.errorChan.cap) :
    ∃ b2, b.rounds env cfg wallet now log [Select.result check, Select.errorChan] =
        (Round.running b2, log1) ∧
      b2.isRunning = b.isRunning ∧
      b2.getState.Status = Status.StatusError ∧
      b2.getState.Errors = int64 (int64 (b.getState.Errors + 1) + 1) ∧
      b2.getState.Errors ≠ b.getState.Errors + 1 ∧
      (-2 ^ 63 ≤ b.getState.Errors → b.getState.Errors + 2 < 2 ^ 63 →
        b2.getState.Errors = b.getState.Errors + 2) ∧
      b2.GetStats.2.2 = b2.getState.Errors := by
  refine ⟨_, rounds_failed_swap env cfg wallet now b check log log1 e herr hmet hswap hempty
    hcap, rfl, rfl, rfl, int64_succ_succ_ne _, ?_, rfl⟩
  intro h0 h1
  show int64 (int64 (b.getState.Errors + 1) + 1) = b.getState.Errors + 2
  rw [int64_of_range (b.getState.Errors + 1) (by omega) (by omega),
    int64_of_range _ (by omega) (by omega)]
  omega

/-- The example bot on a sample of 5 SOL in the world whose quotes carry a price impact
above the cap: the swap fails once, and the two rounds leave the error count at 2. -/
theorem failed_swap_counts_twice_witness :
    ∃ b2, demoBot.rounds demoHighImpact.env (Demo.config 50 3) demoWallet
        1700000600000000000 []
        [Select.result (sampleOf 5000000000 1700000300000000000 (F64.fin 1)),
         Select.errorChan] =
        (Round.running b2,
          (Trader.ExecuteSwap demoHighImpact.env (Demo.config 50 3) demoWallet (F64.fin 5)
            []).2) ∧
      b2.isRunning = demoBot.isRunning ∧
      b2.getState.Status = Status.StatusError ∧
      b2.getState.Errors = int64 (int64 (demoBot.getState.Errors + 1) + 1) ∧
      b2.getState.Errors ≠ demoBot.getState.Errors + 1 ∧
      (-2 ^ 63 ≤ demoBot.getState.Errors → demoBot.getState.Errors + 2 < 2 ^ 63 →
        b2.getState.Errors = demoBot.getState.Errors + 2) ∧
      b2.GetStats.2.2 = b2.getState.Errors :=
  failed_swap_counts_twice demoHighImpact.env (Demo.config 50 3) demoWallet
    1700000600000000000 demoBot (sampleOf 5000000000 1700000300000000000 (F64.fin 1)) [] _
    Err.priceImpactTooHigh rfl (by decide!) (by decide!) rfl (by decide)

/-- The round of the main loop on a failed swap when the error channel is full: the send
of the error never completes, since the loop itself is the only receiver. -/
theorem round_failed_swap_blocked (env : Env) (cfg : Config) (wallet : Wallet) (now : ℤ)
    (b : Bot) (check : BalanceCheck) (log log1 : List Event) (e : Err)
    (herr : check.Error = none) (hmet : check.MetTarget = true)
    (hswap : Trader.ExecuteSwap env cfg wallet check.Balance log = (Result.err e, log1))
    (hfull : ¬ b.errorChan.buf.length < b.errorChan.cap) :
    b.round env cfg wallet now log (Select.result check) =
      (Round.blocked
        { isRunning := b.isRunning,
          stateChan := some
            { CurrentBalance := check.Balance, LastSwapAmount := b.getState.LastSwapAmount,
              LastSwapTime := check.Timestamp, TotalSwaps := b.getState.TotalSwaps,
              Errors := int64 (b.getState.Errors + 1), Status := Status.StatusError },
          errorChan := b.errorChan }, log1) := by
  simp only [Bot.round, Bot.handleBalanceCheck, herr, hmet, hswap, if_true, Bot.updateState,
    Chan.send, if_neg hfull]

/-! ## Theorems: the loop of the monitor -/

theorem MonitorLoop.ticks_append (l : MonitorLoop) (xs ys : List (Except Err ℕ)) :
    l.ticks (xs ++ ys) = (l.ticks xs).ticks ys := by
  induction xs generalizing l with
  | nil => rfl
  | cons x xs ih => exact ih (l.tick x)

theorem checkBalance_fields (m : Monitor) (getBalance : Except Err ℕ) (now : ℤ) :
    (m.checkBalance getBalance now).2.minBalance = m.minBalance ∧
    (m.checkBalance getBalance now).2.checkInterval = m.checkInterval := by
  unfold Monitor.checkBalance
  cases getBalance <;> exact ⟨rfl, rfl⟩

/-- A row of ticks leaves the threshold and the interval field of the monitor and the
period of the ticker as they are, and polls once per period. -/
theorem MonitorLoop.ticks_spec (l : MonitorLoop) (answers : List (Except Err ℕ)) :
    (l.ticks answers).m.minBalance = l.m.minBalance ∧
    (l.ticks answers).m.checkInterval = l.m.checkInterval ∧
    (l.ticks answers).period = l.period ∧
    (l.ticks answers).nextTick = l.nextTick + answers.length * l.period ∧
    (l.ticks answers).polls =
      l.polls ++ (List.range answers.length).map (fun k : ℕ => l.nextTick + k * l.period) := by
  induction answers generalizing l with
  | nil => simp [MonitorLoop.ticks]
  | cons a rest ih =>
    obtain ⟨h1, h2, h3, h4, h5⟩ := ih (l.tick a)
    have hf := checkBalance_fields l.m a l.nextTick
    refine ⟨h1.trans hf.1, h2.trans hf.2, h3, ?_, ?_⟩
    · show ((l.tick a).ticks rest).nextTick = _
      rw [h4]
      simp only [MonitorLoop.tick, List.length_cons]
      push_cast
      ring
    · show ((l.tick a).ticks rest).polls = _
      rw [h5]
      simp only [MonitorLoop.tick, List.length_cons, List.range_succ_eq_map, List.map_cons,
        List.map_map, List.append_assoc, List.singleton_append]
      congr 1
      congr 1
      · simp
      · apply List.map_congr_left
        intro k _
        simp only [Function.comp_apply]
        push_cast
        ring

/-- What `Start` leaves when it enters its loop. -/
theorem Monitor.Start_ok (m : Monitor) (getBalance : Except Err ℕ) (now : ℤ)
    (l : MonitorLoop) (hstart : m.Start getBalance now = Result.ok l) :
    0 < m.checkInterval ∧
    l = { m := (m.checkBalance getBalance now).2, period := m.checkInterval,
          nextTick := now + m.checkInterval, polls := [now] } := by
  unfold Monitor.Start at hstart
  by_cases h : m.checkInterval ≤ 0
  · rw [if_pos h] at hstart
    exact absurd hstart (by simp)
  · rw [if_neg h] at hstart
    refine ⟨not_le.mp h, ?_⟩
    rcases hc : m.checkBalance getBalance now with ⟨r, m1⟩
    rw [hc] at hstart
    cases r with
    | some e => exact absurd hstart (by simp)
    | none => exact (Result.ok.inj hstart).symm

/-- The poll of a tick on an answer of `GetBalance`: the sample is classified against the
threshold of the monitor at that moment and offered to the result channel. -/
theorem MonitorLoop.tick_sample (l : MonitorLoop) (lamports : ℕ) :
    (l.tick (Except.ok lamports)).m.resultChan =
      (l.m.resultChan.trySend (sampleOf lamports l.nextTick l.m.minBalance)).1 := rfl

/-- C25, as the code has it: after `Start` has entered its loop, `UpdateMinBalance(x)`
makes every later poll of the loop classify against `x`, and `UpdateCheckInterval(d)`
sets the interval field to `d` but leaves the ticker of the loop alone: the following
polls come one old interval after the other, at the instants they would have come at
without the call. -/
theorem update_on_running_loop (m : Monitor) (getBalance : Except Err ℕ) (now : ℤ)
    (l : MonitorLoop) (x : F64) (d : ℤ) (answers : List (Except Err ℕ))
    (hstart : m.Start getBalance now = Result.ok l) :
    (∀ lamports : ℕ,
      ((l.call (fun m => m.UpdateMinBalance x)).ticks
          (answers ++ [Except.ok lamports])).m.resultChan =
        (((l.call (fun m => m.UpdateMinBalance x)).ticks answers).m.resultChan.trySend
          (sampleOf lamports (now + m.checkInterval + answers.length * m.checkInterval)
            x)).1) ∧
    ((l.call (fun m => m.UpdateCheckInterval d)).ticks answers).m.checkInterval = d ∧
    0 < m.checkInterval ∧
    ((l.call (fun m => m.UpdateCheckInterval d)).ticks answers).polls =
      now :: (List.range answers.length).map
        (fun k : ℕ => now + m.checkInterval + k * m.checkInterval) ∧
    ((l.call (fun m => m.UpdateCheckInterval d)).ticks answers).nextTick =
      now + m.checkInterval + answers.length * m.checkInterval ∧
    ((l.call (fun m => m.UpdateCheckInterval d)).ticks answers).polls =
      (l.ticks answers).polls := by
  obtain ⟨hpos, hl⟩ := Monitor.Start_ok m getBalance now l hstart
  have hperiod : ∀ f : Monitor → Monitor, (l.call f).period = m.checkInterval := by
    intro f
    rw [hl]
    rfl
  have hnext : ∀ f : Monitor → Monitor, (l.call f).nextTick = now + m.checkInterval := by
    intro f
    rw [hl]
    rfl
  have hpolls : ∀ f : Monitor → Monitor, (l.call f).polls = [now] := by
    intro f
    rw [hl]
    rfl
  have hspec := fun f : Monitor → Monitor => MonitorLoop.ticks_spec (l.call f) answers
  have hsame := MonitorLoop.ticks_spec l answers
  refine ⟨?_, ?_, hpos, ?_, ?_, ?_⟩
  · intro lamports
    rw [MonitorLoop.ticks_append]
    obtain ⟨h1, _, _, h4, _⟩ := hspec (fun m => m.UpdateMinBalance x)
    show (MonitorLoop.tick _ (Except.ok lamports)).m.resultChan = _
    rw [MonitorLoop.tick_sample, h1, h4, hnext, hperiod]
    rfl
  · exact (hspec _).2.1
  · rw [(hspec _).2.2.2.2, hnext, hperiod, hpolls]
    rfl
  · rw [(hspec _).2.2.2.1, hnext, hperiod]
  · rw [(hspec _).2.2.2.2, hsame.2.2.2.2]
    rfl

/-- A monitor started with an interval of 5 minutes: after `UpdateCheckInterval` to 1
minute the next three polls come 5, 10 and 15 minutes after the start, and after
`UpdateMinBalance(2.5)` a poll that reads 2 SOL is classified against 2.5. -/
theorem update_on_running_loop_witness :
    (NewMonitor (F64.fin 1) 300000000000).Start (Except.ok 2000000000) 0 =
      Result.ok
        { m := { minBalance := F64.fin 1, checkInterval := 300000000000,
                 resultChan := { buf := [sampleOf 2000000000 0 (F64.fin 1)], cap := 1 } },
          period := 300000000000, nextTick := 300000000000, polls := [0] } ∧
    (sampleOf 2000000000 600000000000 (F64.fin (5 / 2))).MetTarget = false ∧
    (MonitorLoop.ticks (MonitorLoop.call
        { m := { minBalance := F64.fin 1, checkInterval := 300000000000,
                 resultChan := { buf := [sampleOf 2000000000 0 (F64.fin 1)], cap := 1 } },
          period := 300000000000, nextTick := 300000000000, polls := [0] }
        (fun m => m.UpdateCheckInterval 60000000000))
      [Except.ok 2000000000, Except.ok 2000000000, Except.ok 2000000000]).polls =
      [0, 300000000000, 600000000000, 900000000000] ∧
    (MonitorLoop.ticks (MonitorLoop.call
        { m := { minBalance := F64.fin 1, checkInterval := 300000000000,
                 resultChan := { buf := [sampleOf 2000000000 0 (F64.fin 1)], cap := 1 } },
          period := 300000000000, nextTick := 300000000000, polls := [0] }
        (fun m => m.UpdateCheckInterval 60000000000))
      [Except.ok 2000000000, Except.ok 2000000000, Except.ok 2000000000]).m.checkInterval =
      60000000000 :=
  ⟨by decide!, by decide!,
    (update_on_running_loop (NewMonitor (F64.fin 1) 300000000000) (Except.ok 2000000000) 0 _
      (F64.fin (5 / 2)) 60000000000
      [Except.ok 2000000000, Except.ok 2000000000, Except.ok 2000000000]
      (by decide!)).2.2.2.1.trans (by decide!),
    (update_on_running_loop (NewMonitor (F64.fin 1) 300000000000) (Except.ok 2000000000) 0 _
      (F64.fin (5 / 2)) 60000000000
      [Except.ok 2000000000, Except.ok 2000000000, Except.ok 2000000000]
      (by decide!)).2.1⟩

end Refill
